import Mathlib

/-!
Verification development for the distributed physical query planner in
`pkg/sql/distsql_physical_planner.go`.

The Go source is shallowly embedded: keys are natural numbers, key spans are
half-open intervals `[key, endKey)`, node ids are natural numbers (the Go
`roachpb.NodeID` zero value is the "no node" sentinel, and real node ids are
positive), addresses are strings.  Mutable state (the planning context's
node-address map, the per-call version-compatibility cache, the partition
list) is threaded explicitly.  Go `panic` / `log.Fatal` outcomes are modelled
as `Except` errors; ordinary slice indexing that the source guarantees to be
in bounds is modelled with `getD` and the corresponding well-formedness
hypotheses appear on the theorems.
-/

/-- A key span `[key, endKey)` over the (address-resolved) key space
(`roachpb.Span` / `roachpb.RSpan`). -/
structure Span where
  key : Nat
  endKey : Nat
deriving Repr, DecidableEq

/-- Membership of a key in a span. -/
def Span.contains (s : Span) (k : Nat) : Prop := s.key ≤ k ∧ k < s.endKey

instance (s : Span) (k : Nat) : Decidable (s.contains k) := by
  unfold Span.contains; infer_instance

/-- Two spans are non-overlapping when one ends before the other begins. -/
def Span.disjoint (a b : Span) : Prop := a.endKey ≤ b.key ∨ b.endKey ≤ a.key

instance (a b : Span) : Decidable (a.disjoint b) := by
  unfold Span.disjoint; infer_instance

/-- A range descriptor together with the lease holder information the span
resolver iterator reports for it (`it.Desc()` and
`it.ReplicaInfo(ctx).NodeDesc.NodeID`). -/
structure RangeInfo where
  rstart : Nat
  rend : Nat
  node : Nat
deriving Repr, DecidableEq

/-- Result of `rpcContext.ConnHealth(addr)`: healthy, one of the two
soft-failure errors (`rpc.ErrNotConnected`, `rpc.ErrNotHeartbeated`), or any
other error. -/
inductive ConnHealth where
  | healthy
  | errNotConnected
  | errNotHeartbeated
  | otherErr
deriving Repr, DecidableEq

/-- DistSQL version range a node advertises in gossip
(`DistSQLVersionGossipInfo`): minimum accepted version and current version. -/
structure VersionInfo where
  minAccepted : Nat
  version : Nat
deriving Repr, DecidableEq

/-- The read-only cluster environment the planner consults: the gateway node
descriptor, the range resolver (as the function giving the range containing a
key), node addresses as reported by replica info, the gossip view and the
connectivity probe, and the plan's DistSQL version. -/
structure Env where
  gateway : Nat
  gatewayAddr : String
  resolve : Nat → RangeInfo
  nodeAddr : Nat → String
  gossipKnows : Nat → Bool
  connHealth : String → ConnHealth
  verInfo : Nat → Option VersionInfo
  planVersion : Nat

/-- Modelled from the spec: `distsqlrun.FlowVerIsCompatible` — "obtain the
node's advertised min-accepted and current distsql version; the plan version
must lie within that window" (that function lives outside this file's
source). -/
def FlowVerIsCompatible (flowVer minAcceptedVersion version : Nat) : Bool :=
  minAcceptedVersion ≤ flowVer && flowVer ≤ version

/-- Embeds `nodeVersionIsCompatible` (lines 628-636): a gossip error means
incompatible, otherwise the version window is checked. -/
def nodeVersionIsCompatible (env : Env) (nodeID : Nat) : Bool :=
  match env.verInfo nodeID with
  | none => false
  | some v => FlowVerIsCompatible env.planVersion v.minAccepted v.version

/-- Embeds the `checkNodeHealth` closure (lines 544-567): the node must still
be known to gossip, and the connectivity probe must not fail with anything
other than the two soft-failure errors. -/
def checkNodeHealth (env : Env) (nodeID : Nat) (addr : String) : Bool :=
  env.gossipKnows nodeID &&
    (match env.connHealth addr with
     | .healthy => true
     | .errNotConnected => true
     | .errNotHeartbeated => true
     | .otherErr => false)

/-- The address the health-check block leaves in `addr` for a node that is not
yet cached: the advertised address on success and the empty string on
failure (lines 541-570). -/
def nodeHealthyAddr (env : Env) (nodeID : Nat) : String :=
  if checkNodeHealth env nodeID (env.nodeAddr nodeID) then env.nodeAddr nodeID else ""

/-- A node can keep its own ranges exactly when its health-checked address is
non-empty and its DistSQL version is compatible with the plan (the negation
of the substitution condition on line 588). -/
def nodeUsable (env : Env) (nodeID : Nat) : Bool :=
  nodeHealthyAddr env nodeID ≠ "" && nodeVersionIsCompatible env nodeID

/-- One partition of the input spans: the spans of ranges assigned to one
node (`spanPartition`, lines 465-468). -/
structure SpanPartition where
  node : Nat
  spans : List Span
deriving Repr, DecidableEq

/-- Association-list lookup, modelling a read of a Go map. -/
def lookupN {α : Type} : List (Nat × α) → Nat → Option α
  | [], _ => none
  | (k, v) :: rest, n => if k = n then some v else lookupN rest n

/-- State threaded through `partitionSpans`: the partitions built so far, the
planning context's node-address map (`planCtx.nodeAddresses`), and the
per-call version-compatibility cache (`nodeVerCompatMap`).  The Go
`nodeMap : NodeID → partition index` always maps a node to the unique
partition carrying it, so it is represented by lookup over `partitions`. -/
structure PartState where
  partitions : List SpanPartition
  nodeAddresses : List (Nat × String)
  nodeVerCompatMap : List (Nat × Bool)
deriving Repr, DecidableEq

/-- Does some partition already belong to this node (the `nodeMap`
membership test)? -/
def hasPartition (parts : List SpanPartition) (n : Nat) : Bool :=
  parts.any (fun part => part.node = n)

/-- Embeds the address-cache block (lines 541-574): a cached address is used
as is; otherwise the advertised address is health-checked, an empty address
recorded on failure, and a passing non-empty address cached. -/
def healthCheckAddr (env : Env) (st : PartState) (nodeID : Nat) :
    String × List (Nat × String) :=
  match lookupN st.nodeAddresses nodeID with
  | some a => (a, st.nodeAddresses)
  | none =>
    if checkNodeHealth env nodeID (env.nodeAddr nodeID) then
      (env.nodeAddr nodeID,
        if env.nodeAddr nodeID ≠ "" then (nodeID, env.nodeAddr nodeID) :: st.nodeAddresses
        else st.nodeAddresses)
    else ("", st.nodeAddresses)

/-- Embeds the version-compatibility cache block (lines 575-584). -/
def versionCheckCached (env : Env) (vmap : List (Nat × Bool)) (nodeID : Nat) :
    Bool × List (Nat × Bool) :=
  match lookupN vmap nodeID with
  | some c => (c, vmap)
  | none => (nodeVersionIsCompatible env nodeID,
      (nodeID, nodeVersionIsCompatible env nodeID) :: vmap)

/-- Embeds the node-selection block of `partitionSpans` (lines 536-599): for
a node not seen before in this call, fetch or health-check its address,
check version compatibility (cached), and substitute the gateway when the
address is empty or the version incompatible.  Returns the chosen node and
the updated caches. -/
def chooseNode (env : Env) (st : PartState) (nodeID : Nat) :
    Nat × List (Nat × String) × List (Nat × Bool) :=
  if hasPartition st.partitions nodeID then
    (nodeID, st.nodeAddresses, st.nodeVerCompatMap)
  else
    let res := healthCheckAddr env st nodeID
    let resV :=
      if res.1 ≠ "" then versionCheckCached env st.nodeVerCompatMap nodeID
      else (true, st.nodeVerCompatMap)
    if res.1 = "" ∨ resV.1 = false then (env.gateway, res.2, resV.2)
    else (nodeID, res.2, resV.2)

/-- Replaces the end key of the last span in a list (the coalescing write
`partition.spans[len(partition.spans)-1].EndKey = endKey`). -/
def setLastEnd : List Span → Nat → List Span
  | [], _ => []
  | [s], e => [⟨s.key, e⟩]
  | s :: rest, e => s :: setLastEnd rest e

/-- Appends a span to the partition of the given node, creating the
partition at the end of the list when the node has none yet (lines 595-599
and 607-611). -/
def addPieceApp : List SpanPartition → Nat → Span → List SpanPartition
  | [], n, piece => [⟨n, [piece]⟩]
  | part :: rest, n, piece =>
    if part.node = n then ⟨part.node, part.spans ++ [piece]⟩ :: rest
    else part :: addPieceApp rest n piece

/-- Coalesces two consecutive ranges on the same node by extending the last
span of that node's partition (lines 603-606). -/
def coalesceLast : List SpanPartition → Nat → Nat → List SpanPartition
  | [], _, _ => []
  | part :: rest, n, newEnd =>
    if part.node = n then ⟨part.node, setLastEnd part.spans newEnd⟩ :: rest
    else part :: coalesceLast rest n newEnd

/-- Failure outcomes of `partitionSpans`: the `panic("no spans")` on an empty
input (line 483), the `log.Fatalf` when a range does not cover the last end
key (lines 522-528), and exhaustion of the loop fuel (never reached when the
resolver is well-formed: every iteration advances the frontier by at least
one key). -/
inductive PartErr where
  | panicNoSpans
  | rangeGap
  | fuelOut
deriving Repr, DecidableEq

/-- The end key of the current piece: the range's end clipped to the span
being resolved (lines 530-534). -/
def stepEndKey (env : Env) (rspan : Span) (lastKey : Nat) : Nat :=
  min (env.resolve lastKey).rend rspan.endKey

/-- One iteration of the range loop acting on the state (lines 536-611):
choose the node for the range containing `lastKey` (with gateway
substitution and cache updates) and append the clipped piece
`[lastKey, endKey)` to its partition, coalescing with the previous piece
when two consecutive ranges land on the same node. -/
def stepState (env : Env) (st : PartState) (rspan : Span) (lastKey lastNodeID : Nat) :
    PartState :=
  let cn := chooseNode env st (env.resolve lastKey).node
  ⟨if lastNodeID = cn.1 then
     coalesceLast st.partitions cn.1 (stepEndKey env rspan lastKey)
   else addPieceApp st.partitions cn.1 ⟨lastKey, stepEndKey env rspan lastKey⟩,
   cn.2.1, cn.2.2⟩

/-- Embeds the inner range loop of `partitionSpans` (lines 503-620) for one
span: resolve the range containing `lastKey` (fatal if it does not contain
it), clip it to the span, run one `stepState` iteration, and continue until
the span is exhausted.  `fuel` bounds the number of iterations;
`rspan.endKey - lastKey + 1` always suffices because every iteration
advances the frontier. -/
def processSpan (env : Env) : Nat → PartState → Span → Nat → Nat → Except PartErr PartState
  | 0, _, _, _, _ => .error .fuelOut
  | fuel + 1, st, rspan, lastKey, lastNodeID =>
    if (env.resolve lastKey).rstart ≤ lastKey ∧ lastKey < (env.resolve lastKey).rend then
      if rspan.endKey ≤ stepEndKey env rspan lastKey then
        .ok (stepState env st rspan lastKey lastNodeID)
      else
        processSpan env fuel (stepState env st rspan lastKey lastNodeID) rspan
          (stepEndKey env rspan lastKey) (chooseNode env st (env.resolve lastKey).node).1
    else .error .rangeGap

/-- Folds `processSpan` over the input spans (the outer loop of
`partitionSpans`, lines 493-621); each span starts with `lastKey` at its
start key and the zero `lastNodeID` sentinel. -/
def partitionLoop (env : Env) : PartState → List Span → Except PartErr PartState
  | st, [] => .ok st
  | st, sp :: rest =>
    match processSpan env (sp.endKey - sp.key + 1) st sp sp.key 0 with
    | .error e => .error e
    | .ok st' => partitionLoop env st' rest

/-- Embeds `partitionSpans` (lines 479-623).  `nodeAddresses` is the
planning context's node-address map at entry; `NewPlanningCtx` initialises
it with the gateway's address only. -/
def partitionSpans (env : Env) (nodeAddresses : List (Nat × String)) (spans : List Span) :
    Except PartErr PartState :=
  if spans = [] then .error .panicNoSpans
  else partitionLoop env ⟨[], nodeAddresses, []⟩ spans

/-- The node-address map `NewPlanningCtx` creates (lines 2358-2366): only the
gateway's address is present. -/
def newPlanningCtxAddresses (env : Env) : List (Nat × String) :=
  [(env.gateway, env.gatewayAddr)]

/-- All span pieces of a partition list, in partition order. -/
def piecesOf (parts : List SpanPartition) : List Span :=
  parts.flatMap (fun part => part.spans)

/-- A key is covered by some span in a list. -/
def coveredBy (l : List Span) (k : Nat) : Prop := ∃ s ∈ l, s.contains k

/-- A key is covered inside the partition of some node satisfying `P`. -/
def nodeCovers (parts : List SpanPartition) (n : Nat) (k : Nat) : Prop :=
  ∃ part ∈ parts, part.node = n ∧ coveredBy part.spans k

/-- Geometric invariant of the partition list while the frontier (the next
key to be assigned) is at `F`: every emitted piece is a well-formed interval
ending at or before the frontier, each partition's spans are in ascending
disjoint order, and all pieces are pairwise non-overlapping. -/
structure GeoInv (F : Nat) (parts : List SpanPartition) : Prop where
  wf : ∀ s ∈ piecesOf parts, s.key < s.endKey
  bounded : ∀ s ∈ piecesOf parts, s.endKey ≤ F
  chains : ∀ part ∈ parts, List.Chain' (fun a b => a.endKey ≤ b.key) part.spans
  disj : (piecesOf parts).Pairwise Span.disjoint

/-- The partition a node's pieces go to (the partition `nodeMap` points at). -/
def findPart (parts : List SpanPartition) (n : Nat) : Option SpanPartition :=
  parts.find? (fun part => part.node = n)

/-- Within-span bookkeeping: when the previous range went to `n` (the
`lastNodeID` sentinel is `0` otherwise), `n` owns a partition whose last
span ends exactly at the current frontier. -/
def lastFits (parts : List SpanPartition) (n : Nat) (k : Nat) : Prop :=
  n ≠ 0 → ∃ part s, findPart parts n = some part ∧
    part.spans.getLast? = some s ∧ s.endKey = k

/-- Soundness of the planning caches and of the nodes that own partitions:
partitions belong to the gateway or to usable nodes, cached addresses for
non-gateway nodes are exactly the health-checked (non-empty) addresses, and
the version cache agrees with `nodeVersionIsCompatible`. -/
structure NodeInv (env : Env) (st : PartState) : Prop where
  sound : ∀ part ∈ st.partitions, part.node = env.gateway ∨ nodeUsable env part.node = true
  addrs : ∀ p ∈ st.nodeAddresses, p.1 ≠ env.gateway →
    p.2 = nodeHealthyAddr env p.1 ∧ p.2 ≠ ""
  vmap : ∀ p ∈ st.nodeVerCompatMap, p.2 = nodeVersionIsCompatible env p.1

/-- A range resolver behaving as the span-resolver contract demands: every
returned descriptor contains the sought key. -/
def ResolverValid (env : Env) : Prop :=
  ∀ k, (env.resolve k).rstart ≤ k ∧ k < (env.resolve k).rend

/-- A resolver presenting a consistent partition of the key space: keys
inside a returned range resolve to that same range. -/
def ResolverConsistent (env : Env) : Prop :=
  ∀ k k', (env.resolve k).rstart ≤ k' → k' < (env.resolve k).rend →
    env.resolve k' = env.resolve k

/-- All node ids the environment can produce are real (non-zero) ids. -/
def NodesNonZero (env : Env) : Prop :=
  env.gateway ≠ 0 ∧ ∀ k, (env.resolve k).node ≠ 0

/-- Input span lists accepted by the callers of the partitioner: at least one
span, each well-formed, in ascending non-overlapping order. -/
def SpansWellFormed (spans : List Span) : Prop :=
  spans ≠ [] ∧ (∀ sp ∈ spans, sp.key < sp.endKey) ∧
    spans.Chain' (fun a b => a.endKey ≤ b.key)

/-- Healthy single-node world used as a counterexample environment: every key
is its own range, owned by node 2; all health and version checks pass. -/
def envOverlap : Env where
  gateway := 1
  gatewayAddr := "a1"
  resolve := fun k => ⟨k, k + 1, 2⟩
  nodeAddr := fun n => "a" ++ toString n
  gossipKnows := fun _ => true
  connHealth := fun _ => .healthy
  verInfo := fun _ => some ⟨0, 10⟩
  planVersion := 5

/-- Three-node world: node 2 owns `[0,5)`, node 3 owns `[5,10)`, the gateway
(node 1) owns everything from 10 on (one range per key); node 3 fails the
connectivity probe. -/
def envW : Env where
  gateway := 1
  gatewayAddr := "a1"
  resolve := fun k => if k < 5 then ⟨0, 5, 2⟩ else if k < 10 then ⟨5, 10, 3⟩ else ⟨k, k + 1, 1⟩
  nodeAddr := fun n => "a" ++ toString n
  gossipKnows := fun _ => true
  connHealth := fun a => if a = "a3" then .otherErr else .healthy
  verInfo := fun _ => some ⟨0, 10⟩
  planVersion := 5

/-! Physical plan model (`distsqlplan.PhysicalPlan` plus the
`planToStreamColMap` of `sql.physicalPlan`). -/

/-- Column type (`sqlbase.ColumnType`), modelled as an opaque enumeration. -/
abbrev ColType := Nat

/-- DOrdering direction (`distsqlrun.Ordering_Column_ASC/DESC`,
`encoding.Ascending/Descending`). -/
inductive Dir where
  | asc
  | desc
deriving Repr, DecidableEq

/-- One column of an ordering (`distsqlrun.Ordering_Column`, also used for
the planNode-level `sqlbase.ColumnOrdering` entries). -/
structure OrderingCol where
  colIdx : Nat
  direction : Dir
deriving Repr, DecidableEq

/-- An ordering (`distsqlrun.Ordering`); `columns = []` plays the role of the
Go zero value with a nil `Columns` slice. -/
structure DOrdering where
  columns : List OrderingCol := []
deriving Repr, DecidableEq

/-- The sentinel "streams need not be merged" ordering (line 441). -/
def orderingTerminated : DOrdering := {}

/-- Expressions (`parser.Expr`) as far as the support predicate inspects
them: subqueries, function calls (with their DistSQL-blacklist marking),
ordinal references, a generic binary node and literals.  A call's argument
list is represented by one argument subtree (arguments nest via `binOp`). -/
inductive PExpr where
  | subquery
  | funcExpr (name : String) (blacklisted : Bool) (arg : PExpr)
  | ivar (idx : Nat)
  | binOp (l r : PExpr)
  | lit (v : Nat)
deriving Repr, DecidableEq

/-- Aggregation function (`distsqlrun.AggregatorSpec_Func`), modelled as the
enum's numeric value. -/
abbrev AggFunc := Nat

/-- The `AggregatorSpec_IDENT` enum value. -/
def aggIdent : AggFunc := 0

/-- One aggregation (`distsqlrun.AggregatorSpec_Aggregation`).  Structural
equality of this record is the `Equals` used for de-duplication. -/
structure Aggregation where
  func : AggFunc
  distinct : Bool := false
  colIdx : List Nat := []
  filterColIdx : Option Nat := none
deriving Repr, DecidableEq

/-- `distsqlrun.AggregatorSpec`. -/
structure AggregatorSpec where
  aggregations : List Aggregation := []
  groupCols : List Nat := []
deriving Repr, DecidableEq

/-- `distsqlrun.DistinctSpec`. -/
structure DistinctSpec where
  orderedColumns : List Nat := []
  distinctColumns : List Nat := []
deriving Repr, DecidableEq

/-- `distsqlrun.JoinReaderSpec` (table and index selector). -/
structure JoinReaderSpec where
  tableId : Nat := 0
  indexIdx : Nat := 0
deriving Repr, DecidableEq

/-- `distsqlrun.JoinType`. -/
inductive JoinType where
  | inner
  | leftOuter
  | rightOuter
  | fullOuter
deriving Repr, DecidableEq

/-- `distsqlrun.HashJoinerSpec`.  `onExpr` carries the ON condition together
with the ordinal remap `MakeExpression` is given (line 2065). -/
structure HashJoinerSpec where
  leftEqColumns : List Nat := []
  rightEqColumns : List Nat := []
  onExpr : Option (PExpr × List Int) := none
  joinType : JoinType := .inner
  mergedColumns : Bool := false
deriving Repr, DecidableEq

/-- `distsqlrun.MergeJoinerSpec`. -/
structure MergeJoinerSpec where
  leftOrdering : DOrdering := {}
  rightOrdering : DOrdering := {}
  onExpr : Option (PExpr × List Int) := none
  joinType : JoinType := .inner
deriving Repr, DecidableEq

/-- `distsqlrun.SorterSpec`. -/
structure SorterSpec where
  outputOrdering : DOrdering := {}
  orderingMatchLen : Nat := 0
deriving Repr, DecidableEq

/-- The tagged processor-core union (`distsqlrun.ProcessorCoreUnion`),
restricted to the cores this file builds. -/
inductive ProcessorCore where
  | noop
  | tableReader (spans : List Span)
  | joinReader (spec : JoinReaderSpec)
  | hashJoiner (spec : HashJoinerSpec)
  | mergeJoiner (spec : MergeJoinerSpec)
  | aggregator (spec : AggregatorSpec)
  | distinct (spec : DistinctSpec)
  | sorter (spec : SorterSpec)
  | values
  | backfiller
deriving Repr, DecidableEq

/-- A stream endpoint in a router's stream list
(`distsqlrun.StreamEndpointSpec`): a populated transport endpoint or the
sync-response sentinel. -/
inductive StreamEndpointSpec where
  | endpoint (addr : String)
  | syncResponse
deriving Repr, DecidableEq

/-- `distsqlrun.OutputRouterSpec_Type`. -/
inductive OutputRouterType where
  | passThrough
  | byHash
  | byRange
deriving Repr, DecidableEq

/-- `distsqlrun.OutputRouterSpec`.  The source always keeps a one-element
`Output` slice and addresses it as `Output[0]`, so the processor spec below
holds a single router. -/
structure OutputRouterSpec where
  type : OutputRouterType := .passThrough
  hashColumns : List Nat := []
  streams : List StreamEndpointSpec := []
deriving Repr, DecidableEq

/-- `distsqlrun.InputSyncSpec` (only the column types are built here; the
other fields are filled in by the execution layer). -/
structure InputSyncSpec where
  columnTypes : List ColType := []
deriving Repr, DecidableEq

/-- `distsqlrun.PostProcessSpec`. -/
structure PostProcessSpec where
  filter : Option PExpr := none
  projection : Bool := false
  outputColumns : List Nat := []
  renderExprs : List PExpr := []
  limit : Nat := 0
  offset : Nat := 0
deriving Repr, DecidableEq

/-- `distsqlrun.ProcessorSpec`. -/
structure ProcessorSpec where
  input : List InputSyncSpec := []
  core : ProcessorCore := .noop
  post : PostProcessSpec := {}
  output : OutputRouterSpec := {}
  stageID : Nat := 0
deriving Repr, DecidableEq

/-- `distsqlplan.Processor`: a spec placed on a node. -/
structure Processor where
  node : Nat
  spec : ProcessorSpec
deriving Repr, DecidableEq

/-- The default used where the source would index out of bounds (which it
assumes never happens). -/
def defaultProcessor : Processor := ⟨0, {}⟩

/-- `distsqlplan.Stream`. -/
structure PStream where
  sourceProcessor : Nat
  sourceRouterSlot : Nat
  destProcessor : Nat
  destInput : Nat
deriving Repr, DecidableEq

/-- `distsqlplan.PhysicalPlan` together with the `planToStreamColMap` that
`sql.physicalPlan` (lines 424-437) adds on top of it. -/
structure PhysicalPlan where
  processors : List Processor := []
  streams : List PStream := []
  resultRouters : List Nat := []
  resultTypes : List ColType := []
  mergeOrdering : DOrdering := {}
  stageCounter : Nat := 0
  planToStreamColMap : List Int := []
deriving Repr, DecidableEq

/-- In-place update of one list element (a Go slice-element assignment). -/
def modifyAt {α : Type} : List α → Nat → (α → α) → List α
  | [], _, _ => []
  | x :: rest, 0, f => f x :: rest
  | x :: rest, i + 1, f => x :: modifyAt rest i f

/-- Modelled from the spec: `distsqlplan.PhysicalPlan.AddSingleGroupStage`
(outside src/) — a "single-stage" processor on the given node whose input
merges all current result routers; it becomes the sole result router and
the plan's result types become the stage's output types (spec §4.6, §4.7,
§4.8). -/
def AddSingleGroupStage (p : PhysicalPlan) (node : Nat) (core : ProcessorCore)
    (post : PostProcessSpec) (outputTypes : List ColType) : PhysicalPlan :=
  let stageID := p.stageCounter + 1
  let pIdx := p.processors.length
  let proc : Processor := ⟨node,
    { input := [⟨p.resultTypes⟩], core := core, post := post, output := {},
      stageID := stageID }⟩
  { p with
    processors := p.processors ++ [proc],
    streams := p.streams ++ p.resultRouters.map (fun r => ⟨r, 0, pIdx, 0⟩),
    resultRouters := [pIdx],
    resultTypes := outputTypes,
    mergeOrdering := {},
    stageCounter := stageID }

/-- Modelled from the spec: `distsqlplan.PhysicalPlan.AddNoGroupingStage`
(outside src/) — a "no-grouping stage" that "preserves upstream parallelism
and ordering" (spec §4.4): one processor per current result router, placed
on that router's node and fed from it alone; the new processors become the
result routers and the given ordering the plan's merge ordering. -/
def AddNoGroupingStage (p : PhysicalPlan) (core : ProcessorCore) (post : PostProcessSpec)
    (outputTypes : List ColType) (newOrdering : DOrdering) : PhysicalPlan :=
  let stageID := p.stageCounter + 1
  let base := p.processors.length
  let newProcs : List Processor := p.resultRouters.map (fun r =>
    ⟨(p.processors.getD r defaultProcessor).node,
      { input := [⟨p.resultTypes⟩], core := core, post := post, output := {},
        stageID := stageID }⟩)
  let newStreams : List PStream := (List.range p.resultRouters.length).map (fun i =>
    ⟨p.resultRouters.getD i 0, 0, base + i, 0⟩)
  { p with
    processors := p.processors ++ newProcs,
    streams := p.streams ++ newStreams,
    resultRouters := (List.range p.resultRouters.length).map (fun i => base + i),
    resultTypes := outputTypes,
    mergeOrdering := newOrdering,
    stageCounter := stageID }

/-- Modelled from the spec: `distsqlplan.MergePlans` (outside src/) — "merge
the two physical plans (disjoint processor/stream union) while remembering
each side's router list" (spec §4.5). -/
def MergePlans (left right : PhysicalPlan) : PhysicalPlan × List Nat × List Nat :=
  let shift := left.processors.length
  ({ processors := left.processors ++ right.processors,
     streams := left.streams ++ right.streams.map (fun s =>
       ⟨s.sourceProcessor + shift, s.sourceRouterSlot, s.destProcessor + shift, s.destInput⟩),
     resultRouters := [],
     resultTypes := [],
     mergeOrdering := {},
     stageCounter := left.stageCounter + right.stageCounter,
     planToStreamColMap := [] },
   left.resultRouters, right.resultRouters.map (fun r => r + shift))

/-- Modelled from the spec: `distsqlplan.PhysicalPlan.MergeResultStreams`
(outside src/) — connect the given slot of each listed router to one input
of the destination processor; the ordering parameter configures the input
synchronizer and leaves the graph shape untouched. -/
def MergeResultStreams (p : PhysicalPlan) (routers : List Nat) (slot : Nat)
    (ord : DOrdering) (dest destInput : Nat) : PhysicalPlan :=
  { p with streams := p.streams ++ routers.map (fun r => ⟨r, slot, dest, destInput⟩) }

/-- Modelled from the spec: `distsqlplan.PhysicalPlan.SetMergeOrdering`
(outside src/). -/
def SetMergeOrdering (p : PhysicalPlan) (ord : DOrdering) : PhysicalPlan :=
  { p with mergeOrdering := ord }

/-- Modelled from the spec: `distsqlplan.PhysicalPlan.PopulateEndpoints`
(outside src/) — "populate each stream's source/destination endpoint with
the transport address from the planning context's node-address map" (spec
§4.8): for every stream, an endpoint holding the destination node's address
is appended to the source processor's output router. -/
def PopulateEndpoints (p : PhysicalPlan) (addrs : List (Nat × String)) : PhysicalPlan :=
  p.streams.foldl (fun q s =>
    let destAddr := (lookupN addrs
      (q.processors.getD s.destProcessor defaultProcessor).node).getD ""
    { q with processors := modifyAt q.processors s.sourceProcessor (fun proc =>
        { proc with spec := { proc.spec with output :=
            { proc.spec.output with
              streams := proc.spec.output.streams ++ [.endpoint destAddr] } } }) }) p

/-- The final write of `FinalizePlan` (lines 2391-2394): append the
sync-response endpoint to the single result router's output. -/
def appendSyncResponse (p : PhysicalPlan) : PhysicalPlan :=
  { p with processors := modifyAt p.processors (p.resultRouters.headD 0) (fun proc =>
      { proc with spec := { proc.spec with output :=
          { proc.spec.output with
            streams := proc.spec.output.streams ++ [.syncResponse] } } }) }

/-- Embeds `FinalizePlan` (lines 2370-2395): add a final no-op stage on the
gateway unless the plan already has a single result router there, populate
the stream endpoints from the node-address map, and attach the sync-response
endpoint to the result router's output. -/
def FinalizePlan (gateway : Nat) (nodeAddresses : List (Nat × String))
    (plan : PhysicalPlan) : PhysicalPlan :=
  let plan :=
    if plan.resultRouters.length ≠ 1 ∨
        (plan.processors.getD (plan.resultRouters.headD 0) defaultProcessor).node ≠ gateway
    then AddSingleGroupStage plan gateway .noop {} plan.resultTypes
    else plan
  let plan := PopulateEndpoints plan nodeAddresses
  appendSyncResponse plan

/-- A small two-node plan (readers on nodes 2 and 3, gateway 1) used to
instantiate the finalizer theorem. -/
def witnessPlan : PhysicalPlan where
  processors := [⟨2, { core := .tableReader [⟨0, 5⟩] }⟩, ⟨3, { core := .tableReader [⟨5, 9⟩] }⟩]
  streams := []
  resultRouters := [0, 1]
  resultTypes := [7]
  mergeOrdering := {}
  stageCounter := 1
  planToStreamColMap := [0]

/-- String-keyed association-list lookup (the `inverted` map of
`sanityCheckAddresses`). -/
def lookupS {α : Type} : List (String × α) → String → Option α
  | [], _ => none
  | (k, v) :: rest, s => if k = s then some v else lookupS rest s

/-- The loop of `sanityCheckAddresses` (lines 404-412) with its `inverted`
map made explicit. -/
def sanityCheckAddressesGo (inverted : List (String × Nat)) :
    List (Nat × String) → Except (Nat × Nat × String) Unit
  | [] => .ok ()
  | (nodeID, addr) :: rest =>
    match lookupS inverted addr with
    | some otherNodeID => .error (nodeID, otherNodeID, addr)
    | none => sanityCheckAddressesGo ((addr, nodeID) :: inverted) rest

/-- Embeds `planningCtx.sanityCheckAddresses` (lines 401-414): returns a
hard error naming the two node ids and the shared address when the same
address is used by two nodes. -/
def sanityCheckAddresses (nodeAddresses : List (Nat × String)) :
    Except (Nat × Nat × String) Unit :=
  sanityCheckAddressesGo [] nodeAddresses

/-- `parser.Type` restricted to what the support check inspects: the tuple
family, arrays (whose element may again be an array), and everything else
(scalar). -/
inductive PType where
  | tuple
  | array (elem : PType)
  | scalar
deriving Repr, DecidableEq

/-- `leafType` (lines 244-249): the element type if the given type is an
array (recursively), the type itself otherwise. -/
def leafType : PType → PType
  | .array t => leafType t
  | t => t

/-- `distRecommendation` (lines 196-209). -/
inductive DistRec where
  | shouldNotDistribute
  | canDistribute
  | shouldDistribute
deriving Repr, DecidableEq

/-- `distRecommendation.compose` (lines 213-221). -/
def DistRec.compose : DistRec → DistRec → DistRec
  | .shouldNotDistribute, _ => .shouldNotDistribute
  | _, .shouldNotDistribute => .shouldNotDistribute
  | .shouldDistribute, _ => .shouldDistribute
  | _, .shouldDistribute => .shouldDistribute
  | _, _ => .canDistribute

/-- The walk of `distSQLExprCheckVisitor` over one (non-nil) expression
(lines 151-167 with `parser.WalkExprConst`): pre-order, stopping at the
first error; subqueries and blacklisted functions are rejected. -/
def checkExprE : PExpr → Except String Unit
  | .subquery => .error "subqueries not supported yet"
  | .funcExpr name blacklisted arg =>
    if blacklisted then
      .error ("function " ++ name ++ " cannot be executed with distsql")
    else checkExprE arg
  | .binOp l r =>
    match checkExprE l with
    | .error e => .error e
    | .ok _ => checkExprE r
  | .ivar _ => .ok ()
  | .lit _ => .ok ()

/-- `checkExpr` (lines 172-179): nil expressions pass. -/
def checkExpr : Option PExpr → Except String Unit
  | none => .ok ()
  | some e => checkExprE e

/-- The logical plan tree (`planNode`) restricted to the cases
`checkSupportForNode` distinguishes; data irrelevant to the support check
is dropped. -/
inductive PlanTree where
  | filterN (filter : Option PExpr) (source : PlanTree)
  | renderN (render : List (PExpr × PType)) (source : PlanTree)
  | sortN (needSort : Bool) (plan : PlanTree)
  | joinN (onCond : Option PExpr) (numLeftEq : Nat) (left right : PlanTree)
  | scanN (hardLimit softLimit : Nat) (filter : Option PExpr)
      (spans : List Span) (indexSpan : Span)
  | indexJoinN (table index : PlanTree)
  | groupN (funcs : List PExpr) (plan : PlanTree)
  | limitN (countExpr offsetExpr : Option PExpr) (plan : PlanTree)
  | distinctN (plan : PlanTree)
  | valuesN (hasSQL : Bool) (tuples : List (List PExpr))
  | insertN
  | updateN
  | deleteN
  | setN
  | setClusterSettingN
  | otherN
deriving Repr, DecidableEq

/-- The renderNode loop (lines 263-271): tuple-leaf output types are
rejected, then each render expression is checked. -/
def checkRenderList : List (PExpr × PType) → Except String Unit
  | [] => .ok ()
  | (e, ty) :: rest =>
    if leafType ty = PType.tuple then .error "unsupported render type"
    else
      match checkExprE e with
      | .error err => .error err
      | .ok _ => checkRenderList rest

/-- The groupNode loop (lines 336-343): an ARRAY_AGG aggregate (by
upper-cased function name) is rejected. -/
def checkGroupFuncs : List PExpr → Except String Unit
  | [] => .ok ()
  | f :: rest =>
    match f with
    | .funcExpr name _ _ =>
      if name.toUpper = "ARRAY_AGG" then
        .error "ARRAY_AGG aggregation not supported yet"
      else checkGroupFuncs rest
    | _ => checkGroupFuncs rest

/-- One tuple of a valuesNode (inner loop of lines 367-373). -/
def checkTuple : List PExpr → Except String Unit
  | [] => .ok ()
  | e :: rest =>
    match checkExprE e with
    | .error err => .error err
    | .ok _ => checkTuple rest

/-- All tuples of a valuesNode (lines 367-373). -/
def checkTuples : List (List PExpr) → Except String Unit
  | [] => .ok ()
  | t :: rest =>
    match checkTuple t with
    | .error err => .error err
    | .ok _ => checkTuples rest

/-- `checkSupportForNode` (lines 254-388): returns a distribution
recommendation or a query-not-supported error; `if err != nil` early
returns are the explicit error matches. -/
def checkSupportForNode : PlanTree → Except String DistRec
  | .filterN filter source =>
    match checkExpr filter with
    | .error e => .error e
    | .ok _ => checkSupportForNode source
  | .renderN render source =>
    match checkRenderList render with
    | .error e => .error e
    | .ok _ => checkSupportForNode source
  | .sortN needSort plan =>
    match checkSupportForNode plan with
    | .error e => .error e
    | .ok r => .ok (if needSort then r.compose .shouldDistribute else r)
  | .joinN onCond numLeftEq left right =>
    match checkExpr onCond with
    | .error e => .error e
    | .ok _ =>
      match checkSupportForNode left with
      | .error e => .error e
      | .ok recLeft =>
        match checkSupportForNode right with
        | .error e => .error e
        | .ok recRight =>
          .ok (if 0 < numLeftEq then
                 (recLeft.compose recRight).compose .shouldDistribute
               else recLeft.compose recRight)
  | .scanN hardLimit softLimit filter spans indexSpan =>
    match filter with
    | none =>
      .ok (if spans.length = 1 ∧ spans.getD 0 ⟨0, 0⟩ = indexSpan then
             (if hardLimit ≠ 0 ∨ softLimit ≠ 0 then
                DistRec.shouldNotDistribute
              else DistRec.canDistribute).compose .shouldDistribute
           else
             if hardLimit ≠ 0 ∨ softLimit ≠ 0 then
               DistRec.shouldNotDistribute
             else DistRec.canDistribute)
    | some f =>
      match checkExprE f with
      | .error e => .error e
      | .ok _ =>
        .ok (if spans.length = 1 ∧ spans.getD 0 ⟨0, 0⟩ = indexSpan then
               ((if hardLimit ≠ 0 ∨ softLimit ≠ 0 then
                   DistRec.shouldNotDistribute
                 else DistRec.canDistribute).compose .shouldDistribute).compose
                 .shouldDistribute
             else
               (if hardLimit ≠ 0 ∨ softLimit ≠ 0 then
                  DistRec.shouldNotDistribute
                else DistRec.canDistribute).compose .shouldDistribute)
  | .indexJoinN table index =>
    match checkSupportForNode table with
    | .error e => .error e
    | .ok _ => checkSupportForNode index
  | .groupN funcs plan =>
    match checkGroupFuncs funcs with
    | .error e => .error e
    | .ok _ =>
      match checkSupportForNode plan with
      | .error e => .error e
      | .ok r => .ok (r.compose .shouldDistribute)
  | .limitN countExpr offsetExpr plan =>
    match checkExpr countExpr with
    | .error e => .error e
    | .ok _ =>
      match checkExpr offsetExpr with
      | .error e => .error e
      | .ok _ => checkSupportForNode plan
  | .distinctN plan => checkSupportForNode plan
  | .valuesN hasSQL tuples =>
    if !hasSQL then .error "unsupported node without SQL VALUES clause"
    else
      match checkTuples tuples with
      | .error e => .error e
      | .ok _ => .ok DistRec.shouldDistribute
  | .insertN => .error "mutations not supported"
  | .updateN => .error "mutations not supported"
  | .deleteN => .error "mutations not supported"
  | .setN => .error "SET / SET CLUSTER SETTING should never distribute"
  | .setClusterSettingN => .error "SET / SET CLUSTER SETTING should never distribute"
  | .otherN => .error "unsupported node"

/-- `CheckSupport` (lines 186-192). -/
def CheckSupport (t : PlanTree) : Except String Bool :=
  match checkSupportForNode t with
  | .error e => .error e
  | .ok r => .ok (decide (r = DistRec.shouldDistribute))

/-- An expression contains a subquery or a distsql-blacklisted function. -/
def exprHasBad : PExpr → Bool
  | .subquery => true
  | .funcExpr _ blacklisted arg => blacklisted || exprHasBad arg
  | .binOp l r => exprHasBad l || exprHasBad r
  | .ivar _ => false
  | .lit _ => false

/-- A possibly-nil checked expression contains a rejected construct. -/
def optBad : Option PExpr → Bool
  | none => false
  | some e => exprHasBad e

/-- The root of the tree is one of the constructs the claim lists: a
mutation, a SET / SET CLUSTER SETTING node, a subquery or blacklisted
function in one of its checked expressions, a tuple-leaf render output, or
an ARRAY_AGG aggregation. -/
def nodeBadHere : PlanTree → Bool
  | .filterN filter _ => optBad filter
  | .renderN render _ =>
    render.any (fun p => exprHasBad p.1 || decide (leafType p.2 = PType.tuple))
  | .sortN _ _ => false
  | .joinN onCond _ _ _ => optBad onCond
  | .scanN _ _ filter _ _ => optBad filter
  | .indexJoinN _ _ => false
  | .groupN funcs _ =>
    funcs.any (fun f =>
      match f with
      | .funcExpr name _ _ => decide (name.toUpper = "ARRAY_AGG")
      | _ => false)
  | .limitN countExpr offsetExpr _ => optBad countExpr || optBad offsetExpr
  | .distinctN _ => false
  | .valuesN _ tuples => tuples.any (fun t => t.any exprHasBad)
  | .insertN => true
  | .updateN => true
  | .deleteN => true
  | .setN => true
  | .setClusterSettingN => true
  | .otherN => false

/-- The tree contains, at any depth, one of the constructs the claim
lists. -/
def treeContainsBad : PlanTree → Bool
  | .filterN filter source => nodeBadHere (.filterN filter source) || treeContainsBad source
  | .renderN render source => nodeBadHere (.renderN render source) || treeContainsBad source
  | .sortN needSort plan => treeContainsBad plan
  | .joinN onCond n left right =>
    nodeBadHere (.joinN onCond n left right) || treeContainsBad left || treeContainsBad right
  | .scanN h s filter sp i => nodeBadHere (.scanN h s filter sp i)
  | .indexJoinN table index => treeContainsBad table || treeContainsBad index
  | .groupN funcs plan => nodeBadHere (.groupN funcs plan) || treeContainsBad plan
  | .limitN c o plan => nodeBadHere (.limitN c o plan) || treeContainsBad plan
  | .distinctN plan => treeContainsBad plan
  | .valuesN hasSQL tuples => nodeBadHere (.valuesN hasSQL tuples)
  | .insertN => true
  | .updateN => true
  | .deleteN => true
  | .setN => true
  | .setClusterSettingN => true
  | .otherN => false

/-- `physicalProps` as far as `convertOrdering` reads it: the ordering and
the equivalency-group `Find` closure. -/
structure PhysProps where
  ordering : List OrderingCol := []
  eqGroupsFind : Nat → Nat := fun c => c

/-- The inner scan of `convertOrdering` (lines 710-716): the first column
whose map entry is not -1 and whose equivalency group matches. -/
def findEqGroupCol (find : Nat → Nat) (group : Nat) : Nat → List Int → Option Int
  | _, [] => none
  | col, pos :: rest =>
    if pos ≠ -1 ∧ find col = group then some pos
    else findEqGroupCol find group (col + 1) rest

/-- One column of `convertOrdering` (lines 705-727); `none` is the panic
"column in ordering not part of processor output". -/
def convertOrderingCol (props : PhysProps) (colMap : List Int) (o : OrderingCol) :
    Option OrderingCol :=
  let streamColIdx := colMap.getD o.colIdx (-1)
  let streamColIdx :=
    if streamColIdx = -1 then
      match findEqGroupCol props.eqGroupsFind (props.eqGroupsFind o.colIdx) 0 colMap with
      | some pos => pos
      | none => -1
    else streamColIdx
  if streamColIdx = -1 then none
  else some ⟨streamColIdx.toNat, o.direction⟩

/-- The column loop of `convertOrdering`. -/
def convertOrderingCols (props : PhysProps) (colMap : List Int) :
    List OrderingCol → Option (List OrderingCol)
  | [] => some []
  | o :: rest =>
    match convertOrderingCol props colMap o with
    | none => none
    | some c =>
      match convertOrderingCols props colMap rest with
      | none => none
      | some cs => some (c :: cs)

/-- `convertOrdering` (lines 696-729): maps the planNode-level ordering to
output stream columns; the empty ordering maps to the zero ordering. -/
def convertOrdering (props : PhysProps) (colMap : List Int) : Option DOrdering :=
  if props.ordering.isEmpty then some {}
  else
    match convertOrderingCols props colMap props.ordering with
    | none => none
    | some cs => some ⟨cs⟩

/-- Write one list element in place (Go `types[streamCol] = ...`). -/
def setAt {α : Type} (l : List α) (i : Nat) (x : α) : List α :=
  modifyAt l i (fun _ => x)

/-- The `numCols` scan of `getTypesForPlanResult` (lines 1833-1837). -/
def planResultNumCols : Int → List Int → Int
  | acc, [] => acc
  | acc, c :: rest => planResultNumCols (if acc ≤ c then c + 1 else acc) rest

/-- The filling loop of `getTypesForPlanResult` (lines 1839-1847). -/
def fillTypes (nodeColumns : List ColType) : List ColType → Nat → List Int → List ColType
  | types, _, [] => types
  | types, nodeCol, streamCol :: rest =>
    fillTypes nodeColumns
      (if streamCol ≠ -1 then setAt types streamCol.toNat (nodeColumns.getD nodeCol 0)
       else types)
      (nodeCol + 1) rest

/-- `getTypesForPlanResult` (lines 1816-1849) in the non-nil-map case used
by the join planner: scatter the node's column types through the map. -/
def getTypesForPlanResult (nodeColumns : List ColType) (colMap : List Int) : List ColType :=
  fillTypes nodeColumns (List.replicate (planResultNumCols 0 colMap).toNat 0) 0 colMap

/-- `joinPredicate` as far as `createPlanForJoin` reads it. -/
structure JoinPred where
  leftEqualityIndices : List Nat := []
  rightEqualityIndices : List Nat := []
  onCond : Option PExpr := none
  numLeftCols : Nat := 0
  numRightCols : Nat := 0
  numMergedEqualityColumns : Nat := 0

/-- `joinNode` as far as `createPlanForJoin` reads it: the planNode-level
join type (already matched to the distsqlrun enum; the `default: panic` arm
of lines 1901-1912 is unreachable for the four legal values), the
predicate, the `Omitted` flags and types of `n.columns`, the caller-supplied
`mergeJoinOrdering` and the physical properties. -/
structure JoinNodeData where
  joinType : JoinType := .inner
  pred : JoinPred := {}
  columnsOmitted : List Bool := []
  columnTypes : List ColType := []
  mergeJoinOrdering : List OrderingCol := []
  props : PhysProps := {}

/-- The `seen`-map node-collection loop (lines 1922-1936): node ids of the
given routers, de-duplicated keeping first occurrences. -/
def dedupAppend (acc : List Nat) : List Nat → List Nat
  | [] => acc
  | n :: rest => dedupAppend (if acc.contains n then acc else acc ++ [n]) rest

/-- The equality-column remap (lines 1939-1946): plan columns through the
child's `planToStreamColMap`, cast to uint32. -/
def joinEqCols (childMap : List Int) (idxs : List Nat) : List Nat :=
  idxs.map (fun c => (childMap.getD c (-1)).toNat)

/-- Projecting the caller-supplied merge ordering through the equality
columns (lines 1958-1969). -/
def projectOrdering (mergeOrd : List OrderingCol) (eqCols : List Nat) : DOrdering :=
  ⟨mergeOrd.map (fun c => ⟨eqCols.getD c.colIdx 0, c.direction⟩)⟩

/-- The nested merge-join eligibility conditions (lines 1947-1971),
producing the left and right merge orderings (the Go zero values when the
merge joiner is not used). -/
def joinMergeOrds (enabled : Bool) (nd : JoinNodeData) (leftEqCols rightEqCols : List Nat) :
    DOrdering × DOrdering :=
  if enabled = true ∧ 0 < nd.mergeJoinOrdering.length ∧ nd.joinType = JoinType.inner ∧
      nd.mergeJoinOrdering.length = nd.pred.leftEqualityIndices.length then
    (projectOrdering nd.mergeJoinOrdering leftEqCols,
     projectOrdering nd.mergeJoinOrdering rightEqCols)
  else ({}, {})

/-- Running state of the three output-column loops (lines 1985-2040). -/
structure JoinColState where
  outputColumns : List Nat
  colMap : List Int
  joinCol : Nat
deriving Repr, DecidableEq

/-- One iteration of an output-column loop: when `n.columns[joinCol]` is not
omitted, record the column in `post.OutputColumns` (`addOutCol`) and its
slot in the join-to-stream map; always advance `joinCol`. -/
def joinColStep (omitted : List Bool) (st : JoinColState) (col : Nat) : JoinColState :=
  if omitted.getD st.joinCol false = false then
    { outputColumns := st.outputColumns ++ [col],
      colMap := setAt st.colMap st.joinCol (Int.ofNat st.outputColumns.length),
      joinCol := st.joinCol + 1 }
  else { st with joinCol := st.joinCol + 1 }

/-- The core selection (lines 2069-2088): a hash joiner when the left merge
ordering kept its nil zero value, otherwise a merge joiner; merged columns
with a merge joiner panic (`none`). -/
def joinCore (leftMergeOrd rightMergeOrd : DOrdering) (leftEqCols rightEqCols : List Nat)
    (onExpr : Option (PExpr × List Int)) (joinType : JoinType) (mergedColumns : Bool) :
    Option ProcessorCore :=
  if leftMergeOrd.columns = [] then
    some (.hashJoiner ⟨leftEqCols, rightEqCols, onExpr, joinType, mergedColumns⟩)
  else if mergedColumns then none
  else some (.mergeJoiner ⟨leftMergeOrd, rightMergeOrd, onExpr, joinType⟩)

/-- The router reconfiguration of the parallel branch (lines 2117-2130):
overwrite `Output[0]` of each listed processor. -/
def setRouterOutputs (procs : List Processor) (routers : List Nat)
    (out : OutputRouterSpec) : List Processor :=
  routers.foldl (fun ps r => modifyAt ps r (fun proc =>
    { proc with spec := { proc.spec with output := out } })) procs

/-- The bucket-connection loop (lines 2136-2148): per joiner, merge the
left routers into input 0 and the right routers into input 1, and record
the joiner as a result router. -/
def connectJoinersStep (leftRouters rightRouters : List Nat) (lOrd rOrd : DOrdering)
    (pIdxStart : Nat) (q : PhysicalPlan) (bucket : Nat) : PhysicalPlan :=
  let pIdx := pIdxStart + bucket
  let q := MergeResultStreams q leftRouters bucket lOrd pIdx 0
  let q := MergeResultStreams q rightRouters bucket rOrd pIdx 1
  { q with resultRouters := q.resultRouters ++ [pIdx] }

def connectJoiners (leftRouters rightRouters : List Nat) (lOrd rOrd : DOrdering)
    (pIdxStart numBuckets : Nat) (q0 : PhysicalPlan) : PhysicalPlan :=
  (List.range numBuckets).foldl
    (connectJoinersStep leftRouters rightRouters lOrd rOrd pIdxStart) q0

/-- The three output-column loops (lines 1985-2040), producing the
post-process output columns and the join-to-stream map. -/
def joinColMapState (omitted : List Bool) (pred : JoinPred) (mergedColNum : Nat)
    (leftEqCols : List Nat) (leftMap rightMap : List Int) (leftTypesLen : Nat) :
    JoinColState :=
  let st0 : JoinColState := ⟨[], List.replicate omitted.length (-1), 0⟩
  let st1 := (List.range pred.numMergedEqualityColumns).foldl (fun st i =>
    joinColStep omitted st
      (if mergedColNum ≠ 0 then i else leftEqCols.getD i 0)) st0
  let st2 := (List.range pred.numLeftCols).foldl (fun st i =>
    joinColStep omitted st
      ((Int.ofNat mergedColNum + leftMap.getD i (-1)).toNat)) st1
  (List.range pred.numRightCols).foldl (fun st i =>
    joinColStep omitted st
      ((Int.ofNat mergedColNum + rightMap.getD i (-1) +
        Int.ofNat leftTypesLen).toNat)) st2

/-- The ON-condition remap (lines 2042-2066): `none` is the
"merged columns with ON condition" panic; otherwise the (possibly absent)
expression with the ordinal remap handed to `MakeExpression`. -/
def joinOnExpr (pred : JoinPred) (mergedColNum : Nat) (leftMap rightMap : List Int)
    (leftTypesLen : Nat) : Option (Option (PExpr × List Int)) :=
  match pred.onCond with
  | none => some none
  | some cond =>
    if pred.numMergedEqualityColumns ≠ 0 then none
    else
      let joinColMap :=
        (List.range pred.numLeftCols).map (fun i =>
          Int.ofNat mergedColNum + leftMap.getD i (-1)) ++
        (List.range pred.numRightCols).map (fun i =>
          Int.ofNat mergedColNum + rightMap.getD i (-1) + Int.ofNat leftTypesLen)
      some (some (cond, joinColMap))

/-- The joiner-stage construction (lines 2090-2148): append one joiner
processor per node (the single-node branch of lines 2093-2109 coincides
with one loop iteration of lines 2110-2116), reconfigure the child routers
to hash-distribute in the parallel case, reset the result routers and
connect the buckets. -/
def buildJoinStage (p0 : PhysicalPlan) (leftRouters rightRouters nodes : List Nat)
    (leftTypes rightTypes : List ColType) (leftEqCols rightEqCols : List Nat)
    (lOrd rOrd : DOrdering) (core : ProcessorCore) (post : PostProcessSpec) :
    PhysicalPlan :=
  let pIdxStart := p0.processors.length
  let stageID := p0.stageCounter + 1
  let newProcs : List Processor := nodes.map (fun node =>
    ⟨node,
     { input := [⟨leftTypes⟩, ⟨rightTypes⟩], core := core, post := post,
       output := {}, stageID := stageID }⟩)
  let processors := p0.processors ++ newProcs
  let processors :=
    if nodes.length = 1 then processors
    else setRouterOutputs
      (setRouterOutputs processors leftRouters ⟨.byHash, leftEqCols, []⟩)
      rightRouters ⟨.byHash, rightEqCols, []⟩
  let q0 := { p0 with processors := processors, stageCounter := stageID,
                      resultRouters := [] }
  connectJoiners leftRouters rightRouters lOrd rOrd pIdxStart nodes.length q0

/-- Embeds `createPlanForJoin` (lines 1851-2169), parameterized by the
already-created child plans (lines 1874-1881) and the `merge_joins.enabled`
setting; `none` stands for the function's panics (merged-column arity,
merged columns with an ON condition, merged columns with a merge joiner,
`convertOrdering` failure). -/
def createPlanForJoin (enabled : Bool) (gateway : Nat) (nd : JoinNodeData)
    (leftPlan rightPlan : PhysicalPlan) : Option PhysicalPlan :=
  let merged := MergePlans leftPlan rightPlan
  let p0 := merged.1
  let leftRouters := merged.2.1
  let rightRouters := merged.2.2
  let leftTypes := leftPlan.resultTypes
  let rightTypes := rightPlan.resultTypes
  let numEq := nd.pred.leftEqualityIndices.length
  let nodes : List Nat :=
    if numEq ≠ 0 then
      dedupAppend [] ((leftRouters ++ rightRouters).map
        (fun r => (p0.processors.getD r defaultProcessor).node))
    else
      [if leftRouters.length = 1 then
         (p0.processors.getD (leftRouters.getD 0 0) defaultProcessor).node
       else if rightRouters.length = 1 then
         (p0.processors.getD (rightRouters.getD 0 0) defaultProcessor).node
       else gateway]
  let leftEqCols := if numEq ≠ 0 then
    joinEqCols leftPlan.planToStreamColMap nd.pred.leftEqualityIndices else []
  let rightEqCols := if numEq ≠ 0 then
    joinEqCols rightPlan.planToStreamColMap nd.pred.rightEqualityIndices else []
  let ords := if numEq ≠ 0 then joinMergeOrds enabled nd leftEqCols rightEqCols
    else ({}, {})
  let mergedColNum := if nd.joinType = JoinType.inner then 0
    else nd.pred.numMergedEqualityColumns
  let st3 := joinColMapState nd.columnsOmitted nd.pred mergedColNum leftEqCols
    leftPlan.planToStreamColMap rightPlan.planToStreamColMap leftTypes.length
  if mergedColNum ≠ 0 ∧ mergedColNum ≠ leftEqCols.length then none
  else
    let mergedColumns := decide (mergedColNum ≠ 0)
    match joinOnExpr nd.pred mergedColNum leftPlan.planToStreamColMap
      rightPlan.planToStreamColMap leftTypes.length with
    | none => none
    | some onExpr =>
      match joinCore ords.1 ords.2 leftEqCols rightEqCols onExpr nd.joinType mergedColumns with
      | none => none
      | some core =>
        let q1 := buildJoinStage p0 leftRouters rightRouters nodes leftTypes
          rightTypes leftEqCols rightEqCols ords.1 ords.2 core
          { projection := true, outputColumns := st3.outputColumns }
        match convertOrdering nd.props st3.colMap with
        | none => none
        | some newOrd =>
          some (SetMergeOrdering
            { q1 with planToStreamColMap := st3.colMap,
                      resultTypes := getTypesForPlanResult nd.columnTypes st3.colMap }
            newOrd)

def leftJW : PhysicalPlan :=
  { processors := [⟨2, { core := .tableReader [⟨0, 5⟩], output := {}, stageID := 1 }⟩],
    streams := [], resultRouters := [0], resultTypes := [0],
    mergeOrdering := {}, stageCounter := 1, planToStreamColMap := [0] }

def rightJW : PhysicalPlan :=
  { processors := [⟨3, { core := .tableReader [⟨5, 9⟩], output := {}, stageID := 1 }⟩],
    streams := [], resultRouters := [0], resultTypes := [0],
    mergeOrdering := {}, stageCounter := 1, planToStreamColMap := [0] }

def ndJW : JoinNodeData :=
  { joinType := .inner,
    pred := { leftEqualityIndices := [0], rightEqualityIndices := [0],
              numLeftCols := 1, numRightCols := 1 },
    columnsOmitted := [false, false], columnTypes := [0, 0],
    mergeJoinOrdering := [⟨0, .asc⟩], props := {} }

def ndJW5 : JoinNodeData :=
  { joinType := .inner,
    pred := { numLeftCols := 1, numRightCols := 1 },
    columnsOmitted := [false, false], columnTypes := [0, 0],
    mergeJoinOrdering := [], props := {} }

def qJW : PhysicalPlan := (createPlanForJoin true 1 ndJW leftJW rightJW).getD {}

def qJW5 : PhysicalPlan := (createPlanForJoin true 1 ndJW5 leftJW rightJW).getD {}

/-- The `planToStreamColMap` recalculation of `createPlanForIndexJoin`
(lines 1780-1786): reset every entry to -1, then map each output column to
its position. -/
def indexJoinColMap (oldMap : List Int) (outputColumns : List Nat) : List Int :=
  (outputColumns.foldl (fun (st : List Int × Nat) col =>
    (setAt st.1 col (Int.ofNat st.2), st.2 + 1))
    (oldMap.map (fun _ => (-1 : Int)), 0)).1

/-- Embeds `createPlanForIndexJoin` (lines 1747-1811), parameterized by the
upstream table-reader plan (line 1763) and the scan-node data it reads: the
table id of the join-reader spec, the (possibly nil) filter handed to
`MakeExpression`, `getOutputColumnsFromScanNode`, the node's column types
and physical properties, and the `distribute_index_joins` setting; `none`
is the `convertOrdering` panic. -/
def createPlanForIndexJoin (distribute : Bool) (gateway tableId : Nat)
    (filter : Option PExpr) (outputColumns : List Nat) (columnTypes : List ColType)
    (props : PhysProps) (p : PhysicalPlan) : Option PhysicalPlan :=
  let joinReaderSpec : JoinReaderSpec := { tableId := tableId, indexIdx := 0 }
  let post : PostProcessSpec :=
    { filter := filter, projection := true, outputColumns := outputColumns }
  let colMap := indexJoinColMap p.planToStreamColMap outputColumns
  let p1 := { p with planToStreamColMap := colMap }
  if distribute = true ∧ 1 < p1.resultRouters.length then
    match convertOrdering props colMap with
    | none => none
    | some newOrd =>
      some (AddNoGroupingStage p1 (.joinReader joinReaderSpec) post
        (getTypesForPlanResult columnTypes colMap) newOrd)
  else
    let node := if p1.resultRouters.length = 1 then
      (p1.processors.getD (p1.resultRouters.getD 0 0) defaultProcessor).node
    else gateway
    some (AddSingleGroupStage p1 node (.joinReader joinReaderSpec) post
      (getTypesForPlanResult columnTypes colMap))

def pIJ : PhysicalPlan :=
  { processors := [⟨2, { core := .tableReader [⟨0, 5⟩], stageID := 1 }⟩,
                   ⟨3, { core := .tableReader [⟨5, 9⟩], stageID := 1 }⟩],
    streams := [], resultRouters := [0, 1], resultTypes := [0],
    mergeOrdering := {}, stageCounter := 1, planToStreamColMap := [0] }

def qIJ : PhysicalPlan := (createPlanForIndexJoin true 1 7 none [0] [0] {} pIJ).getD {}

/-- One final-stage entry of a distributed-aggregation specification
(`distsqlplan.FinalAggSpec`-style: the final function and the relative
local-stage indices it consumes). -/
structure FinalAggInfo where
  fn : AggFunc
  localIdxs : List Nat := []

/-- Modelled from the spec: one row of `distsqlplan.DistAggregationTable`
(outside src/) — the local-stage functions, the final-stage functions with
their local inputs, and the optional final-rendering constructor (spec
§4.6). -/
structure DistAggInfo where
  localStage : List AggFunc := []
  finalStage : List FinalAggInfo := []
  finalRendering : Option (List Nat → Except String PExpr) := none

/-- The environment `addAggregators` draws on: the distributed-aggregation
table (`none` = the function is not decomposable) and
`distsqlrun.GetAggregateInfo` restricted to the output type (both outside
src/, modelled from the spec). -/
structure AggEnv where
  table : AggFunc → Option DistAggInfo
  getInfo : AggFunc → List ColType → Except String ColType

/-- The single-node check (lines 1321-1327): the common node of all result
routers, or 0 as soon as two routers sit on different nodes. -/
def prevStageNodeLoop (p : PhysicalPlan) (first : Nat) : List Nat → Nat
  | [] => first
  | r :: rest =>
    if (p.processors.getD r defaultProcessor).node ≠ first then 0
    else prevStageNodeLoop p first rest

def prevStageNode (p : PhysicalPlan) : Nat :=
  prevStageNodeLoop p
    ((p.processors.getD (p.resultRouters.getD 0 0) defaultProcessor).node)
    (p.resultRouters.drop 1)

/-- The eligibility scan (lines 1330-1343): threads
(multiStage, allDistinct, anyDistinct) through the aggregations, breaking
at the first function missing from the table. -/
def aggDecisionLoop (table : AggFunc → Option DistAggInfo) :
    List Aggregation → Bool → Bool → Bool → Bool × Bool × Bool
  | [], ms, ad, anyd => (ms, ad, anyd)
  | e :: rest, ms, ad, anyd =>
    let ms' := if e.distinct then false else ms
    let ad' := if e.distinct then ad else false
    let anyd' := if e.distinct then true else anyd
    if (table e.func).isNone then (false, ad', anyd')
    else aggDecisionLoop table rest ms' ad' anyd'

/-- Lines 1315-1347: the scan runs only when the previous stage spans
several nodes; afterwards `allDistinct` is cleared unless some distinct
aggregate was seen. -/
def aggDecision (table : AggFunc → Option DistAggInfo) (p : PhysicalPlan)
    (aggregations : List Aggregation) : Bool × Bool × Bool :=
  let res :=
    if prevStageNode p = 0 then aggDecisionLoop table aggregations true true false
    else (false, true, false)
  (res.1, if !res.2.2 then false else res.2.1, res.2.2)

/-- Ascending insertion (the effect of the `sort.Slice` calls on the
set-map contents, lines 1378-1379). -/
def insertAsc (x : Nat) : List Nat → List Nat
  | [] => [x]
  | y :: rest => if x ≤ y then x :: y :: rest else y :: insertAsc x rest

def sortAsc (l : List Nat) : List Nat := l.foldr insertAsc []

/-- First-occurrence de-duplication (the effect of collecting into a Go
map, lines 1360-1376). -/
def dedupFirst (l : List Nat) : List Nat :=
  l.foldl (fun acc x => if acc.contains x then acc else acc ++ [x]) []

/-- The sorted contents of a Go set-map. -/
def sortedDedup (l : List Nat) : List Nat := sortAsc (dedupFirst l)

/-- All aggregate argument columns in order (lines 1364-1368). -/
def aggColIdxs (aggregations : List Aggregation) : List Nat :=
  aggregations.foldl (fun acc a => acc ++ a.colIdx) []

/-- `groupCols` (lines 1302-1305). -/
def groupColsOf (p : PhysicalPlan) (numGroupCols : Nat) : List Nat :=
  (List.range numGroupCols).map (fun i => (p.planToStreamColMap.getD i (-1)).toNat)

/-- The local-stage inner loop for one aggregation (lines 1461-1505):
de-duplicate equivalent local aggregations, recording for each relative
local index its absolute index, and collect intermediate output types. -/
def buildLocalAggs (getInfo : AggFunc → List ColType → Except String ColType)
    (inputTypes : List ColType) (e : Aggregation) :
    List AggFunc → List Aggregation × List ColType × List Nat →
    Except String (List Aggregation × List ColType × List Nat)
  | [], st => .ok st
  | localFunc :: rest, (localAggs, interTypes, relToAbs) =>
    let localAgg : Aggregation :=
      { func := localFunc, distinct := false, colIdx := e.colIdx,
        filterColIdx := e.filterColIdx }
    match localAggs.findIdx? (fun x => decide (x = localAgg)) with
    | some j =>
      buildLocalAggs getInfo inputTypes e rest (localAggs, interTypes, relToAbs ++ [j])
    | none =>
      match getInfo localFunc (e.colIdx.map (fun c => inputTypes.getD c 0)) with
      | .error err => .error err
      | .ok outTy =>
        buildLocalAggs getInfo inputTypes e rest
          (localAggs ++ [localAgg], interTypes ++ [outTy],
           relToAbs ++ [localAggs.length])

/-- The final-stage inner loop for one aggregation (lines 1507-1561):
map relative local indices to absolute ones, de-duplicate equivalent final
aggregations, building the final-index map and (when rendering is needed)
the pre-render types. -/
def buildFinalAggs (getInfo : AggFunc → List ColType → Except String ColType)
    (needRender : Bool) (interTypes : List ColType) (relToAbs : List Nat) :
    List FinalAggInfo → List Aggregation × List Nat × List ColType →
    Except String (List Aggregation × List Nat × List ColType)
  | [], st => .ok st
  | fi :: rest, (finalAggs, finalIdxMap, preRender) =>
    let argIdxs := fi.localIdxs.map (fun r => relToAbs.getD r 0)
    let finalAgg : Aggregation :=
      { func := fi.fn, distinct := false, colIdx := argIdxs, filterColIdx := none }
    match finalAggs.findIdx? (fun x => decide (x = finalAgg)) with
    | some i =>
      buildFinalAggs getInfo needRender interTypes relToAbs rest
        (finalAggs, finalIdxMap ++ [i], preRender)
    | none =>
      if needRender then
        match getInfo fi.fn (argIdxs.map (fun j => interTypes.getD j 0)) with
        | .error err => .error err
        | .ok outTy =>
          buildFinalAggs getInfo needRender interTypes relToAbs rest
            (finalAggs ++ [finalAgg], finalIdxMap ++ [finalAggs.length],
             preRender ++ [outTy])
      else
        buildFinalAggs getInfo needRender interTypes relToAbs rest
          (finalAggs ++ [finalAgg], finalIdxMap ++ [finalAggs.length], preRender)

/-- The outer loop of the two-stage build (lines 1448-1561). -/
def buildTwoStage (table : AggFunc → Option DistAggInfo)
    (getInfo : AggFunc → List ColType → Except String ColType)
    (needRender : Bool) (inputTypes : List ColType) :
    List Aggregation →
    List Aggregation × List ColType × List Aggregation × List Nat × List ColType →
    Except String
      (List Aggregation × List ColType × List Aggregation × List Nat × List ColType)
  | [], st => .ok st
  | e :: rest, (localAggs, interTypes, finalAggs, finalIdxMap, preRender) =>
    let info := (table e.func).getD {}
    match buildLocalAggs getInfo inputTypes e info.localStage
      (localAggs, interTypes, []) with
    | .error err => .error err
    | .ok (localAggs, interTypes, relToAbs) =>
      match buildFinalAggs getInfo needRender interTypes relToAbs info.finalStage
        (finalAggs, finalIdxMap, preRender) with
      | .error err => .error err
      | .ok (finalAggs, finalIdxMap, preRender) =>
        buildTwoStage table getInfo needRender inputTypes rest
          (localAggs, interTypes, finalAggs, finalIdxMap, preRender)

/-- The group-column IDENT loop (lines 1563-1587). -/
def addGroupIdents (inputTypes : List ColType) :
    List Nat → List Aggregation × List ColType × List Nat →
    List Aggregation × List ColType × List Nat
  | [], st => st
  | gc :: rest, (localAggs, interTypes, finalGroupCols) =>
    let agg : Aggregation :=
      { func := aggIdent, distinct := false, colIdx := [gc], filterColIdx := none }
    match localAggs.findIdx? (fun x => decide (x = agg)) with
    | some j =>
      addGroupIdents inputTypes rest (localAggs, interTypes, finalGroupCols ++ [j])
    | none =>
      addGroupIdents inputTypes rest
        (localAggs ++ [agg], interTypes ++ [inputTypes.getD gc 0],
         finalGroupCols ++ [localAggs.length])

/-- The rendering-expression loop (lines 1605-1643): an indexed variable at
the mapped final index when no final rendering is required, otherwise the
table's rendering constructor applied to the mapped indices. -/
def buildRenderExprs (table : AggFunc → Option DistAggInfo) (finalIdxMap : List Nat) :
    List Aggregation → Nat → Except String (List PExpr)
  | [], _ => .ok []
  | e :: rest, finalIdx =>
    let info := (table e.func).getD {}
    match info.finalRendering with
    | none =>
      match buildRenderExprs table finalIdxMap rest (finalIdx + info.finalStage.length) with
      | .error err => .error err
      | .ok exprs => .ok (PExpr.ivar (finalIdxMap.getD finalIdx 0) :: exprs)
    | some fr =>
      match fr ((List.range info.finalStage.length).map
        (fun j => finalIdxMap.getD (finalIdx + j) 0)) with
      | .error err => .error err
      | .ok expr =>
        match buildRenderExprs table finalIdxMap rest
          (finalIdx + info.finalStage.length) with
        | .error err => .error err
        | .ok exprs => .ok (expr :: exprs)

/-- `finalOutTypes` (lines 1661-1672). -/
def finalOutTypesOf (getInfo : AggFunc → List ColType → Except String ColType)
    (inputTypes : List ColType) : List Aggregation → Except String (List ColType)
  | [] => .ok []
  | agg :: rest =>
    match getInfo agg.func (agg.colIdx.map (fun c => inputTypes.getD c 0)) with
    | .error err => .error err
    | .ok ty =>
      match finalOutTypesOf getInfo inputTypes rest with
      | .error err => .error err
      | .ok tys => .ok (ty :: tys)

/-- The distributed final stage (lines 1685-1731): hash-route the previous
stage by group columns, add one final aggregator per result router on that
router's node, connect the buckets and renumber the result routers. -/
def addFinalStageDistributed (p : PhysicalPlan) (spec : AggregatorSpec)
    (post : PostProcessSpec) (outTypes : List ColType) : PhysicalPlan :=
  let routers := p.resultRouters
  let procs1 := setRouterOutputs p.processors routers ⟨.byHash, spec.groupCols, []⟩
  let stageID := p.stageCounter + 1
  let pIdxStart := procs1.length
  let newProcs := routers.map (fun r =>
    (⟨(procs1.getD r defaultProcessor).node,
      { input := [⟨p.resultTypes⟩], core := .aggregator spec, post := post,
        output := {}, stageID := stageID }⟩ : Processor))
  let p1 := { p with processors := procs1 ++ newProcs, stageCounter := stageID }
  let p2 := (List.range routers.length).foldl (fun q bucket =>
    MergeResultStreams q routers bucket {} (pIdxStart + bucket) 0) p1
  { p2 with
    resultRouters := (List.range routers.length).map (fun i => pIdxStart + i),
    resultTypes := outTypes, mergeOrdering := orderingTerminated }

/-- The final stage (lines 1674-1731): a single aggregator — on the
previous stage's common node if there is one, else on the gateway — when
there are no group columns or a single stream; otherwise the distributed
final stage. -/
def addFinalStage (gateway pn : Nat) (p : PhysicalPlan) (spec : AggregatorSpec)
    (post : PostProcessSpec) (outTypes : List ColType) : PhysicalPlan :=
  if spec.groupCols = [] ∨ p.resultRouters.length = 1 then
    AddSingleGroupStage p (if pn ≠ 0 then pn else gateway) (.aggregator spec)
      post outTypes
  else addFinalStageDistributed p spec post outTypes

/-- Embeds `addAggregators` (lines 1269-1745), parameterized by the
aggregations built from the groupNode's functions (lines 1272-1297, parser
machinery), the group-column count, the child plan's physical properties
and the upstream physical plan.  Errors are `GetAggregateInfo` or
final-rendering failures; the `convertOrdering` panic in the distinct
branch (line 1358) is surfaced as an error as well. -/
def addAggregators (env : AggEnv) (gateway : Nat) (aggregations : List Aggregation)
    (numGroupCols : Nat) (childProps : PhysProps) (p : PhysicalPlan) :
    Except String PhysicalPlan :=
  let inputTypes := p.resultTypes
  let groupCols := groupColsOf p numGroupCols
  let pn := prevStageNode p
  let dec := aggDecision env.table p aggregations
  let ms := dec.1
  let ad := dec.2.1
  let distinctStep : Except String PhysicalPlan :=
    if ms = false ∧ ad = true then
      match convertOrdering childProps p.planToStreamColMap with
      | none => .error "panic: column in ordering not part of processor output"
      | some ord =>
        .ok (AddNoGroupingStage p
          (.distinct ⟨sortedDedup (ord.columns.map (fun c => c.colIdx)),
                      sortedDedup (aggColIdxs aggregations)⟩)
          {} p.resultTypes p.mergeOrdering)
    else .ok p
  match distinctStep with
  | .error e => .error e
  | .ok p1 =>
    if ms = false then
      match finalOutTypesOf env.getInfo inputTypes aggregations with
      | .error e => .error e
      | .ok finalOutTypes =>
        let finalAggsSpec : AggregatorSpec :=
          { aggregations := aggregations, groupCols := groupCols }
        let q := addFinalStage gateway pn p1 finalAggsSpec {} finalOutTypes
        .ok { q with planToStreamColMap :=
          (List.range aggregations.length).map (fun i => Int.ofNat i) }
    else
      let needRender := aggregations.any (fun e =>
        ((env.table e.func).getD {}).finalRendering.isSome)
      match buildTwoStage env.table env.getInfo needRender inputTypes aggregations
        ([], [], [], [], []) with
      | .error e => .error e
      | .ok (localAggs0, interTypes0, finalAggs, finalIdxMap, _) =>
        match addGroupIdents inputTypes groupCols (localAggs0, interTypes0, []) with
        | (localAggs, interTypes, finalGroupCols) =>
          let p2 := AddNoGroupingStage p1
            (.aggregator { aggregations := localAggs, groupCols := groupCols })
            {} interTypes orderingTerminated
          let finalAggsSpec : AggregatorSpec :=
            { aggregations := finalAggs, groupCols := finalGroupCols }
          match (if needRender then
                   match buildRenderExprs env.table finalIdxMap aggregations 0 with
                   | .error e => Except.error e
                   | .ok renderExprs =>
                     .ok (({ renderExprs := renderExprs } : PostProcessSpec), false)
                 else if finalAggs.length < aggregations.length then
                   .ok (({} : PostProcessSpec), true)
                 else .ok (({} : PostProcessSpec), false)) with
          | .error e => .error e
          | .ok (finalAggsPost, mapSet) =>
            match finalOutTypesOf env.getInfo inputTypes aggregations with
            | .error e => .error e
            | .ok finalOutTypes =>
              let p3 := if mapSet then
                { p2 with planToStreamColMap := finalIdxMap.map (fun i => Int.ofNat i) }
              else p2
              let q := addFinalStage gateway pn p3 finalAggsSpec finalAggsPost
                finalOutTypes
              .ok (if mapSet then q
                else { q with planToStreamColMap :=
                  (List.range aggregations.length).map (fun i => Int.ofNat i) })

/-- Whether a core is an aggregator core. -/
def isAggCore : ProcessorCore → Bool
  | .aggregator _ => true
  | _ => false

/-- Whether a core is a local-distinct core. -/
def isDistinctCore : ProcessorCore → Bool
  | .distinct _ => true
  | _ => false

/-- A distributed-aggregation environment in which every function is
decomposable (one local stage, one final stage, no rendering) and every
aggregate output type is 0. -/
def aggEnvW6 : AggEnv :=
  { table := fun f => some { localStage := [f], finalStage := [⟨f, [0]⟩] },
    getInfo := fun _ _ => .ok 0 }

/-- Upstream plan with two result routers on one node (node 1). -/
def pC6 : PhysicalPlan :=
  { processors := [⟨1, { core := .tableReader [⟨0, 5⟩], stageID := 1 }⟩,
                   ⟨1, { core := .tableReader [⟨5, 9⟩], stageID := 1 }⟩],
    streams := [], resultRouters := [0, 1], resultTypes := [0],
    mergeOrdering := {}, stageCounter := 1, planToStreamColMap := [0] }

/-- Upstream plan with two result routers on two nodes (2 and 3). -/
def pW6 : PhysicalPlan :=
  { processors := [⟨2, { core := .tableReader [⟨0, 5⟩], stageID := 1 }⟩,
                   ⟨3, { core := .tableReader [⟨5, 9⟩], stageID := 1 }⟩],
    streams := [], resultRouters := [0, 1], resultTypes := [0],
    mergeOrdering := {}, stageCounter := 1, planToStreamColMap := [0] }

/-- One distinct aggregate over column 0, function 1 (in the table). -/
def aggsC6 : List Aggregation := [{ func := 1, distinct := true, colIdx := [0] }]

/-- One plain aggregate over column 0, function 1 (in the table). -/
def aggsW6 : List Aggregation := [{ func := 1, distinct := false, colIdx := [0] }]

def qC6 : PhysicalPlan := (addAggregators aggEnvW6 9 aggsC6 0 {} pC6).toOption.getD {}

def qW6 : PhysicalPlan := (addAggregators aggEnvW6 9 aggsW6 0 {} pW6).toOption.getD {}

/-! Structural lemmas about the partition-list operations. -/

theorem Span.disjoint_symm : ∀ {a b : Span}, a.disjoint b → b.disjoint a := by
  intro a b h; cases h with
  | inl h => exact Or.inr h
  | inr h => exact Or.inl h

@[simp] theorem piecesOf_nil : piecesOf [] = [] := rfl

@[simp] theorem piecesOf_cons (part : SpanPartition) (rest : List SpanPartition) :
    piecesOf (part :: rest) = part.spans ++ piecesOf rest := rfl

theorem setLastEnd_concat (l : List Span) (s : Span) (e : Nat) :
    setLastEnd (l ++ [s]) e = l ++ [⟨s.key, e⟩] := by
  induction l with
  | nil => rfl
  | cons a rest ih =>
    cases rest with
    | nil => simp [setLastEnd]
    | cons b rest' => simpa [setLastEnd] using ih

theorem setLastEnd_getLast? (l : List Span) (e : Nat) :
    (setLastEnd l e).getLast? = l.getLast?.map (fun s => ⟨s.key, e⟩) := by
  rcases l.eq_nil_or_concat with rfl | ⟨init, last, rfl⟩
  · rfl
  · rw [List.concat_eq_append, setLastEnd_concat]
    simp [List.getLast?_concat]

theorem mem_piecesOf_addPieceApp {parts : List SpanPartition} {n : Nat} {piece s : Span} :
    s ∈ piecesOf (addPieceApp parts n piece) ↔ s ∈ piecesOf parts ∨ s = piece := by
  induction parts with
  | nil => simp [addPieceApp, piecesOf]
  | cons part rest ih =>
    by_cases h : part.node = n
    · simp [addPieceApp, h, or_assoc, or_comm, or_left_comm]
    · simp only [addPieceApp, if_neg h, piecesOf_cons, List.mem_append, ih, or_assoc]

theorem findPart_addPieceApp_self (parts : List SpanPartition) (n : Nat) (piece : Span) :
    ∃ part, findPart (addPieceApp parts n piece) n = some part ∧
      part.node = n ∧ part.spans.getLast? = some piece := by
  induction parts with
  | nil =>
    exact ⟨⟨n, [piece]⟩, by simp [addPieceApp, findPart], rfl, rfl⟩
  | cons part rest ih =>
    by_cases h : part.node = n
    · refine ⟨⟨part.node, part.spans ++ [piece]⟩, ?_, h, by simp [List.getLast?_concat]⟩
      simp [addPieceApp, h, findPart]
    · obtain ⟨p, hp, hn, hl⟩ := ih
      refine ⟨p, ?_, hn, hl⟩
      simpa [addPieceApp, h, findPart] using hp

theorem nodes_addPieceApp {parts : List SpanPartition} {n : Nat} {piece : Span} :
    ∀ part' ∈ addPieceApp parts n piece, part'.node = n ∨ ∃ part ∈ parts, part'.node = part.node := by
  induction parts with
  | nil => simp [addPieceApp]
  | cons part rest ih =>
    by_cases h : part.node = n
    · intro part' hp'
      simp only [addPieceApp, if_pos h] at hp'
      rcases List.mem_cons.mp hp' with rfl | hp'
      · exact Or.inl h
      · exact Or.inr ⟨part', List.mem_cons_of_mem _ hp', rfl⟩
    · intro part' hp'
      simp only [addPieceApp, if_neg h] at hp'
      rcases List.mem_cons.mp hp' with rfl | hp'
      · exact Or.inr ⟨part', List.mem_cons_self _ _, rfl⟩
      · rcases ih part' hp' with h1 | ⟨p, hp, he⟩
        · exact Or.inl h1
        · exact Or.inr ⟨p, List.mem_cons_of_mem _ hp, he⟩

theorem chains_addPieceApp {parts : List SpanPartition} {n : Nat} {piece : Span}
    (hch : ∀ part ∈ parts, List.Chain' (fun a b => a.endKey ≤ b.key) part.spans)
    (hb : ∀ s ∈ piecesOf parts, s.endKey ≤ piece.key) :
    ∀ part ∈ addPieceApp parts n piece, List.Chain' (fun a b => a.endKey ≤ b.key) part.spans := by
  induction parts with
  | nil =>
    intro part hp
    simp only [addPieceApp] at hp
    rcases List.mem_cons.mp hp with rfl | h
    · simp
    · simp at h
  | cons part rest ih =>
    by_cases h : part.node = n
    · intro part' hp'
      simp only [addPieceApp, if_pos h] at hp'
      rcases List.mem_cons.mp hp' with rfl | hp'
      · refine List.Chain'.append (hch part (List.mem_cons_self _ _)) (by simp) ?_
        intro x hx y hy
        simp only [List.head?_cons, Option.mem_def, Option.some.injEq] at hy
        subst hy
        exact hb x (by simp [List.mem_of_mem_getLast? hx])
      · exact hch part' (List.mem_cons_of_mem _ hp')
    · intro part' hp'
      simp only [addPieceApp, if_neg h] at hp'
      rcases List.mem_cons.mp hp' with rfl | hp'
      · exact hch part' (List.mem_cons_self _ _)
      · exact ih (fun p hp => hch p (List.mem_cons_of_mem _ hp))
          (fun s hs => hb s (by simp only [piecesOf_cons, List.mem_append]; exact Or.inr hs)) part' hp'

theorem pairwise_addPieceApp {parts : List SpanPartition} {n : Nat} {piece : Span}
    (hpw : (piecesOf parts).Pairwise Span.disjoint)
    (hd : ∀ s ∈ piecesOf parts, s.disjoint piece) :
    (piecesOf (addPieceApp parts n piece)).Pairwise Span.disjoint := by
  induction parts with
  | nil => simp [addPieceApp, piecesOf]
  | cons part rest ih =>
    by_cases h : part.node = n
    · simp only [addPieceApp, if_pos h, piecesOf_cons]
      have heq : (part.spans ++ [piece]) ++ piecesOf rest = part.spans ++ piece :: piecesOf rest := by
        simp
      rw [heq, List.pairwise_middle (fun h => Span.disjoint_symm h)]
      refine List.Pairwise.cons ?_ ?_
      · intro y hy
        exact Span.disjoint_symm (hd y (by simpa using hy))
      · simpa using hpw
    · simp only [addPieceApp, if_neg h, piecesOf_cons]
      rw [List.pairwise_append]
      simp only [piecesOf_cons, List.pairwise_append] at hpw
      refine ⟨hpw.1, ih hpw.2.1 (fun s hs => hd s (by simp [hs])), ?_⟩
      intro a ha b hb
      rcases mem_piecesOf_addPieceApp.mp hb with hb' | rfl
      · exact hpw.2.2 a ha b hb'
      · exact hd a (by simp [ha])

@[simp] theorem piecesOf_append (l₁ l₂ : List SpanPartition) :
    piecesOf (l₁ ++ l₂) = piecesOf l₁ ++ piecesOf l₂ := by
  simp [piecesOf]

theorem coalesceLast_decomp {parts : List SpanPartition} {n : Nat} {part0 : SpanPartition}
    {s0 : Span} (e : Nat)
    (hfind : findPart parts n = some part0) (hlast : part0.spans.getLast? = some s0) :
    ∃ pre post init, parts = pre ++ part0 :: post ∧ part0.spans = init ++ [s0] ∧
      part0.node = n ∧ (∀ q ∈ pre, q.node ≠ n) ∧
      coalesceLast parts n e = pre ++ ⟨part0.node, init ++ [⟨s0.key, e⟩]⟩ :: post := by
  induction parts with
  | nil => simp [findPart] at hfind
  | cons part rest ih =>
    by_cases h : part.node = n
    · simp only [findPart, List.find?, decide_eq_true h] at hfind
      have hp0 : part0 = part := by injection hfind with h'; exact h'.symm
      subst hp0
      rcases part0.spans.eq_nil_or_concat with hnil | ⟨init, last, hconcat⟩
      · rw [hnil] at hlast; simp at hlast
      · rw [List.concat_eq_append] at hconcat
        have hlast' : last = s0 := by
          rw [hconcat, List.getLast?_concat] at hlast
          simpa using hlast
        subst hlast'
        refine ⟨[], rest, init, by simp, hconcat, h, by simp, ?_⟩
        simp only [coalesceLast, if_pos h, List.nil_append]
        rw [hconcat, setLastEnd_concat]
    · have hfind' : findPart rest n = some part0 := by
        simpa only [findPart, List.find?, decide_eq_false h] using hfind
      obtain ⟨pre, post, init, h1, h2, h3, h3', h4⟩ := ih hfind'
      refine ⟨part :: pre, post, init, by simp [h1], h2, h3, ?_, ?_⟩
      · intro q hq
        rcases List.mem_cons.mp hq with rfl | hq
        · exact h
        · exact h3' q hq
      · simp only [coalesceLast, if_neg h, h4, List.cons_append]

theorem findPart_of_prefix {pre post : List SpanPartition} {X : SpanPartition} {n : Nat}
    (hpre : ∀ q ∈ pre, q.node ≠ n) (hX : X.node = n) :
    findPart (pre ++ X :: post) n = some X := by
  induction pre with
  | nil => simp [findPart, List.find?, decide_eq_true hX]
  | cons q rest ih =>
    have hq : q.node ≠ n := hpre q (List.mem_cons_self _ _)
    simp only [List.cons_append, findPart, List.find?, decide_eq_false hq]
    exact ih (fun q' hq' => hpre q' (List.mem_cons_of_mem _ hq'))

theorem coalesce_geo {parts : List SpanPartition} {n b e : Nat}
    (hgeo : GeoInv b parts) (hn : n ≠ 0) (hfit : lastFits parts n b) (hbe : b < e) :
    GeoInv e (coalesceLast parts n e) ∧
    lastFits (coalesceLast parts n e) n e ∧
    (∀ k, coveredBy (piecesOf (coalesceLast parts n e)) k ↔
      coveredBy (piecesOf parts) k ∨ (b ≤ k ∧ k < e)) ∧
    (∀ m k, nodeCovers parts m k → nodeCovers (coalesceLast parts n e) m k) ∧
    (∀ k, b ≤ k → k < e → nodeCovers (coalesceLast parts n e) n k) ∧
    (coalesceLast parts n e).map SpanPartition.node = parts.map SpanPartition.node := by
  obtain ⟨part0, s0, hfind, hlast, hend⟩ := hfit hn
  obtain ⟨pre, post, init, hp, hsp, hnode, hpre, hres⟩ := coalesceLast_decomp e hfind hlast
  set M : Span := ⟨s0.key, e⟩ with hM
  -- membership of s0 and the shape of the piece lists
  have hs0mem : s0 ∈ piecesOf parts := by
    rw [hp]; simp [piecesOf, hsp]
  have hs0wf : s0.key < s0.endKey := hgeo.wf s0 hs0mem
  have hMwf : M.key < M.endKey := by
    simp only [hM]; omega
  have hpieces : piecesOf parts = piecesOf pre ++ (init ++ s0 :: piecesOf post) := by
    rw [hp]; simp [piecesOf, hsp]
  have hpieces' : piecesOf (coalesceLast parts n e) =
      piecesOf pre ++ (init ++ M :: piecesOf post) := by
    rw [hres]; simp [piecesOf]
  -- membership in the new pieces is membership in the old ones with s0 replaced by M
  have hmem' : ∀ s, s ∈ piecesOf (coalesceLast parts n e) ↔
      (s ∈ piecesOf pre ∨ s ∈ init ∨ s ∈ piecesOf post) ∨ s = M := by
    intro s; rw [hpieces']; simp; tauto
  have hmem : ∀ s, s ∈ piecesOf parts ↔
      (s ∈ piecesOf pre ∨ s ∈ init ∨ s ∈ piecesOf post) ∨ s = s0 := by
    intro s; rw [hpieces]; simp; tauto
  have hsideOld : ∀ s, (s ∈ piecesOf pre ∨ s ∈ init ∨ s ∈ piecesOf post) → s ∈ piecesOf parts := by
    intro s hs; rw [hmem s]; exact Or.inl hs
  refine ⟨⟨?_, ?_, ?_, ?_⟩, ?_, ?_, ?_, ?_, ?_⟩
  · -- wf
    intro s hs
    rcases (hmem' s).mp hs with h | rfl
    · exact hgeo.wf s (hsideOld s h)
    · exact hMwf
  · -- bounded
    intro s hs
    rcases (hmem' s).mp hs with h | rfl
    · have := hgeo.bounded s (hsideOld s h); omega
    · simp [hM]
  · -- chains
    intro part' hpart'
    rw [hres] at hpart'
    rcases List.mem_append.mp hpart' with h | h
    · exact hgeo.chains part' (by rw [hp]; exact List.mem_append_left _ h)
    · rcases List.mem_cons.mp h with rfl | h
      · have hch0 := hgeo.chains part0 (by rw [hp]; exact List.mem_append_right _ (List.mem_cons_self _ _))
        rw [hsp] at hch0
        rw [List.chain'_append] at hch0 ⊢
        refine ⟨hch0.1, by simp, ?_⟩
        intro x hx y hy
        simp only [List.head?_cons, Option.mem_def, Option.some.injEq] at hy
        subst hy
        simpa [hM] using hch0.2.2 x hx s0 (by simp)
      · exact hgeo.chains part' (by rw [hp]; exact List.mem_append_right _ (List.mem_cons_of_mem _ h))
  · -- pairwise disjoint
    have hrearr : piecesOf parts = (piecesOf pre ++ init) ++ s0 :: piecesOf post := by
      rw [hpieces]; simp
    have hrearr' : piecesOf (coalesceLast parts n e) =
        (piecesOf pre ++ init) ++ M :: piecesOf post := by
      rw [hpieces']; simp
    have hold := hgeo.disj
    rw [hrearr, List.pairwise_middle (fun h => Span.disjoint_symm h)] at hold
    rw [hrearr', List.pairwise_middle (fun h => Span.disjoint_symm h)]
    rcases List.pairwise_cons.mp hold with ⟨hs0d, hrest⟩
    refine List.pairwise_cons.mpr ⟨?_, hrest⟩
    intro y hy
    have hymem : y ∈ piecesOf parts := by
      apply hsideOld; simp only [List.mem_append] at hy; tauto
    have hywf := hgeo.wf y hymem
    have hyb := hgeo.bounded y hymem
    rcases hs0d y hy with h | h
    · exfalso; omega
    · exact Or.inr (by simp only [hM]; omega)
  · -- lastFits at the new frontier
    intro _
    refine ⟨⟨part0.node, init ++ [M]⟩, M, ?_, by simp [List.getLast?_concat], by simp [hM]⟩
    rw [hres]
    exact findPart_of_prefix hpre (by simpa using hnode)
  · -- coverage
    intro k
    constructor
    · intro ⟨s, hs, hks⟩
      rcases (hmem' s).mp hs with h | rfl
      · exact Or.inl ⟨s, hsideOld s h, hks⟩
      · rcases hks with ⟨h1, h2⟩
        simp only [hM] at h1 h2
        by_cases hkb : k < b
        · exact Or.inl ⟨s0, hs0mem, ⟨h1, by omega⟩⟩
        · exact Or.inr ⟨by omega, h2⟩
    · intro h
      rcases h with ⟨s, hs, hks⟩ | ⟨h1, h2⟩
      · rcases (hmem s).mp hs with h | rfl
        · exact ⟨s, (hmem' s).mpr (Or.inl h), hks⟩
        · refine ⟨M, (hmem' M).mpr (Or.inr rfl), ?_⟩
          rcases hks with ⟨h1, h2⟩
          exact ⟨h1, by simp only [hM]; omega⟩
      · refine ⟨M, (hmem' M).mpr (Or.inr rfl), ?_⟩
        constructor
        · simp only [hM]; omega
        · simp only [hM]; omega
  · -- nodeCovers is monotone
    intro m k ⟨part, hpart, hm, s, hs, hks⟩
    rw [hp] at hpart
    rcases List.mem_append.mp hpart with h | h
    · exact ⟨part, by rw [hres]; exact List.mem_append_left _ h, hm, s, hs, hks⟩
    · rcases List.mem_cons.mp h with rfl | h
      · refine ⟨⟨part.node, init ++ [M]⟩, ?_, hm, ?_⟩
        · rw [hres]; exact List.mem_append_right _ (List.mem_cons_self _ _)
        · rw [hsp] at hs
          rcases List.mem_append.mp hs with h' | h'
          · exact ⟨s, List.mem_append_left _ h', hks⟩
          · have hss0 : s = s0 := by simpa using h'
            subst hss0
            refine ⟨M, List.mem_append_right _ (by simp), ?_⟩
            rcases hks with ⟨h1, h2⟩
            exact ⟨h1, by simp only [hM]; omega⟩
      · exact ⟨part, by rw [hres]; exact List.mem_append_right _ (List.mem_cons_of_mem _ h),
          hm, s, hs, hks⟩
  · -- the new region is covered by the partition of n
    intro k hk1 hk2
    refine ⟨⟨part0.node, init ++ [M]⟩, ?_, by simpa using hnode, ?_⟩
    · rw [hres]; exact List.mem_append_right _ (List.mem_cons_self _ _)
    · refine ⟨M, List.mem_append_right _ (by simp), ?_, ?_⟩
      · simp only [hM]; omega
      · simp only [hM]; omega
  · -- node list unchanged
    rw [hres, hp]; simp

theorem addPieceApp_covers {parts : List SpanPartition} {n : Nat} {piece : Span} {m k : Nat}
    (h : nodeCovers parts m k) : nodeCovers (addPieceApp parts n piece) m k := by
  induction parts with
  | nil => rcases h with ⟨part, hp, _⟩; simp at hp
  | cons part rest ih =>
    rcases h with ⟨q, hq, hm, hcov⟩
    by_cases h' : part.node = n
    · simp only [addPieceApp, if_pos h']
      rcases List.mem_cons.mp hq with rfl | hq
      · refine ⟨⟨q.node, q.spans ++ [piece]⟩, List.mem_cons_self _ _, hm, ?_⟩
        rcases hcov with ⟨s, hs, hks⟩
        exact ⟨s, List.mem_append_left _ hs, hks⟩
      · exact ⟨q, List.mem_cons_of_mem _ hq, hm, hcov⟩
    · simp only [addPieceApp, if_neg h']
      rcases List.mem_cons.mp hq with rfl | hq
      · exact ⟨q, List.mem_cons_self _ _, hm, hcov⟩
      · rcases ih ⟨q, hq, hm, hcov⟩ with ⟨q', hq', hm', hcov'⟩
        exact ⟨q', List.mem_cons_of_mem _ hq', hm', hcov'⟩

theorem append_geo {parts : List SpanPartition} {n lk e : Nat}
    (hgeo : GeoInv lk parts) (hlt : lk < e) :
    GeoInv e (addPieceApp parts n ⟨lk, e⟩) ∧
    lastFits (addPieceApp parts n ⟨lk, e⟩) n e ∧
    (∀ k, coveredBy (piecesOf (addPieceApp parts n ⟨lk, e⟩)) k ↔
      coveredBy (piecesOf parts) k ∨ (lk ≤ k ∧ k < e)) ∧
    (∀ m k, nodeCovers parts m k → nodeCovers (addPieceApp parts n ⟨lk, e⟩) m k) ∧
    (∀ k, lk ≤ k → k < e → nodeCovers (addPieceApp parts n ⟨lk, e⟩) n k) ∧
    (∀ part' ∈ addPieceApp parts n ⟨lk, e⟩,
      part'.node = n ∨ ∃ part ∈ parts, part'.node = part.node) := by
  refine ⟨⟨?_, ?_, ?_, ?_⟩, ?_, ?_, ?_, ?_, ?_⟩
  · intro s hs
    rcases mem_piecesOf_addPieceApp.mp hs with h | rfl
    · exact hgeo.wf s h
    · exact hlt
  · intro s hs
    rcases mem_piecesOf_addPieceApp.mp hs with h | rfl
    · have := hgeo.bounded s h; omega
    · exact Nat.le_refl e
  · exact chains_addPieceApp hgeo.chains (fun s hs => hgeo.bounded s hs)
  · refine pairwise_addPieceApp hgeo.disj ?_
    intro s hs
    exact Or.inl (hgeo.bounded s hs)
  · intro _
    obtain ⟨part, hfind, _, hl⟩ := findPart_addPieceApp_self parts n ⟨lk, e⟩
    exact ⟨part, ⟨lk, e⟩, hfind, hl, rfl⟩
  · intro k
    constructor
    · intro ⟨s, hs, hks⟩
      rcases mem_piecesOf_addPieceApp.mp hs with h | rfl
      · exact Or.inl ⟨s, h, hks⟩
      · exact Or.inr ⟨hks.1, hks.2⟩
    · intro h
      rcases h with ⟨s, hs, hks⟩ | ⟨h1, h2⟩
      · exact ⟨s, mem_piecesOf_addPieceApp.mpr (Or.inl hs), hks⟩
      · exact ⟨⟨lk, e⟩, mem_piecesOf_addPieceApp.mpr (Or.inr rfl), h1, h2⟩
  · intro m k h
    exact addPieceApp_covers h
  · intro k hk1 hk2
    obtain ⟨part, hfind, hn, hl⟩ := findPart_addPieceApp_self parts n ⟨lk, e⟩
    refine ⟨part, ?_, hn, ⟨lk, e⟩, List.mem_of_mem_getLast? hl, hk1, hk2⟩
    exact List.mem_of_find?_eq_some hfind
  · exact nodes_addPieceApp

theorem lookupN_mem {α : Type} {l : List (Nat × α)} {n : Nat} {v : α}
    (h : lookupN l n = some v) : (n, v) ∈ l := by
  induction l with
  | nil => simp [lookupN] at h
  | cons p rest ih =>
    rcases p with ⟨k, w⟩
    simp only [lookupN] at h
    split at h
    · next heq =>
      injection h with h'
      subst h'; subst heq
      exact List.mem_cons_self _ _
    · next hne => exact List.mem_cons_of_mem _ (ih h)

theorem healthCheckAddr_spec (env : Env) (st : PartState) (d : Nat) (hinv : NodeInv env st) :
    (d ≠ env.gateway → (healthCheckAddr env st d).1 = nodeHealthyAddr env d) ∧
    (∀ p ∈ (healthCheckAddr env st d).2, p.1 ≠ env.gateway →
      p.2 = nodeHealthyAddr env p.1 ∧ p.2 ≠ "") := by
  unfold healthCheckAddr
  cases hl : lookupN st.nodeAddresses d with
  | some a =>
    refine ⟨fun hne => (hinv.addrs (d, a) (lookupN_mem hl) hne).1, hinv.addrs⟩
  | none =>
    by_cases hch : checkNodeHealth env d (env.nodeAddr d)
    · simp only [if_pos hch]
      have hha : nodeHealthyAddr env d = env.nodeAddr d := by
        simp [nodeHealthyAddr, hch]
      by_cases ha : env.nodeAddr d = ""
      · simp only [ha, ne_eq, not_true_eq_false, if_false, reduceIte]
        exact ⟨fun _ => by rw [hha, ha], hinv.addrs⟩
      · simp only [ne_eq, ha, not_false_eq_true, if_true, reduceIte]
        refine ⟨fun _ => hha.symm, ?_⟩
        intro p hp hne
        rcases List.mem_cons.mp hp with rfl | hp
        · exact ⟨hha.symm, ha⟩
        · exact hinv.addrs p hp hne
    · simp only [if_neg hch]
      have hha : nodeHealthyAddr env d = "" := by
        simp [nodeHealthyAddr, hch]
      exact ⟨fun _ => hha.symm, hinv.addrs⟩

theorem versionCheckCached_spec (env : Env) (vmap : List (Nat × Bool)) (d : Nat)
    (hinv : ∀ p ∈ vmap, p.2 = nodeVersionIsCompatible env p.1) :
    (versionCheckCached env vmap d).1 = nodeVersionIsCompatible env d ∧
    (∀ p ∈ (versionCheckCached env vmap d).2, p.2 = nodeVersionIsCompatible env p.1) := by
  unfold versionCheckCached
  cases hv : lookupN vmap d with
  | some c =>
    exact ⟨hinv (d, c) (lookupN_mem hv), hinv⟩
  | none =>
    refine ⟨rfl, ?_⟩
    intro p hp
    rcases List.mem_cons.mp hp with rfl | hp
    · rfl
    · exact hinv p hp

theorem chooseNode_spec (env : Env) (st : PartState) (d : Nat) (hinv : NodeInv env st) :
    ((chooseNode env st d).1 = d ∨ (chooseNode env st d).1 = env.gateway) ∧
    ((chooseNode env st d).1 ≠ env.gateway →
      (chooseNode env st d).1 = d ∧ nodeUsable env d = true) ∧
    (∀ p ∈ (chooseNode env st d).2.1, p.1 ≠ env.gateway →
      p.2 = nodeHealthyAddr env p.1 ∧ p.2 ≠ "") ∧
    (∀ p ∈ (chooseNode env st d).2.2, p.2 = nodeVersionIsCompatible env p.1) := by
  by_cases hp : hasPartition st.partitions d
  · have hcn : chooseNode env st d = (d, st.nodeAddresses, st.nodeVerCompatMap) := by
      simp [chooseNode, hp]
    rw [hcn]
    refine ⟨Or.inl rfl, ?_, hinv.addrs, hinv.vmap⟩
    intro hne
    refine ⟨rfl, ?_⟩
    have hex : ∃ part ∈ st.partitions, part.node = d := by
      simpa [hasPartition, List.any_eq_true] using hp
    obtain ⟨part, hpart, hnd⟩ := hex
    rcases hinv.sound part hpart with h | h
    · exact absurd (hnd ▸ h) hne
    · exact hnd ▸ h
  · obtain ⟨hH1, hH2⟩ := healthCheckAddr_spec env st d hinv
    by_cases haddr : (healthCheckAddr env st d).1 = ""
    · have hcn : chooseNode env st d =
          (env.gateway, (healthCheckAddr env st d).2, st.nodeVerCompatMap) := by
        simp [chooseNode, hp, haddr]
      rw [hcn]
      exact ⟨Or.inr rfl, fun h => absurd rfl h, hH2, hinv.vmap⟩
    · obtain ⟨hV1, hV2⟩ := versionCheckCached_spec env st.nodeVerCompatMap d hinv.vmap
      by_cases hcomp : (versionCheckCached env st.nodeVerCompatMap d).1 = false
      · have hcn : chooseNode env st d =
            (env.gateway, (healthCheckAddr env st d).2,
              (versionCheckCached env st.nodeVerCompatMap d).2) := by
          simp [chooseNode, hp, haddr, hcomp]
        rw [hcn]
        exact ⟨Or.inr rfl, fun h => absurd rfl h, hH2, hV2⟩
      · have hcompT : (versionCheckCached env st.nodeVerCompatMap d).1 = true := by
          rcases Bool.eq_false_or_eq_true (versionCheckCached env st.nodeVerCompatMap d).1
            with h | h
          · exact h
          · exact absurd h hcomp
        have hcn : chooseNode env st d =
            (d, (healthCheckAddr env st d).2,
              (versionCheckCached env st.nodeVerCompatMap d).2) := by
          simp [chooseNode, hp, haddr, hcompT]
        rw [hcn]
        refine ⟨Or.inl rfl, ?_, hH2, hV2⟩
        intro hne
        refine ⟨rfl, ?_⟩
        by_cases hdg : d = env.gateway
        · exact absurd hdg hne
        · have h1 := hH1 hdg
          have h2 : nodeVersionIsCompatible env d = true := by rw [← hV1]; exact hcompT
          rw [h1] at haddr
          simp [nodeUsable, h2, haddr]

theorem GeoInv_mono {F F' : Nat} {parts : List SpanPartition}
    (h : GeoInv F parts) (hle : F ≤ F') : GeoInv F' parts :=
  ⟨h.wf, fun s hs => Nat.le_trans (h.bounded s hs) hle, h.chains, h.disj⟩

theorem coalesceLast_nodes (parts : List SpanPartition) (n e : Nat) :
    (coalesceLast parts n e).map SpanPartition.node = parts.map SpanPartition.node := by
  induction parts with
  | nil => rfl
  | cons part rest ih =>
    by_cases h : part.node = n
    · simp [coalesceLast, h]
    · simp [coalesceLast, h, ih]

theorem chooseNode_fst (env : Env) (st : PartState) (d : Nat) :
    (chooseNode env st d).1 = d ∨ (chooseNode env st d).1 = env.gateway := by
  by_cases hp : hasPartition st.partitions d
  · simp [chooseNode, hp]
  · by_cases haddr : (healthCheckAddr env st d).1 = ""
    · simp [chooseNode, hp, haddr]
    · by_cases hcomp : (versionCheckCached env st.nodeVerCompatMap d).1 = false
      · simp [chooseNode, hp, haddr, hcomp]
      · have hcompT : (versionCheckCached env st.nodeVerCompatMap d).1 = true := by
          rcases Bool.eq_false_or_eq_true (versionCheckCached env st.nodeVerCompatMap d).1
            with h | h
          · exact h
          · exact absurd h hcomp
        simp [chooseNode, hp, haddr, hcompT]

theorem stepState_geo (env : Env) (hnz : NodesNonZero env)
    (st : PartState) (rspan : Span) (lastKey lastNodeID : Nat)
    (hg : (env.resolve lastKey).rstart ≤ lastKey ∧ lastKey < (env.resolve lastKey).rend)
    (hlt : lastKey < rspan.endKey)
    (hgeo : GeoInv lastKey st.partitions)
    (hfit : lastFits st.partitions lastNodeID lastKey) :
    GeoInv (stepEndKey env rspan lastKey)
      (stepState env st rspan lastKey lastNodeID).partitions ∧
    lastFits (stepState env st rspan lastKey lastNodeID).partitions
      (chooseNode env st (env.resolve lastKey).node).1 (stepEndKey env rspan lastKey) ∧
    (∀ k, coveredBy (piecesOf (stepState env st rspan lastKey lastNodeID).partitions) k ↔
      coveredBy (piecesOf st.partitions) k ∨
        (lastKey ≤ k ∧ k < stepEndKey env rspan lastKey)) ∧
    (∀ m k, nodeCovers st.partitions m k →
      nodeCovers (stepState env st rspan lastKey lastNodeID).partitions m k) ∧
    (∀ k, lastKey ≤ k → k < stepEndKey env rspan lastKey →
      ∃ n, (n = env.gateway ∨
          ((env.resolve lastKey).rstart ≤ k ∧ k < (env.resolve lastKey).rend ∧
            n = (env.resolve lastKey).node)) ∧
        nodeCovers (stepState env st rspan lastKey lastNodeID).partitions n k) := by
  have hc1 := chooseNode_fst env st (env.resolve lastKey).node
  set cn := chooseNode env st (env.resolve lastKey).node with hcn
  have hcnz : cn.1 ≠ 0 := by
    rcases hc1 with h | h
    · rw [h]; exact hnz.2 lastKey
    · rw [h]; exact hnz.1
  have hek : lastKey < stepEndKey env rspan lastKey := by
    have := hg.2
    simp only [stepEndKey]
    omega
  have hekr : stepEndKey env rspan lastKey ≤ (env.resolve lastKey).rend := by
    simp only [stepEndKey]; omega
  have hloc : ∀ k, lastKey ≤ k → k < stepEndKey env rspan lastKey →
      (cn.1 = env.gateway ∨
        ((env.resolve lastKey).rstart ≤ k ∧ k < (env.resolve lastKey).rend ∧
          cn.1 = (env.resolve lastKey).node)) := by
    intro k hk1 hk2
    rcases hc1 with h | h
    · refine Or.inr ⟨?_, ?_, h⟩ <;> omega
    · exact Or.inl h
  by_cases hco : lastNodeID = cn.1
  · have hfit' : lastFits st.partitions cn.1 lastKey := by rw [← hco]; exact hfit
    obtain ⟨g1, g2, g3, g4, g5, _⟩ := coalesce_geo hgeo hcnz hfit' hek
    have hparts : (stepState env st rspan lastKey lastNodeID).partitions =
        coalesceLast st.partitions cn.1 (stepEndKey env rspan lastKey) := by
      simp [stepState, ← hcn, hco]
    refine ⟨by rw [hparts]; exact g1, by rw [hparts]; exact g2, ?_, ?_, ?_⟩
    · intro k; rw [hparts]; exact g3 k
    · intro m k h; rw [hparts]; exact g4 m k h
    · intro k hk1 hk2
      exact ⟨cn.1, hloc k hk1 hk2, by rw [hparts]; exact g5 k hk1 hk2⟩
  · obtain ⟨a1, a2, a3, a4, a5, _⟩ := append_geo (n := cn.1) hgeo hek
    have hparts : (stepState env st rspan lastKey lastNodeID).partitions =
        addPieceApp st.partitions cn.1 ⟨lastKey, stepEndKey env rspan lastKey⟩ := by
      simp [stepState, ← hcn, hco]
    refine ⟨by rw [hparts]; exact a1, by rw [hparts]; exact a2, ?_, ?_, ?_⟩
    · intro k; rw [hparts]; exact a3 k
    · intro m k h; rw [hparts]; exact a4 m k h
    · intro k hk1 hk2
      exact ⟨cn.1, hloc k hk1 hk2, by rw [hparts]; exact a5 k hk1 hk2⟩

theorem stepState_node (env : Env) (st : PartState) (rspan : Span)
    (lastKey lastNodeID : Nat) (hinv : NodeInv env st) :
    NodeInv env (stepState env st rspan lastKey lastNodeID) := by
  obtain ⟨hc1, hc2, hc3, hc4⟩ := chooseNode_spec env st (env.resolve lastKey).node hinv
  set cn := chooseNode env st (env.resolve lastKey).node with hcn
  have hcsound : cn.1 = env.gateway ∨ nodeUsable env cn.1 = true := by
    by_cases h : cn.1 = env.gateway
    · exact Or.inl h
    · obtain ⟨heq, hu⟩ := hc2 h
      rw [heq]
      exact Or.inr hu
  refine ⟨?_, by simpa [stepState, ← hcn] using hc3, by simpa [stepState, ← hcn] using hc4⟩
  intro part' hp'
  by_cases hco : lastNodeID = cn.1
  · have hparts : (stepState env st rspan lastKey lastNodeID).partitions =
        coalesceLast st.partitions cn.1 (stepEndKey env rspan lastKey) := by
      simp [stepState, ← hcn, hco]
    rw [hparts] at hp'
    have hmm : part'.node ∈ (coalesceLast st.partitions cn.1
        (stepEndKey env rspan lastKey)).map SpanPartition.node :=
      List.mem_map_of_mem _ hp'
    rw [coalesceLast_nodes] at hmm
    obtain ⟨part, hpart, heq⟩ := List.mem_map.mp hmm
    rcases hinv.sound part hpart with h | h
    · rw [heq] at h; exact Or.inl h
    · rw [heq] at h; exact Or.inr h
  · have hparts : (stepState env st rspan lastKey lastNodeID).partitions =
        addPieceApp st.partitions cn.1 ⟨lastKey, stepEndKey env rspan lastKey⟩ := by
      simp [stepState, ← hcn, hco]
    rw [hparts] at hp'
    rcases nodes_addPieceApp part' hp' with h | ⟨part, hpart, heq⟩
    · rw [h]; exact hcsound
    · rw [heq]; exact hinv.sound part hpart

theorem processSpan_geo (env : Env) (hval : ResolverValid env) (hnz : NodesNonZero env) :
    ∀ fuel (st : PartState) (rspan : Span) (lastKey lastNodeID : Nat),
    rspan.endKey - lastKey < fuel →
    lastKey < rspan.endKey →
    GeoInv lastKey st.partitions →
    lastFits st.partitions lastNodeID lastKey →
    ∃ st', processSpan env fuel st rspan lastKey lastNodeID = .ok st' ∧
      GeoInv rspan.endKey st'.partitions ∧
      (∀ k, coveredBy (piecesOf st'.partitions) k ↔
        coveredBy (piecesOf st.partitions) k ∨ (lastKey ≤ k ∧ k < rspan.endKey)) ∧
      (∀ m k, nodeCovers st.partitions m k → nodeCovers st'.partitions m k) ∧
      (∀ k, lastKey ≤ k → k < rspan.endKey →
        ∃ n, (n = env.gateway ∨ ∃ k₀, (env.resolve k₀).rstart ≤ k ∧
            k < (env.resolve k₀).rend ∧ n = (env.resolve k₀).node) ∧
          nodeCovers st'.partitions n k) := by
  intro fuel
  induction fuel with
  | zero =>
    intro st rspan lastKey lastNodeID hfuel
    exact absurd hfuel (Nat.not_lt_zero _)
  | succ fuel ih =>
    intro st rspan lastKey lastNodeID hfuel hlt hgeo hfit
    have hg := hval lastKey
    obtain ⟨s1, s2, s4, s5, s6⟩ :=
      stepState_geo env hnz st rspan lastKey lastNodeID hg hlt hgeo hfit
    have hek : lastKey < stepEndKey env rspan lastKey := by
      have := hg.2
      simp only [stepEndKey]
      omega
    have hekr : stepEndKey env rspan lastKey ≤ rspan.endKey := by
      simp only [stepEndKey]; omega
    by_cases hdone : rspan.endKey ≤ stepEndKey env rspan lastKey
    · have heq : stepEndKey env rspan lastKey = rspan.endKey := Nat.le_antisymm hekr hdone
      refine ⟨stepState env st rspan lastKey lastNodeID, ?_, ?_, ?_, s5, ?_⟩
      · simp only [processSpan]
        rw [if_pos hg, if_pos hdone]
      · rw [← heq]; exact s1
      · intro k; rw [← heq]; exact s4 k
      · intro k hk1 hk2
        obtain ⟨n, hn, hcov⟩ := s6 k hk1 (heq ▸ hk2)
        refine ⟨n, ?_, hcov⟩
        rcases hn with h | h
        · exact Or.inl h
        · exact Or.inr ⟨lastKey, h.1, h.2.1, h.2.2⟩
    · push_neg at hdone
      have hfuel' : rspan.endKey - stepEndKey env rspan lastKey < fuel := by omega
      obtain ⟨st', hps, r1, r3, r4, r5⟩ :=
        ih (stepState env st rspan lastKey lastNodeID) rspan (stepEndKey env rspan lastKey)
          (chooseNode env st (env.resolve lastKey).node).1 hfuel' hdone s1 s2
      refine ⟨st', ?_, r1, ?_, ?_, ?_⟩
      · simp only [processSpan]
        rw [if_pos hg, if_neg (by omega)]
        exact hps
      · intro k
        rw [r3 k, s4 k]
        constructor
        · rintro ((h | h) | h)
          · exact Or.inl h
          · exact Or.inr ⟨h.1, by omega⟩
          · exact Or.inr ⟨by omega, h.2⟩
        · rintro (h | ⟨h1, h2⟩)
          · exact Or.inl (Or.inl h)
          · by_cases hk : k < stepEndKey env rspan lastKey
            · exact Or.inl (Or.inr ⟨h1, hk⟩)
            · exact Or.inr ⟨by omega, h2⟩
      · intro m k h
        exact r4 m k (s5 m k h)
      · intro k hk1 hk2
        by_cases hk : k < stepEndKey env rspan lastKey
        · obtain ⟨n, hn, hcov⟩ := s6 k hk1 hk
          refine ⟨n, ?_, r4 n k hcov⟩
          rcases hn with h | h
          · exact Or.inl h
          · exact Or.inr ⟨lastKey, h.1, h.2.1, h.2.2⟩
        · exact r5 k (by omega) hk2

theorem processSpan_node (env : Env) :
    ∀ fuel (st : PartState) (rspan : Span) (lastKey lastNodeID : Nat) (st' : PartState),
    processSpan env fuel st rspan lastKey lastNodeID = .ok st' →
    NodeInv env st → NodeInv env st' := by
  intro fuel
  induction fuel with
  | zero =>
    intro st rspan lastKey lastNodeID st' h
    simp [processSpan] at h
  | succ fuel ih =>
    intro st rspan lastKey lastNodeID st' h hinv
    simp only [processSpan] at h
    by_cases hg : (env.resolve lastKey).rstart ≤ lastKey ∧ lastKey < (env.resolve lastKey).rend
    · rw [if_pos hg] at h
      by_cases hdone : rspan.endKey ≤ stepEndKey env rspan lastKey
      · rw [if_pos hdone] at h
        injection h with h'
        rw [← h']
        exact stepState_node env st rspan lastKey lastNodeID hinv
      · rw [if_neg hdone] at h
        exact ih _ _ _ _ _ h (stepState_node env st rspan lastKey lastNodeID hinv)
    · rw [if_neg hg] at h
      exact absurd h (by simp)

theorem partitionLoop_geo (env : Env) (hval : ResolverValid env) (hnz : NodesNonZero env) :
    ∀ (spans : List Span) (st : PartState) (F : Nat),
    (∀ sp ∈ spans, sp.key < sp.endKey) →
    List.Chain' (fun a b => a.endKey ≤ b.key) spans →
    (∀ x ∈ spans.head?, F ≤ x.key) →
    GeoInv F st.partitions →
    ∃ st' F', partitionLoop env st spans = .ok st' ∧
      GeoInv F' st'.partitions ∧
      (∀ k, coveredBy (piecesOf st'.partitions) k ↔
        coveredBy (piecesOf st.partitions) k ∨ coveredBy spans k) ∧
      (∀ m k, nodeCovers st.partitions m k → nodeCovers st'.partitions m k) ∧
      (∀ k, coveredBy spans k →
        ∃ n, (n = env.gateway ∨ ∃ k₀, (env.resolve k₀).rstart ≤ k ∧
            k < (env.resolve k₀).rend ∧ n = (env.resolve k₀).node) ∧
          nodeCovers st'.partitions n k) := by
  intro spans
  induction spans with
  | nil =>
    intro st F _ _ _ hgeo
    refine ⟨st, F, rfl, hgeo, ?_, fun m k h => h, ?_⟩
    · intro k; simp [coveredBy]
    · intro k hk; simp [coveredBy] at hk
  | cons sp rest ih =>
    intro st F hwf hch hF hgeo
    have hspwf : sp.key < sp.endKey := hwf sp (List.mem_cons_self _ _)
    have hFsp : F ≤ sp.key := hF sp (by simp)
    obtain ⟨st₁, hok, p1, p3, p4, p5⟩ :=
      processSpan_geo env hval hnz (sp.endKey - sp.key + 1) st sp sp.key 0
        (by omega) hspwf (GeoInv_mono hgeo hFsp) (fun h => absurd rfl h)
    obtain ⟨hch1, hch2⟩ := List.chain'_cons'.mp hch
    obtain ⟨st₂, F', hloop, q1, q3, q4, q5⟩ :=
      ih st₁ sp.endKey (fun s hs => hwf s (List.mem_cons_of_mem _ hs)) hch2 hch1 p1
    refine ⟨st₂, F', ?_, q1, ?_, ?_, ?_⟩
    · simp only [partitionLoop, hok]
      exact hloop
    · intro k
      rw [q3 k, p3 k]
      have hcons : coveredBy (sp :: rest) k ↔ sp.contains k ∨ coveredBy rest k := by
        simp [coveredBy, Span.contains]
      rw [hcons]
      simp only [Span.contains]
      tauto
    · intro m k h
      exact q4 m k (p4 m k h)
    · intro k hk
      have hcons : sp.contains k ∨ coveredBy rest k := by
        simpa [coveredBy, Span.contains, or_and_right, exists_or] using hk
      rcases hcons with h | h
      · obtain ⟨n, hn, hcov⟩ := p5 k h.1 h.2
        exact ⟨n, hn, q4 n k hcov⟩
      · exact q5 k h

theorem partitionLoop_node (env : Env) :
    ∀ (spans : List Span) (st st' : PartState),
    partitionLoop env st spans = .ok st' →
    NodeInv env st → NodeInv env st' := by
  intro spans
  induction spans with
  | nil =>
    intro st st' h hinv
    simp only [partitionLoop] at h
    injection h with h'
    rw [← h']; exact hinv
  | cons sp rest ih =>
    intro st st' h hinv
    simp only [partitionLoop] at h
    cases hok : processSpan env (sp.endKey - sp.key + 1) st sp sp.key 0 with
    | error e => rw [hok] at h; exact absurd h (by simp)
    | ok st₁ =>
      rw [hok] at h
      exact ih st₁ st' h (processSpan_node env _ st sp sp.key 0 st₁ hok hinv)

/-- C10: calling `partitionSpans` with an empty span set panics with
"no spans" (modelled as the `panicNoSpans` outcome) rather than returning an
empty partition list or an ordinary error, whatever the environment and the
planning context's address map. -/
theorem partitionSpans_empty_spans_panics (env : Env) (addrs : List (Nat × String)) :
    partitionSpans env addrs [] = .error .panicNoSpans := by
  simp [partitionSpans]

/-- C2 (amended): for every resolver satisfying the iterator contract and
every non-empty input span list whose spans are well-formed, pairwise
non-overlapping and in ascending key order, `partitionSpans` returns without
error, the spans of the returned partitions are pairwise non-overlapping,
their union is exactly the union of the input spans, and within each node's
partition the spans are in ascending key order (each partition's span list
is chained by end-key ≤ next start-key, and every span is a non-empty
interval). -/
theorem partitionSpans_partitions_correct (env : Env) (addrs : List (Nat × String))
    (spans : List Span) (hval : ResolverValid env) (hnz : NodesNonZero env)
    (hspans : SpansWellFormed spans) :
    ∃ st, partitionSpans env addrs spans = .ok st ∧
      (∀ part ∈ st.partitions,
        List.Chain' (fun a b => a.endKey ≤ b.key) part.spans) ∧
      (∀ s ∈ piecesOf st.partitions, s.key < s.endKey) ∧
      (piecesOf st.partitions).Pairwise Span.disjoint ∧
      (∀ k, coveredBy (piecesOf st.partitions) k ↔ coveredBy spans k) := by
  obtain ⟨hne, hwf, hch⟩ := hspans
  have hgeo0 : GeoInv 0 ([] : List SpanPartition) := by
    refine ⟨?_, ?_, ?_, ?_⟩ <;> simp [piecesOf]
  obtain ⟨st, F', hok, g1, g3, _, _⟩ :=
    partitionLoop_geo env hval hnz spans ⟨[], addrs, []⟩ 0 hwf hch (by simp) hgeo0
  refine ⟨st, ?_, g1.chains, g1.wf, g1.disj, ?_⟩
  · rw [partitionSpans, if_neg hne]
    exact hok
  · intro k
    rw [g3 k]
    simp [coveredBy, piecesOf]

/-- C3: with a fresh planning context, whenever a key of the input spans lies
in a range whose leaseholder node is not usable (its health-checked address
is empty — absent from gossip or a connectivity-probe failure other than the
two soft-failure states — or its DistSQL version is incompatible), that key
is assigned to the gateway node's partition. -/
theorem partitionSpans_unhealthy_to_gateway (env : Env) (spans : List Span) (k : Nat)
    (hval : ResolverValid env) (hcons : ResolverConsistent env) (hnz : NodesNonZero env)
    (hspans : SpansWellFormed spans) (hcov : coveredBy spans k)
    (hbad : nodeUsable env (env.resolve k).node = false) :
    ∃ st, partitionSpans env (newPlanningCtxAddresses env) spans = .ok st ∧
      ∃ part ∈ st.partitions, part.node = env.gateway ∧ ∃ s ∈ part.spans, s.contains k := by
  obtain ⟨hne, hwf, hch⟩ := hspans
  have hgeo0 : GeoInv 0 ([] : List SpanPartition) := by
    refine ⟨?_, ?_, ?_, ?_⟩ <;> simp [piecesOf]
  have hinv0 : NodeInv env ⟨[], newPlanningCtxAddresses env, []⟩ := by
    refine ⟨by simp, ?_, by simp⟩
    intro p hp hne'
    simp only [newPlanningCtxAddresses, List.mem_singleton] at hp
    rw [hp] at hne'
    exact absurd rfl hne'
  obtain ⟨st, F', hok, _, _, _, g5⟩ :=
    partitionLoop_geo env hval hnz spans ⟨[], newPlanningCtxAddresses env, []⟩ 0
      hwf hch (by simp) hgeo0
  have hinv : NodeInv env st := partitionLoop_node env spans _ st hok hinv0
  obtain ⟨n, hn, part, hpart, hpn, hcovp⟩ := g5 k hcov
  have hng : n = env.gateway := by
    rcases hn with h | ⟨k₀, hk1, hk2, hk3⟩
    · exact h
    · have hres : env.resolve k = env.resolve k₀ := hcons k₀ k hk1 hk2
      rcases hinv.sound part hpart with h | h
      · rw [← hpn]; exact h
      · rw [hpn, hk3, ← hres] at h
        rw [hbad] at h
        exact absurd h (by simp)
  refine ⟨st, ?_, part, hpart, by rw [hpn, hng], hcovp⟩
  rw [partitionSpans, if_neg hne]
  exact hok

/-- C2 counterexample: with overlapping input spans [0,4) and [2,6) in a
healthy single-node world, `partitionSpans` returns without error but the
spans in the returned partition overlap — the claim fails without a
precondition on the input span set. -/
theorem partitionSpans_overlap_counterexample :
    partitionSpans envOverlap (newPlanningCtxAddresses envOverlap) [⟨0, 4⟩, ⟨2, 6⟩] =
      .ok ⟨[⟨2, [⟨0, 4⟩, ⟨2, 6⟩]⟩], [(2, "a2"), (1, "a1")], [(2, true)]⟩ ∧
    ¬ (piecesOf [⟨2, [⟨0, 4⟩, ⟨2, 6⟩]⟩]).Pairwise Span.disjoint := by
  constructor
  · rfl
  · decide

theorem partitionSpans_partitions_correct_witness :
    ResolverValid envW ∧ NodesNonZero envW ∧ SpansWellFormed [⟨0, 12⟩] ∧
    (∃ st, partitionSpans envW (newPlanningCtxAddresses envW) [⟨0, 12⟩] = .ok st ∧
      (∀ part ∈ st.partitions,
        List.Chain' (fun a b => a.endKey ≤ b.key) part.spans) ∧
      (∀ s ∈ piecesOf st.partitions, s.key < s.endKey) ∧
      (piecesOf st.partitions).Pairwise Span.disjoint ∧
      (∀ k, coveredBy (piecesOf st.partitions) k ↔ coveredBy [⟨0, 12⟩] k)) := by
  have hval : ResolverValid envW := by
    intro k
    simp only [envW]
    split_ifs <;> constructor <;> simp <;> omega
  have hnz : NodesNonZero envW := by
    refine ⟨by simp [envW], ?_⟩
    intro k
    simp only [envW]
    split_ifs <;> simp
  have hwf : SpansWellFormed [⟨0, 12⟩] := by
    refine ⟨by simp, ?_, by simp⟩
    intro sp hsp
    rcases List.mem_singleton.mp hsp with rfl
    decide
  exact ⟨hval, hnz, hwf,
    partitionSpans_partitions_correct envW (newPlanningCtxAddresses envW) [⟨0, 12⟩]
      hval hnz hwf⟩

theorem partitionSpans_unhealthy_to_gateway_witness :
    ResolverValid envW ∧ ResolverConsistent envW ∧ NodesNonZero envW ∧
    SpansWellFormed [⟨0, 12⟩] ∧ coveredBy [⟨0, 12⟩] 7 ∧
    nodeUsable envW (envW.resolve 7).node = false ∧
    (∃ st, partitionSpans envW (newPlanningCtxAddresses envW) [⟨0, 12⟩] = .ok st ∧
      ∃ part ∈ st.partitions, part.node = envW.gateway ∧
        ∃ s ∈ part.spans, s.contains 7) := by
  have hval : ResolverValid envW := by
    intro k
    simp only [envW]
    split_ifs <;> constructor <;> simp <;> omega
  have hnz : NodesNonZero envW := by
    refine ⟨by simp [envW], ?_⟩
    intro k
    simp only [envW]
    split_ifs <;> simp
  have hcons : ResolverConsistent envW := by
    intro k k' h1 h2
    by_cases hk5 : k < 5
    · simp only [envW, if_pos hk5] at h1 h2
      have e1 : k' < 5 := h2
      simp [envW, e1, hk5]
    · by_cases hk10 : k < 10
      · simp only [envW, if_neg hk5, if_pos hk10] at h1 h2
        have e1 : ¬ k' < 5 := by omega
        have e2 : k' < 10 := h2
        simp [envW, e1, e2, hk5, hk10]
      · simp only [envW, if_neg hk5, if_neg hk10] at h1 h2
        have hkk : k' = k := by omega
        rw [hkk]
  have hwf : SpansWellFormed [⟨0, 12⟩] := by
    refine ⟨by simp, ?_, by simp⟩
    intro sp hsp
    rcases List.mem_singleton.mp hsp with rfl
    decide
  have hcov : coveredBy [⟨0, 12⟩] 7 := ⟨⟨0, 12⟩, by simp, by decide⟩
  have hbad : nodeUsable envW (envW.resolve 7).node = false := by decide
  exact ⟨hval, hcons, hnz, hwf, hcov, hbad,
    partitionSpans_unhealthy_to_gateway envW [⟨0, 12⟩] 7 hval hcons hnz hwf hcov hbad⟩

theorem modifyAt_length {α : Type} (l : List α) (i : Nat) (f : α → α) :
    (modifyAt l i f).length = l.length := by
  induction l generalizing i with
  | nil => rfl
  | cons x rest ih =>
    cases i with
    | zero => rfl
    | succ i => simp [modifyAt, ih]

theorem getD_modifyAt {α : Type} (l : List α) (i j : Nat) (f : α → α) (d : α) :
    (modifyAt l i f).getD j d =
      if i = j ∧ j < l.length then f (l.getD j d) else l.getD j d := by
  induction l generalizing i j with
  | nil => simp [modifyAt]
  | cons x rest ih =>
    cases i with
    | zero =>
      cases j with
      | zero => simp [modifyAt]
      | succ j => simp [modifyAt]
    | succ i =>
      cases j with
      | zero => simp [modifyAt]
      | succ j =>
        simp only [modifyAt, List.getD_cons_succ, ih, List.length_cons]
        by_cases h : i = j ∧ j < rest.length
        · rw [if_pos h, if_pos ⟨by omega, by omega⟩]
        · rw [if_neg h, if_neg (by omega)]

theorem PopulateEndpoints_preserves (p : PhysicalPlan) (addrs : List (Nat × String)) :
    (PopulateEndpoints p addrs).processors.length = p.processors.length ∧
    (PopulateEndpoints p addrs).resultRouters = p.resultRouters ∧
    ∀ i, ((PopulateEndpoints p addrs).processors.getD i defaultProcessor).node =
      (p.processors.getD i defaultProcessor).node := by
  unfold PopulateEndpoints
  generalize p.streams = ss
  induction ss generalizing p with
  | nil => exact ⟨rfl, rfl, fun _ => rfl⟩
  | cons s rest ih =>
    simp only [List.foldl_cons]
    obtain ⟨h1, h2, h3⟩ := ih _
    refine ⟨by rw [h1]; simp [modifyAt_length], by rw [h2], ?_⟩
    intro i
    rw [h3 i]
    simp only [getD_modifyAt]
    by_cases h : s.sourceProcessor = i ∧ i < p.processors.length
    · rw [if_pos h]
    · rw [if_neg h]

theorem getD_concat_length {α : Type} (l : List α) (x d : α) :
    (l ++ [x]).getD l.length d = x := by
  induction l with
  | nil => rfl
  | cons a rest ih => simpa using ih

theorem appendSyncResponse_facts (p : PhysicalPlan) (r : Nat)
    (hr : p.resultRouters = [r]) (hlen : r < p.processors.length) :
    (appendSyncResponse p).resultRouters = [r] ∧
    ((appendSyncResponse p).processors.getD r defaultProcessor).node =
      (p.processors.getD r defaultProcessor).node ∧
    ((appendSyncResponse p).processors.getD r
        defaultProcessor).spec.output.streams.getLast? = some .syncResponse := by
  have hhead : p.resultRouters.headD 0 = r := by rw [hr]; rfl
  refine ⟨by simp [appendSyncResponse, hr], ?_, ?_⟩
  · simp only [appendSyncResponse, hhead, getD_modifyAt]
    simp [hlen]
  · simp only [appendSyncResponse, hhead, getD_modifyAt]
    simp [hlen, List.getLast?_concat]

/-- C1: after `FinalizePlan`, the plan has exactly one result router, the
processor at that router is placed on the gateway node, and that processor's
output carries a sync-response stream endpoint appended at the end. -/
theorem FinalizePlan_single_gateway_sync (gateway : Nat) (addrs : List (Nat × String))
    (plan : PhysicalPlan)
    (hwf : ∀ r ∈ plan.resultRouters, r < plan.processors.length) :
    (FinalizePlan gateway addrs plan).resultRouters.length = 1 ∧
    ((FinalizePlan gateway addrs plan).processors.getD
      ((FinalizePlan gateway addrs plan).resultRouters.headD 0)
      defaultProcessor).node = gateway ∧
    ((FinalizePlan gateway addrs plan).processors.getD
      ((FinalizePlan gateway addrs plan).resultRouters.headD 0)
      defaultProcessor).spec.output.streams.getLast? = some .syncResponse := by
  unfold FinalizePlan
  set plan₁ :=
    if plan.resultRouters.length ≠ 1 ∨
        (plan.processors.getD (plan.resultRouters.headD 0) defaultProcessor).node ≠ gateway
    then AddSingleGroupStage plan gateway .noop {} plan.resultTypes
    else plan with hplan₁
  -- the intermediate plan has a single router on the gateway, within bounds
  have hmid : ∃ r, plan₁.resultRouters = [r] ∧ r < plan₁.processors.length ∧
      (plan₁.processors.getD r defaultProcessor).node = gateway := by
    rw [hplan₁]
    by_cases hc : plan.resultRouters.length ≠ 1 ∨
        (plan.processors.getD (plan.resultRouters.headD 0) defaultProcessor).node ≠ gateway
    · rw [if_pos hc]
      refine ⟨plan.processors.length, ?_, ?_, ?_⟩
      · rfl
      · simp [AddSingleGroupStage]
      · simp [AddSingleGroupStage, getD_concat_length]
    · rw [if_neg hc]
      push_neg at hc
      obtain ⟨h1, h2⟩ := hc
      obtain ⟨r, hr⟩ : ∃ r, plan.resultRouters = [r] := by
        cases hrr : plan.resultRouters with
        | nil => rw [hrr] at h1; simp at h1
        | cons a rest =>
          rw [hrr] at h1
          simp at h1
          exact ⟨a, by rw [h1]⟩
      refine ⟨r, hr, hwf r (by rw [hr]; simp), ?_⟩
      rw [hr] at h2
      simpa using h2
  obtain ⟨r, hr1, hr2, hr3⟩ := hmid
  obtain ⟨e1, e2, e3⟩ := PopulateEndpoints_preserves plan₁ addrs
  have hr1' : (PopulateEndpoints plan₁ addrs).resultRouters = [r] := by rw [e2, hr1]
  have hr2' : r < (PopulateEndpoints plan₁ addrs).processors.length := by rw [e1]; exact hr2
  obtain ⟨f1, f2, f3⟩ := appendSyncResponse_facts (PopulateEndpoints plan₁ addrs) r hr1' hr2'
  have hhead : (appendSyncResponse (PopulateEndpoints plan₁ addrs)).resultRouters.headD 0
      = r := by rw [f1]; rfl
  refine ⟨by rw [f1]; rfl, ?_, ?_⟩
  · rw [hhead, f2, e3 r]
    exact hr3
  · rw [hhead]
    exact f3

theorem FinalizePlan_single_gateway_sync_witness :
    (∀ r ∈ witnessPlan.resultRouters, r < witnessPlan.processors.length) ∧
    ((FinalizePlan 1 [(1, "a1"), (2, "a2"), (3, "a3")] witnessPlan).resultRouters.length = 1 ∧
      ((FinalizePlan 1 [(1, "a1"), (2, "a2"), (3, "a3")] witnessPlan).processors.getD
        ((FinalizePlan 1 [(1, "a1"), (2, "a2"), (3, "a3")]
          witnessPlan).resultRouters.headD 0) defaultProcessor).node = 1 ∧
      ((FinalizePlan 1 [(1, "a1"), (2, "a2"), (3, "a3")] witnessPlan).processors.getD
        ((FinalizePlan 1 [(1, "a1"), (2, "a2"), (3, "a3")]
          witnessPlan).resultRouters.headD 0)
        defaultProcessor).spec.output.streams.getLast? = some .syncResponse) :=
  ⟨by decide, FinalizePlan_single_gateway_sync 1 [(1, "a1"), (2, "a2"), (3, "a3")]
    witnessPlan (by decide)⟩

theorem lookupS_cons_isSome {α : Type} (k : String) (v : α) (inv : List (String × α))
    (s : String) : (lookupS ((k, v) :: inv) s).isSome ↔ s = k ∨ (lookupS inv s).isSome := by
  by_cases h : k = s
  · subst h; simp [lookupS]
  · simp only [lookupS, if_neg h]
    constructor
    · exact Or.inr
    · rintro (rfl | h')
      · exact absurd rfl h
      · exact h'

theorem sanityGo_error_iff : ∀ (l : List (Nat × String)) (inv : List (String × Nat)),
    (∃ e, sanityCheckAddressesGo inv l = .error e) ↔
      (∃ p ∈ l, (lookupS inv p.2).isSome) ∨ ¬ (l.map Prod.snd).Nodup := by
  intro l
  induction l with
  | nil =>
    intro inv
    simp [sanityCheckAddressesGo]
  | cons p rest ih =>
    intro inv
    rcases p with ⟨n, a⟩
    cases hl : lookupS inv a with
    | some other =>
      simp only [sanityCheckAddressesGo, hl]
      constructor
      · intro _
        exact Or.inl ⟨(n, a), by simp, by simp [hl]⟩
      · intro _
        exact ⟨(n, other, a), rfl⟩
    | none =>
      simp only [sanityCheckAddressesGo, hl]
      rw [ih ((a, n) :: inv)]
      constructor
      · rintro (⟨q, hq, hqs⟩ | hnd)
        · rw [lookupS_cons_isSome] at hqs
          rcases hqs with h | h
          · refine Or.inr ?_
            simp only [List.map_cons, List.nodup_cons]
            intro ⟨h1, _⟩
            exact h1 (h ▸ List.mem_map_of_mem Prod.snd hq)
          · exact Or.inl ⟨q, List.mem_cons_of_mem _ hq, h⟩
        · refine Or.inr ?_
          simp only [List.map_cons, List.nodup_cons]
          intro ⟨_, h2⟩
          exact hnd h2
      · rintro (⟨q, hq, hqs⟩ | hnd)
        · rcases List.mem_cons.mp hq with rfl | hq
          · simp only [hl] at hqs
            simp at hqs
          · exact Or.inl ⟨q, hq, by rw [lookupS_cons_isSome]; exact Or.inr hqs⟩
        · simp only [List.map_cons, List.nodup_cons] at hnd
          push_neg at hnd
          by_cases hmem : a ∈ rest.map Prod.snd
          · obtain ⟨q, hq, hqa⟩ := List.mem_map.mp hmem
            exact Or.inl ⟨q, hq, by rw [lookupS_cons_isSome]; exact Or.inl hqa⟩
          · exact Or.inr (hnd hmem)

theorem dup_snd_exists : ∀ (l : List (Nat × String)),
    (l.map Prod.fst).Nodup → ¬ (l.map Prod.snd).Nodup →
    ∃ p ∈ l, ∃ q ∈ l, p.1 ≠ q.1 ∧ p.2 = q.2 := by
  intro l
  induction l with
  | nil =>
    intro _ hnd
    simp at hnd
  | cons p rest ih =>
    rcases p with ⟨n, a⟩
    intro hkeys hnd
    simp only [List.map_cons, List.nodup_cons] at hkeys hnd
    by_cases hmem : a ∈ rest.map Prod.snd
    · obtain ⟨q, hq, hqa⟩ := List.mem_map.mp hmem
      refine ⟨(n, a), List.mem_cons_self _ _, q, List.mem_cons_of_mem _ hq, ?_, hqa.symm⟩
      intro h
      apply hkeys.1
      rw [show n = q.1 from h]
      exact List.mem_map_of_mem Prod.fst hq
    · have hnd' : ¬ (rest.map Prod.snd).Nodup := fun h => hnd ⟨hmem, h⟩
      obtain ⟨p', hp', q', hq', hne, heq⟩ := ih hkeys.2 hnd'
      exact ⟨p', List.mem_cons_of_mem _ hp', q', List.mem_cons_of_mem _ hq', hne, heq⟩

/-- C9 counterexample: on a planning context in which nodes 1 and 2 share
the advertised address "a", finalization completes normally and produces an
ordinary plan — `FinalizePlan` (lines 2370-2395) has no failure outcome and
never invokes the address check — while `sanityCheckAddresses`, which no
caller in the file reaches, would report the collision. -/
theorem FinalizePlan_no_collision_check_counterexample :
    FinalizePlan 1 [(1, "a"), (2, "a")] {} =
      { processors := [⟨1,
          { input := [⟨[]⟩], core := .noop, post := {},
            output := { type := .passThrough, hashColumns := [], streams := [.syncResponse] },
            stageID := 1 }⟩],
        streams := [], resultRouters := [0], resultTypes := [],
        mergeOrdering := {}, stageCounter := 1, planToStreamColMap := [] } ∧
    sanityCheckAddresses [(1, "a"), (2, "a")] = .error (2, 1, "a") :=
  ⟨rfl, rfl⟩

/-- C9 (amended): `sanityCheckAddresses` reports a hard error exactly when
two distinct node ids in the planning context share the same advertised
address (node ids in the map are unique by construction); but no caller in
the file — in particular not `FinalizePlan` — ever invokes it. -/
theorem sanityCheckAddresses_error_iff (l : List (Nat × String))
    (hkeys : (l.map Prod.fst).Nodup) :
    (∃ e, sanityCheckAddresses l = .error e) ↔
      ∃ p ∈ l, ∃ q ∈ l, p.1 ≠ q.1 ∧ p.2 = q.2 := by
  rw [sanityCheckAddresses, sanityGo_error_iff]
  constructor
  · rintro (⟨p, _, hsome⟩ | hnd)
    · simp [lookupS] at hsome
    · exact dup_snd_exists l hkeys hnd
  · rintro ⟨p, hp, q, hq, hne, heq⟩
    refine Or.inr (fun hnd => ?_)
    exact hne (congrArg Prod.fst (List.inj_on_of_nodup_map hnd hp hq heq))

/-- Witness for C9: the colliding two-node address map satisfies the
unique-node-ids hypothesis and exhibits the equivalence concretely. -/
theorem sanityCheckAddresses_error_iff_witness :
    (([(1, "a"), (2, "a")] : List (Nat × String)).map Prod.fst).Nodup ∧
    ((∃ e, sanityCheckAddresses [(1, "a"), (2, "a")] = .error e) ↔
      ∃ p ∈ ([(1, "a"), (2, "a")] : List (Nat × String)),
        ∃ q ∈ ([(1, "a"), (2, "a")] : List (Nat × String)), p.1 ≠ q.1 ∧ p.2 = q.2) :=
  ⟨by decide, sanityCheckAddresses_error_iff [(1, "a"), (2, "a")] (by decide)⟩

theorem exprHasBad_error : ∀ e : PExpr, exprHasBad e = true →
    ∃ err, checkExprE e = .error err := by
  intro e
  induction e with
  | subquery =>
    intro _
    exact ⟨"subqueries not supported yet", rfl⟩
  | funcExpr name blacklisted arg ih =>
    intro h
    simp only [exprHasBad, Bool.or_eq_true] at h
    rcases h with h | h
    · exact ⟨"function " ++ name ++ " cannot be executed with distsql",
        by simp [checkExprE, h]⟩
    · obtain ⟨err, herr⟩ := ih h
      by_cases hb : blacklisted = true
      · exact ⟨"function " ++ name ++ " cannot be executed with distsql",
          by simp [checkExprE, hb]⟩
      · exact ⟨err, by simp [checkExprE, hb, herr]⟩
  | binOp l r ihl ihr =>
    intro h
    simp only [exprHasBad, Bool.or_eq_true] at h
    rcases h with h | h
    · obtain ⟨err, herr⟩ := ihl h
      exact ⟨err, by simp [checkExprE, herr]⟩
    · cases hl : checkExprE l with
      | error e => exact ⟨e, by simp [checkExprE, hl]⟩
      | ok _ =>
        obtain ⟨err, herr⟩ := ihr h
        exact ⟨err, by simp [checkExprE, hl, herr]⟩
  | ivar _ =>
    intro h
    simp [exprHasBad] at h
  | lit _ =>
    intro h
    simp [exprHasBad] at h

theorem optBad_error (o : Option PExpr) (h : optBad o = true) :
    ∃ err, checkExpr o = .error err := by
  cases o with
  | none => simp [optBad] at h
  | some e =>
    obtain ⟨err, herr⟩ := exprHasBad_error e h
    exact ⟨err, herr⟩

theorem checkRenderList_error : ∀ render : List (PExpr × PType),
    render.any (fun p => exprHasBad p.1 || decide (leafType p.2 = PType.tuple)) = true →
    ∃ err, checkRenderList render = .error err := by
  intro render
  induction render with
  | nil =>
    intro h
    simp at h
  | cons p rest ih =>
    rcases p with ⟨e, ty⟩
    intro h
    by_cases hty : leafType ty = PType.tuple
    · exact ⟨"unsupported render type", by simp [checkRenderList, hty]⟩
    · simp only [List.any_cons, Bool.or_eq_true, decide_eq_true_eq] at h
      rcases h with (h | h) | h
    
      · obtain ⟨err, herr⟩ := exprHasBad_error e h
        exact ⟨err, by simp [checkRenderList, hty, herr]⟩
      · exact absurd h hty
      · cases hc : checkExprE e with
        | error e2 => exact ⟨e2, by simp [checkRenderList, hty, hc]⟩
        | ok _ =>
          obtain ⟨err, herr⟩ := ih h
          exact ⟨err, by simp [checkRenderList, hty, hc, herr]⟩

theorem checkGroupFuncs_error : ∀ funcs : List PExpr,
    funcs.any (fun f =>
      match f with
      | .funcExpr name _ _ => decide (name.toUpper = "ARRAY_AGG")
      | _ => false) = true →
    ∃ err, checkGroupFuncs funcs = .error err := by
  intro funcs
  induction funcs with
  | nil =>
    intro h
    simp at h
  | cons f rest ih =>
    intro h
    simp only [List.any_cons, Bool.or_eq_true] at h
    rcases h with h | h
    · cases f with
      | funcExpr name b arg =>
        simp only [decide_eq_true_eq] at h
        exact ⟨"ARRAY_AGG aggregation not supported yet",
          by simp [checkGroupFuncs, h]⟩
      | subquery => simp at h
      | ivar _ => simp at h
      | binOp _ _ => simp at h
      | lit _ => simp at h
    · obtain ⟨err, herr⟩ := ih h
      cases f with
      | funcExpr name b arg =>
        by_cases hn : name.toUpper = "ARRAY_AGG"
        · exact ⟨"ARRAY_AGG aggregation not supported yet",
            by simp [checkGroupFuncs, hn]⟩
        · exact ⟨err, by simp [checkGroupFuncs, hn, herr]⟩
      | subquery => exact ⟨err, by simp [checkGroupFuncs, herr]⟩
      | ivar _ => exact ⟨err, by simp [checkGroupFuncs, herr]⟩
      | binOp _ _ => exact ⟨err, by simp [checkGroupFuncs, herr]⟩
      | lit _ => exact ⟨err, by simp [checkGroupFuncs, herr]⟩

theorem checkTuple_error : ∀ t : List PExpr, t.any exprHasBad = true →
    ∃ err, checkTuple t = .error err := by
  intro t
  induction t with
  | nil =>
    intro h
    simp at h
  | cons e rest ih =>
    intro h
    simp only [List.any_cons, Bool.or_eq_true] at h
    rcases h with h | h
    · obtain ⟨err, herr⟩ := exprHasBad_error e h
      exact ⟨err, by simp [checkTuple, herr]⟩
    · cases hc : checkExprE e with
      | error e2 => exact ⟨e2, by simp [checkTuple, hc]⟩
      | ok _ =>
        obtain ⟨err, herr⟩ := ih h
        exact ⟨err, by simp [checkTuple, hc, herr]⟩

theorem checkTuples_error : ∀ ts : List (List PExpr),
    ts.any (fun t => t.any exprHasBad) = true →
    ∃ err, checkTuples ts = .error err := by
  intro ts
  induction ts with
  | nil =>
    intro h
    simp at h
  | cons t rest ih =>
    intro h
    simp only [List.any_cons, Bool.or_eq_true] at h
    rcases h with h | h
    · obtain ⟨err, herr⟩ := checkTuple_error t h
      exact ⟨err, by simp [checkTuples, herr]⟩
    · cases hc : checkTuple t with
      | error e2 => exact ⟨e2, by simp [checkTuples, hc]⟩
      | ok _ =>
        obtain ⟨err, herr⟩ := ih h
        exact ⟨err, by simp [checkTuples, hc, herr]⟩

/-- C8: every plan tree containing a mutation node, a SET / SET CLUSTER
SETTING node, a subquery or distsql-blacklisted function in a checked
expression, a render output whose leaf type is a tuple, or an ARRAY_AGG
aggregation makes `checkSupportForNode` return an error rather than a
distribution recommendation. -/
theorem checkSupportForNode_rejects_bad (t : PlanTree)
    (hbad : treeContainsBad t = true) :
    ∃ e, checkSupportForNode t = .error e := by
  induction t with
  | filterN filter source ih =>
    simp only [treeContainsBad, nodeBadHere, Bool.or_eq_true] at hbad
    rcases hbad with h | h
    · obtain ⟨err, herr⟩ := optBad_error filter h
      exact ⟨err, by simp [checkSupportForNode, herr]⟩
    · cases hc : checkExpr filter with
      | error e => exact ⟨e, by simp [checkSupportForNode, hc]⟩
      | ok _ =>
        obtain ⟨err, herr⟩ := ih h
        exact ⟨err, by simp [checkSupportForNode, hc, herr]⟩
  | renderN render source ih =>
    simp only [treeContainsBad, nodeBadHere, Bool.or_eq_true] at hbad
    rcases hbad with h | h
    · obtain ⟨err, herr⟩ := checkRenderList_error render h
      exact ⟨err, by simp [checkSupportForNode, herr]⟩
    · cases hc : checkRenderList render with
      | error e => exact ⟨e, by simp [checkSupportForNode, hc]⟩
      | ok _ =>
        obtain ⟨err, herr⟩ := ih h
        exact ⟨err, by simp [checkSupportForNode, hc, herr]⟩
  | sortN needSort plan ih =>
    simp only [treeContainsBad] at hbad
    obtain ⟨err, herr⟩ := ih hbad
    exact ⟨err, by simp [checkSupportForNode, herr]⟩
  | joinN onCond numLeftEq left right ihl ihr =>
    simp only [treeContainsBad, nodeBadHere, Bool.or_eq_true] at hbad
    rcases hbad with (h | h) | h
    · obtain ⟨err, herr⟩ := optBad_error onCond h
      exact ⟨err, by simp [checkSupportForNode, herr]⟩
    · cases hc : checkExpr onCond with
      | error e => exact ⟨e, by simp [checkSupportForNode, hc]⟩
      | ok _ =>
        obtain ⟨err, herr⟩ := ihl h
        exact ⟨err, by simp [checkSupportForNode, hc, herr]⟩
    · cases hc : checkExpr onCond with
      | error e => exact ⟨e, by simp [checkSupportForNode, hc]⟩
      | ok _ =>
        cases hl : checkSupportForNode left with
        | error e => exact ⟨e, by simp [checkSupportForNode, hc, hl]⟩
        | ok _ =>
          obtain ⟨err, herr⟩ := ihr h
          exact ⟨err, by simp [checkSupportForNode, hc, hl, herr]⟩
  | scanN hardLimit softLimit filter spans indexSpan =>
    simp only [treeContainsBad, nodeBadHere] at hbad
    cases filter with
    | none => simp [optBad] at hbad
    | some f =>
      obtain ⟨err, herr⟩ := exprHasBad_error f hbad
      exact ⟨err, by simp [checkSupportForNode, herr]⟩
  | indexJoinN table index iht ihi =>
    simp only [treeContainsBad, Bool.or_eq_true] at hbad
    rcases hbad with h | h
    · obtain ⟨err, herr⟩ := iht h
      exact ⟨err, by simp [checkSupportForNode, herr]⟩
    · cases hc : checkSupportForNode table with
      | error e => exact ⟨e, by simp [checkSupportForNode, hc]⟩
      | ok _ =>
        obtain ⟨err, herr⟩ := ihi h
        exact ⟨err, by simp [checkSupportForNode, hc, herr]⟩
  | groupN funcs plan ih =>
    simp only [treeContainsBad, nodeBadHere, Bool.or_eq_true] at hbad
    rcases hbad with h | h
    · obtain ⟨err, herr⟩ := checkGroupFuncs_error funcs h
      exact ⟨err, by simp [checkSupportForNode, herr]⟩
    · cases hc : checkGroupFuncs funcs with
      | error e => exact ⟨e, by simp [checkSupportForNode, hc]⟩
      | ok _ =>
        obtain ⟨err, herr⟩ := ih h
        exact ⟨err, by simp [checkSupportForNode, hc, herr]⟩
  | limitN countExpr offsetExpr plan ih =>
    simp only [treeContainsBad, nodeBadHere, Bool.or_eq_true] at hbad
    rcases hbad with (h | h) | h
    · obtain ⟨err, herr⟩ := optBad_error countExpr h
      exact ⟨err, by simp [checkSupportForNode, herr]⟩
    · cases hc : checkExpr countExpr with
      | error e => exact ⟨e, by simp [checkSupportForNode, hc]⟩
      | ok _ =>
        obtain ⟨err, herr⟩ := optBad_error offsetExpr h
        exact ⟨err, by simp [checkSupportForNode, hc, herr]⟩
    · cases hc : checkExpr countExpr with
      | error e => exact ⟨e, by simp [checkSupportForNode, hc]⟩
      | ok _ =>
        cases ho : checkExpr offsetExpr with
        | error e => exact ⟨e, by simp [checkSupportForNode, hc, ho]⟩
        | ok _ =>
          obtain ⟨err, herr⟩ := ih h
          exact ⟨err, by simp [checkSupportForNode, hc, ho, herr]⟩
  | distinctN plan ih =>
    simp only [treeContainsBad] at hbad
    obtain ⟨err, herr⟩ := ih hbad
    exact ⟨err, by simp [checkSupportForNode, herr]⟩
  | valuesN hasSQL tuples =>
    simp only [treeContainsBad, nodeBadHere] at hbad
    cases hasSQL with
    | false => exact ⟨"unsupported node without SQL VALUES clause",
        by simp [checkSupportForNode]⟩
    | true =>
      obtain ⟨err, herr⟩ := checkTuples_error tuples hbad
      exact ⟨err, by simp [checkSupportForNode, herr]⟩
  | insertN => exact ⟨"mutations not supported", rfl⟩
  | updateN => exact ⟨"mutations not supported", rfl⟩
  | deleteN => exact ⟨"mutations not supported", rfl⟩
  | setN => exact ⟨"SET / SET CLUSTER SETTING should never distribute", rfl⟩
  | setClusterSettingN =>
    exact ⟨"SET / SET CLUSTER SETTING should never distribute", rfl⟩
  | otherN => exact ⟨"unsupported node", rfl⟩

/-- Witness for C8: a render node over a values subtree carrying a
subquery is flagged by the containment predicate and rejected by the
support check. -/
theorem checkSupportForNode_rejects_bad_witness :
    treeContainsBad (.renderN [(.ivar 0, .scalar)]
      (.valuesN true [[.binOp (.ivar 0) .subquery]])) = true ∧
    ∃ e, checkSupportForNode (.renderN [(.ivar 0, .scalar)]
      (.valuesN true [[.binOp (.ivar 0) .subquery]])) = .error e :=
  ⟨by decide, checkSupportForNode_rejects_bad (.renderN [(.ivar 0, .scalar)]
      (.valuesN true [[.binOp (.ivar 0) .subquery]])) (by decide)⟩

theorem getD_map {α β : Type} (f : α → β) (l : List α) (j : Nat) (d : β) (e : α)
    (hj : j < l.length) : (l.map f).getD j d = f (l.getD j e) := by
  induction l generalizing j with
  | nil => simp at hj
  | cons x rest ih =>
    cases j with
    | zero => rfl
    | succ j => simpa using ih j (by simpa using hj)

theorem getD_append_left {α : Type} (l r : List α) (i : Nat) (d : α)
    (h : i < l.length) : (l ++ r).getD i d = l.getD i d := by
  induction l generalizing i with
  | nil => simp at h
  | cons x rest ih =>
    cases i with
    | zero => rfl
    | succ i => simpa using ih i (by simpa using h)

theorem getD_append_shift {α : Type} (l r : List α) (i : Nat) (d : α) :
    (l ++ r).getD (l.length + i) d = r.getD i d := by
  induction l with
  | nil => simp
  | cons x rest ih =>
    have hidx : (x :: rest).length + i = (rest.length + i) + 1 := by
      simp [Nat.succ_add]
    rw [hidx]
    show (x :: (rest ++ r)).getD ((rest.length + i) + 1) d = r.getD i d
    rw [List.getD_cons_succ]
    exact ih

theorem setRouterOutputs_preserves (routers : List Nat) (procs : List Processor)
    (out : OutputRouterSpec) :
    (setRouterOutputs procs routers out).length = procs.length ∧
    ∀ i, ((setRouterOutputs procs routers out).getD i defaultProcessor).spec.core =
          (procs.getD i defaultProcessor).spec.core ∧
        ((setRouterOutputs procs routers out).getD i defaultProcessor).node =
          (procs.getD i defaultProcessor).node := by
  induction routers generalizing procs with
  | nil => exact ⟨rfl, fun _ => ⟨rfl, rfl⟩⟩
  | cons r rest ih =>
    have hstep : setRouterOutputs procs (r :: rest) out =
        setRouterOutputs (modifyAt procs r (fun proc =>
          { proc with spec := { proc.spec with output := out } })) rest out := rfl
    obtain ⟨h1, h2⟩ := ih (modifyAt procs r (fun proc =>
      { proc with spec := { proc.spec with output := out } }))
    rw [hstep]
    refine ⟨by rw [h1, modifyAt_length], ?_⟩
    intro i
    obtain ⟨hc, hn⟩ := h2 i
    rw [hc, hn]
    constructor
    · rw [getD_modifyAt]
      split <;> rfl
    · rw [getD_modifyAt]
      split <;> rfl

theorem connectJoiners_facts (lr rr : List Nat) (o1 o2 : DOrdering)
    (start numBuckets : Nat) (q0 : PhysicalPlan) :
    (connectJoiners lr rr o1 o2 start numBuckets q0).processors = q0.processors ∧
    (connectJoiners lr rr o1 o2 start numBuckets q0).resultRouters =
      q0.resultRouters ++ (List.range numBuckets).map (fun b => start + b) := by
  induction numBuckets with
  | zero => simp [connectJoiners]
  | succ n ih =>
    obtain ⟨h1, h2⟩ := ih
    have hstep : connectJoiners lr rr o1 o2 start (n + 1) q0 =
        connectJoinersStep lr rr o1 o2 start
          (connectJoiners lr rr o1 o2 start n q0) n := by
      unfold connectJoiners
      rw [List.range_succ, List.foldl_append, List.foldl_cons, List.foldl_nil]
    have hp : ∀ (q : PhysicalPlan) (b : Nat),
        (connectJoinersStep lr rr o1 o2 start q b).processors = q.processors :=
      fun _ _ => rfl
    have hr : ∀ (q : PhysicalPlan) (b : Nat),
        (connectJoinersStep lr rr o1 o2 start q b).resultRouters =
          q.resultRouters ++ [start + b] :=
      fun _ _ => rfl
    rw [hstep, hp, hr, h1, h2, List.range_succ]
    simp

theorem dedupAppend_ne_nil (l : List Nat) (acc : List Nat)
    (h : acc ≠ [] ∨ l ≠ []) : dedupAppend acc l ≠ [] := by
  induction l generalizing acc with
  | nil =>
    rcases h with h | h
    · exact h
    · exact absurd rfl h
  | cons n rest ih =>
    show dedupAppend (if acc.contains n then acc else acc ++ [n]) rest ≠ []
    apply ih
    left
    by_cases hc : acc.contains n
    · rw [if_pos hc]
      intro hacc
      rw [hacc] at hc
      simp [List.contains] at hc
    · rw [if_neg hc]
      simp

theorem buildJoinStage_facts (p0 : PhysicalPlan) (lr rr nodes : List Nat)
    (lt rt : List ColType) (lec rec2 : List Nat) (o1 o2 : DOrdering)
    (core : ProcessorCore) (post : PostProcessSpec) :
    (buildJoinStage p0 lr rr nodes lt rt lec rec2 o1 o2 core post).processors.length =
      p0.processors.length + nodes.length ∧
    (buildJoinStage p0 lr rr nodes lt rt lec rec2 o1 o2 core post).resultRouters =
      (List.range nodes.length).map (fun b => p0.processors.length + b) ∧
    ∀ j, j < nodes.length →
      ((buildJoinStage p0 lr rr nodes lt rt lec rec2 o1 o2 core
          post).processors.getD (p0.processors.length + j) defaultProcessor).spec.core =
        core ∧
      ((buildJoinStage p0 lr rr nodes lt rt lec rec2 o1 o2 core
          post).processors.getD (p0.processors.length + j) defaultProcessor).node =
        nodes.getD j 0 := by
  obtain ⟨hc1, hc2⟩ := connectJoiners_facts lr rr o1 o2 p0.processors.length nodes.length
    { p0 with
      processors :=
        if nodes.length = 1 then
          p0.processors ++ nodes.map (fun node =>
            ⟨node,
             { input := [⟨lt⟩, ⟨rt⟩], core := core, post := post,
               output := {}, stageID := p0.stageCounter + 1 }⟩)
        else setRouterOutputs
          (setRouterOutputs (p0.processors ++ nodes.map (fun node =>
            ⟨node,
             { input := [⟨lt⟩, ⟨rt⟩], core := core, post := post,
               output := {}, stageID := p0.stageCounter + 1 }⟩)) lr ⟨.byHash, lec, []⟩)
          rr ⟨.byHash, rec2, []⟩,
      stageCounter := p0.stageCounter + 1, resultRouters := [] }
  have hbuild : buildJoinStage p0 lr rr nodes lt rt lec rec2 o1 o2 core post =
      connectJoiners lr rr o1 o2 p0.processors.length nodes.length
        { p0 with
          processors :=
            if nodes.length = 1 then
              p0.processors ++ nodes.map (fun node =>
                ⟨node,
                 { input := [⟨lt⟩, ⟨rt⟩], core := core, post := post,
                   output := {}, stageID := p0.stageCounter + 1 }⟩)
            else setRouterOutputs
              (setRouterOutputs (p0.processors ++ nodes.map (fun node =>
                ⟨node,
                 { input := [⟨lt⟩, ⟨rt⟩], core := core, post := post,
                   output := {}, stageID := p0.stageCounter + 1 }⟩)) lr ⟨.byHash, lec, []⟩)
              rr ⟨.byHash, rec2, []⟩,
          stageCounter := p0.stageCounter + 1, resultRouters := [] } := rfl
  rw [hbuild, hc1, hc2]
  refine ⟨?_, by simp, ?_⟩
  · dsimp only
    by_cases h1 : nodes.length = 1
    · rw [if_pos h1]
      simp
    · rw [if_neg h1, (setRouterOutputs_preserves rr _ _).1,
          (setRouterOutputs_preserves lr _ _).1]
      simp
  · intro j hj
    dsimp only
    by_cases h1 : nodes.length = 1
    · rw [if_pos h1, getD_append_shift, getD_map _ nodes j defaultProcessor 0 hj]
      exact ⟨rfl, rfl⟩
    · have key : ∀ procs : List Processor,
          ((setRouterOutputs (setRouterOutputs procs lr ⟨.byHash, lec, []⟩) rr
              ⟨.byHash, rec2, []⟩).getD (p0.processors.length + j)
              defaultProcessor).spec.core =
            (procs.getD (p0.processors.length + j) defaultProcessor).spec.core ∧
          ((setRouterOutputs (setRouterOutputs procs lr ⟨.byHash, lec, []⟩) rr
              ⟨.byHash, rec2, []⟩).getD (p0.processors.length + j)
              defaultProcessor).node =
            (procs.getD (p0.processors.length + j) defaultProcessor).node := by
        intro procs
        obtain ⟨hc, hn⟩ := (setRouterOutputs_preserves rr
          (setRouterOutputs procs lr ⟨.byHash, lec, []⟩)
          ⟨.byHash, rec2, []⟩).2 (p0.processors.length + j)
        obtain ⟨hc2, hn2⟩ := (setRouterOutputs_preserves lr procs
          ⟨.byHash, lec, []⟩).2 (p0.processors.length + j)
        exact ⟨hc.trans hc2, hn.trans hn2⟩
      rw [if_neg h1, (key _).1, (key _).2, getD_append_shift,
          getD_map _ nodes j defaultProcessor 0 hj]
      exact ⟨rfl, rfl⟩

theorem joinStageShapeDedup (p0 : PhysicalPlan) (lr rr : List Nat) (f : Nat → Nat)
    (lt rt : List ColType) (lec rec2 : List Nat) (o1 o2 : DOrdering)
    (core : ProcessorCore) (post : PostProcessSpec) (cm : List Int)
    (rts : List ColType) (no : DOrdering) (q : PhysicalPlan)
    (hq : SetMergeOrdering
        { buildJoinStage p0 lr rr (dedupAppend [] ((lr ++ rr).map f)) lt rt lec rec2
            o1 o2 core post with
          planToStreamColMap := cm, resultTypes := rts } no = q)
    (hlr : lr ≠ []) :
    p0.processors.length < q.processors.length ∧
    ∀ i, p0.processors.length ≤ i → i < q.processors.length →
      (q.processors.getD i defaultProcessor).spec.core = core := by
  obtain ⟨hf1, hf2, hf3⟩ := buildJoinStage_facts p0 lr rr
    (dedupAppend [] ((lr ++ rr).map f)) lt rt lec rec2 o1 o2 core post
  have hqp : q.processors =
      (buildJoinStage p0 lr rr (dedupAppend [] ((lr ++ rr).map f)) lt rt lec rec2
        o1 o2 core post).processors := by
    rw [← hq]
    rfl
  have hnn : dedupAppend [] ((lr ++ rr).map f) ≠ [] := by
    apply dedupAppend_ne_nil
    right
    intro h
    rw [List.map_eq_nil] at h
    rcases List.append_eq_nil.mp h with ⟨h1, _⟩
    exact hlr h1
  have hpos : 0 < (dedupAppend [] ((lr ++ rr).map f)).length :=
    List.length_pos.mpr hnn
  constructor
  · rw [hqp, hf1]
    omega
  · intro i hge hlt2
    rw [hqp, hf1] at hlt2
    have hidx : i = p0.processors.length + (i - p0.processors.length) := by omega
    rw [hqp, hidx, (hf3 (i - p0.processors.length) (by omega)).1]

theorem joinStageShapeSingle (p0 : PhysicalPlan) (lr rr : List Nat) (x : Nat)
    (lt rt : List ColType) (lec rec2 : List Nat) (o1 o2 : DOrdering)
    (core : ProcessorCore) (post : PostProcessSpec) (cm : List Int)
    (rts : List ColType) (no : DOrdering) (q : PhysicalPlan)
    (hq : SetMergeOrdering
        { buildJoinStage p0 lr rr [x] lt rt lec rec2 o1 o2 core post with
          planToStreamColMap := cm, resultTypes := rts } no = q) :
    q.processors.length = p0.processors.length + 1 ∧
    q.resultRouters = [p0.processors.length] ∧
    (q.processors.getD p0.processors.length defaultProcessor).spec.core = core ∧
    (q.processors.getD p0.processors.length defaultProcessor).node = x := by
  obtain ⟨hf1, hf2, hf3⟩ := buildJoinStage_facts p0 lr rr [x] lt rt lec rec2
    o1 o2 core post
  have hqp : q.processors =
      (buildJoinStage p0 lr rr [x] lt rt lec rec2 o1 o2 core post).processors := by
    rw [← hq]
    rfl
  have hqr : q.resultRouters =
      (buildJoinStage p0 lr rr [x] lt rt lec rec2 o1 o2 core post).resultRouters := by
    rw [← hq]
    rfl
  obtain ⟨hc, hn⟩ := hf3 0 (by simp)
  have hidx : p0.processors.length + 0 = p0.processors.length := rfl
  rw [hidx] at hc hn
  refine ⟨by rw [hqp, hf1]; rfl, by rw [hqr, hf2]; simp [List.range_succ], by rw [hqp, hc], by rw [hqp, hn]; rfl⟩

/-- C4: for a join with at least one equality column, every joiner
processor the planner appends carries a merge-joiner core — whose left and
right orderings project the caller-supplied merge ordering through the
remapped equality columns — exactly when the merge_joins.enabled setting is
true, the join type is inner, and the merge ordering covers all equality
columns; in every other case the appended joiners carry hash-joiner cores,
and at least one joiner is appended. -/
theorem createPlanForJoin_merge_iff (enabled : Bool) (gateway : Nat) (nd : JoinNodeData)
    (left right : PhysicalPlan) (q : PhysicalPlan)
    (hEq : nd.pred.leftEqualityIndices ≠ [])
    (hlr : left.resultRouters ≠ [])
    (hq : createPlanForJoin enabled gateway nd left right = some q) :
    ∃ onE mc,
      left.processors.length + right.processors.length < q.processors.length ∧
      ∀ i, left.processors.length + right.processors.length ≤ i →
        i < q.processors.length →
        (q.processors.getD i defaultProcessor).spec.core =
          (if enabled = true ∧ nd.joinType = JoinType.inner ∧
              nd.mergeJoinOrdering.length = nd.pred.leftEqualityIndices.length then
            ProcessorCore.mergeJoiner
              ⟨projectOrdering nd.mergeJoinOrdering
                 (joinEqCols left.planToStreamColMap nd.pred.leftEqualityIndices),
               projectOrdering nd.mergeJoinOrdering
                 (joinEqCols right.planToStreamColMap nd.pred.rightEqualityIndices),
               onE, nd.joinType⟩
          else
            ProcessorCore.hashJoiner
              ⟨joinEqCols left.planToStreamColMap nd.pred.leftEqualityIndices,
               joinEqCols right.planToStreamColMap nd.pred.rightEqualityIndices,
               onE, nd.joinType, mc⟩) := by
  have hne : nd.pred.leftEqualityIndices.length ≠ 0 := by
    intro h
    exact hEq (List.length_eq_zero.mp h)
  simp only [createPlanForJoin] at hq
  simp only [if_pos hne] at hq
  generalize hmcn : (if nd.joinType = JoinType.inner then 0
    else nd.pred.numMergedEqualityColumns) = mcn at hq
  split at hq
  · exact absurd hq (by simp)
  split at hq
  · exact absurd hq (by simp)
  split at hq
  · exact absurd hq (by simp)
  split at hq
  · exact absurd hq (by simp)
  rename_i onExpr heqOn oScrut core hcore dScrut newOrd hconv
  have hqe := Option.some.inj hq
  obtain ⟨hlen, hcores⟩ := joinStageShapeDedup _ _ _ _ _ _ _ _ _ _ _ _ _ _ _ _ hqe
    (by simpa [MergePlans] using hlr)
  have hbase : ((MergePlans left right).1).processors.length =
      left.processors.length + right.processors.length := by simp [MergePlans]
  rw [hbase] at hlen hcores
  by_cases hC : enabled = true ∧ nd.joinType = JoinType.inner ∧
      nd.mergeJoinOrdering.length = nd.pred.leftEqualityIndices.length
  · have hmcn0 : mcn = 0 := by rw [← hmcn, if_pos hC.2.1]
    have hpos : 0 < nd.mergeJoinOrdering.length := by
      rw [hC.2.2]
      exact Nat.pos_of_ne_zero hne
    have ho : joinMergeOrds enabled nd
        (joinEqCols left.planToStreamColMap nd.pred.leftEqualityIndices)
        (joinEqCols right.planToStreamColMap nd.pred.rightEqualityIndices) =
        (projectOrdering nd.mergeJoinOrdering
           (joinEqCols left.planToStreamColMap nd.pred.leftEqualityIndices),
         projectOrdering nd.mergeJoinOrdering
           (joinEqCols right.planToStreamColMap nd.pred.rightEqualityIndices)) := by
      rw [joinMergeOrds, if_pos ⟨hC.1, hpos, hC.2.1, hC.2.2⟩]
    rw [ho] at hcore
    dsimp only at hcore
    have hcolne : (projectOrdering nd.mergeJoinOrdering
        (joinEqCols left.planToStreamColMap nd.pred.leftEqualityIndices)).columns ≠ [] := by
      simp only [projectOrdering]
      intro h
      rw [List.map_eq_nil] at h
      rw [h] at hpos
      simp at hpos
    have hcv : core = ProcessorCore.mergeJoiner
        ⟨projectOrdering nd.mergeJoinOrdering
           (joinEqCols left.planToStreamColMap nd.pred.leftEqualityIndices),
         projectOrdering nd.mergeJoinOrdering
           (joinEqCols right.planToStreamColMap nd.pred.rightEqualityIndices),
         onExpr, nd.joinType⟩ := by
      rw [joinCore, if_neg hcolne, hmcn0] at hcore
      simp at hcore
      exact hcore.symm
    refine ⟨onExpr, decide (mcn ≠ 0), hlen, ?_⟩
    intro i hge hlt2
    rw [hcores i hge hlt2, hcv, if_pos hC]
  · have hcond : ¬(enabled = true ∧ 0 < nd.mergeJoinOrdering.length ∧
        nd.joinType = JoinType.inner ∧
        nd.mergeJoinOrdering.length = nd.pred.leftEqualityIndices.length) :=
      fun h => hC ⟨h.1, h.2.2.1, h.2.2.2⟩
    have ho : joinMergeOrds enabled nd
        (joinEqCols left.planToStreamColMap nd.pred.leftEqualityIndices)
        (joinEqCols right.planToStreamColMap nd.pred.rightEqualityIndices) =
        ({}, {}) := by
      rw [joinMergeOrds, if_neg hcond]
    rw [ho] at hcore
    dsimp only at hcore
    have hcv : core = ProcessorCore.hashJoiner
        ⟨joinEqCols left.planToStreamColMap nd.pred.leftEqualityIndices,
         joinEqCols right.planToStreamColMap nd.pred.rightEqualityIndices,
         onExpr, nd.joinType, !decide (mcn = 0)⟩ := by
      rw [joinCore] at hcore
      simp at hcore
      exact hcore.symm
    refine ⟨onExpr, !decide (mcn = 0), hlen, ?_⟩
    intro i hge hlt2
    rw [hcores i hge hlt2, hcv, if_neg hC]

theorem getD_zero_mem {α : Type} (l : List α) (d : α) (h : l ≠ []) : l.getD 0 d ∈ l := by
  cases l with
  | nil => exact absurd rfl h
  | cons x rest => exact List.mem_cons_self x rest

/-- C5: for a join with no equality columns, the planner appends exactly
one joiner processor (which becomes the sole result router); it is placed
on the gateway node unless the left side has exactly one result router (in
which case it is placed on that router's node, the left side being
preferred) or, failing that, the right side has exactly one result router
(that router's node). -/
theorem createPlanForJoin_no_eq_single_joiner (enabled : Bool) (gateway : Nat)
    (nd : JoinNodeData) (left right : PhysicalPlan) (q : PhysicalPlan)
    (hEq0 : nd.pred.leftEqualityIndices = [])
    (hlb : ∀ r ∈ left.resultRouters, r < left.processors.length)
    (hq : createPlanForJoin enabled gateway nd left right = some q) :
    q.processors.length = left.processors.length + right.processors.length + 1 ∧
    q.resultRouters = [left.processors.length + right.processors.length] ∧
    (∃ spec, (q.processors.getD (left.processors.length + right.processors.length)
        defaultProcessor).spec.core = ProcessorCore.hashJoiner spec) ∧
    (q.processors.getD (left.processors.length + right.processors.length)
        defaultProcessor).node =
      (if left.resultRouters.length = 1 then
         (left.processors.getD (left.resultRouters.getD 0 0) defaultProcessor).node
       else if right.resultRouters.length = 1 then
         (right.processors.getD (right.resultRouters.getD 0 0) defaultProcessor).node
       else gateway) := by
  have hne0 : ¬ (nd.pred.leftEqualityIndices.length ≠ 0) := by simp [hEq0]
  simp only [createPlanForJoin] at hq
  simp only [if_neg hne0] at hq
  generalize hmcn : (if nd.joinType = JoinType.inner then 0
    else nd.pred.numMergedEqualityColumns) = mcn at hq
  split at hq
  · exact absurd hq (by simp)
  split at hq
  · exact absurd hq (by simp)
  split at hq
  · exact absurd hq (by simp)
  split at hq
  · exact absurd hq (by simp)
  rename_i onExpr heqOn oScrut core hcore dScrut newOrd hconv
  have hqe := Option.some.inj hq
  obtain ⟨hL, hR, hcoreAt, hnodeAt⟩ :=
    joinStageShapeSingle _ _ _ _ _ _ _ _ _ _ _ _ _ _ _ _ hqe
  have hbase : ((MergePlans left right).1).processors.length =
      left.processors.length + right.processors.length := by simp [MergePlans]
  rw [hbase] at hL hR hcoreAt hnodeAt
  have hcv : core = ProcessorCore.hashJoiner
      ⟨[], [], onExpr, nd.joinType, !decide (mcn = 0)⟩ := by
    rw [joinCore] at hcore
    simp at hcore
    exact hcore.symm
  refine ⟨hL, hR, ⟨⟨[], [], onExpr, nd.joinType, !decide (mcn = 0)⟩, by rw [hcoreAt, hcv]⟩, ?_⟩
  rw [hnodeAt]
  simp only [MergePlans]
  by_cases h1 : left.resultRouters.length = 1
  · rw [if_pos h1, if_pos h1]
    congr 1
    apply getD_append_left
    apply hlb
    apply getD_zero_mem
    intro hnil
    rw [hnil] at h1
    simp at h1
  · rw [if_neg h1, if_neg h1]
    by_cases h2 : right.resultRouters.length = 1
    · have h2' : (right.resultRouters.map (fun r => r + left.processors.length)).length = 1 := by
        simp [h2]
      rw [if_pos h2', if_pos h2]
      have hnil2 : right.resultRouters ≠ [] := by
        intro hnil
        rw [hnil] at h2
        simp at h2
      have hmap : (right.resultRouters.map (fun r => r + left.processors.length)).getD 0 0 =
          right.resultRouters.getD 0 0 + left.processors.length := by
        rw [getD_map _ _ 0 _ 0 (by simpa [List.length_pos] using hnil2)]
      rw [hmap, Nat.add_comm, getD_append_shift]
    · have h2' : ¬ (right.resultRouters.map (fun r => r + left.processors.length)).length = 1 := by
        simpa using h2
      rw [if_neg h2', if_neg h2]

theorem createPlanForJoin_merge_iff_witness :
    ndJW.pred.leftEqualityIndices ≠ [] ∧ leftJW.resultRouters ≠ [] ∧
    createPlanForJoin true 1 ndJW leftJW rightJW = some qJW ∧
    (∃ onE mc,
      leftJW.processors.length + rightJW.processors.length < qJW.processors.length ∧
      ∀ i, leftJW.processors.length + rightJW.processors.length ≤ i →
        i < qJW.processors.length →
        (qJW.processors.getD i defaultProcessor).spec.core =
          (if true = true ∧ ndJW.joinType = JoinType.inner ∧
              ndJW.mergeJoinOrdering.length = ndJW.pred.leftEqualityIndices.length then
            ProcessorCore.mergeJoiner
              ⟨projectOrdering ndJW.mergeJoinOrdering
                 (joinEqCols leftJW.planToStreamColMap ndJW.pred.leftEqualityIndices),
               projectOrdering ndJW.mergeJoinOrdering
                 (joinEqCols rightJW.planToStreamColMap ndJW.pred.rightEqualityIndices),
               onE, ndJW.joinType⟩
          else
            ProcessorCore.hashJoiner
              ⟨joinEqCols leftJW.planToStreamColMap ndJW.pred.leftEqualityIndices,
               joinEqCols rightJW.planToStreamColMap ndJW.pred.rightEqualityIndices,
               onE, ndJW.joinType, mc⟩)) :=
  ⟨by decide, by decide, rfl,
   createPlanForJoin_merge_iff true 1 ndJW leftJW rightJW qJW (by decide) (by decide) rfl⟩

theorem createPlanForJoin_no_eq_single_joiner_witness :
    ndJW5.pred.leftEqualityIndices = [] ∧
    (∀ r ∈ leftJW.resultRouters, r < leftJW.processors.length) ∧
    createPlanForJoin true 1 ndJW5 leftJW rightJW = some qJW5 ∧
    (qJW5.processors.length = leftJW.processors.length + rightJW.processors.length + 1 ∧
     qJW5.resultRouters = [leftJW.processors.length + rightJW.processors.length] ∧
     (∃ spec, (qJW5.processors.getD (leftJW.processors.length + rightJW.processors.length)
         defaultProcessor).spec.core = ProcessorCore.hashJoiner spec) ∧
     (qJW5.processors.getD (leftJW.processors.length + rightJW.processors.length)
         defaultProcessor).node =
       (if leftJW.resultRouters.length = 1 then
          (leftJW.processors.getD (leftJW.resultRouters.getD 0 0) defaultProcessor).node
        else if rightJW.resultRouters.length = 1 then
          (rightJW.processors.getD (rightJW.resultRouters.getD 0 0) defaultProcessor).node
        else 1)) :=
  ⟨by decide, by decide, rfl,
   createPlanForJoin_no_eq_single_joiner true 1 ndJW5 leftJW rightJW qJW5
     (by decide) (by decide) rfl⟩

theorem AddSingleGroupStage_facts (p : PhysicalPlan) (node : Nat)
    (core : ProcessorCore) (post : PostProcessSpec) (ot : List ColType) :
    (AddSingleGroupStage p node core post ot).processors.length =
      p.processors.length + 1 ∧
    (AddSingleGroupStage p node core post ot).resultRouters =
      [p.processors.length] ∧
    (AddSingleGroupStage p node core post ot).processors.getD
        p.processors.length defaultProcessor =
      ⟨node, { input := [⟨p.resultTypes⟩], core := core, post := post,
               output := {}, stageID := p.stageCounter + 1 }⟩ := by
  refine ⟨by simp [AddSingleGroupStage], by simp [AddSingleGroupStage], ?_⟩
  show (p.processors ++ [_]).getD p.processors.length defaultProcessor = _
  rw [getD_concat_length]

theorem AddNoGroupingStage_facts (p : PhysicalPlan) (core : ProcessorCore)
    (post : PostProcessSpec) (ot : List ColType) (no : DOrdering) :
    (AddNoGroupingStage p core post ot no).processors.length =
      p.processors.length + p.resultRouters.length ∧
    (AddNoGroupingStage p core post ot no).resultRouters =
      (List.range p.resultRouters.length).map (fun i => p.processors.length + i) ∧
    ∀ j, j < p.resultRouters.length →
      (AddNoGroupingStage p core post ot no).processors.getD
          (p.processors.length + j) defaultProcessor =
        ⟨(p.processors.getD (p.resultRouters.getD j 0) defaultProcessor).node,
         { input := [⟨p.resultTypes⟩], core := core, post := post,
           output := {}, stageID := p.stageCounter + 1 }⟩ := by
  refine ⟨by simp [AddNoGroupingStage], by simp [AddNoGroupingStage], ?_⟩
  intro j hj
  show (p.processors ++ p.resultRouters.map _).getD
      (p.processors.length + j) defaultProcessor = _
  rw [getD_append_shift, getD_map _ _ j _ 0 hj]

/-- C7: an index join instantiates one join reader per upstream result
router — each placed on that router's node, as a no-grouping stage —
exactly when the distribute_index_joins setting is on and the upstream
plan has more than one result router; otherwise it adds a single join
reader, placed on the upstream processor's node when there is exactly one
upstream result router and on the gateway otherwise. -/
theorem createPlanForIndexJoin_placement (distribute : Bool) (gateway tableId : Nat)
    (filter : Option PExpr) (outCols : List Nat) (colTypes : List ColType)
    (props : PhysProps) (p q : PhysicalPlan)
    (hq : createPlanForIndexJoin distribute gateway tableId filter outCols
      colTypes props p = some q) :
    if distribute = true ∧ 1 < p.resultRouters.length then
      q.processors.length = p.processors.length + p.resultRouters.length ∧
      ∀ j, j < p.resultRouters.length →
        (q.processors.getD (p.processors.length + j) defaultProcessor).spec.core =
          ProcessorCore.joinReader ⟨tableId, 0⟩ ∧
        (q.processors.getD (p.processors.length + j) defaultProcessor).node =
          (p.processors.getD (p.resultRouters.getD j 0) defaultProcessor).node
    else
      q.processors.length = p.processors.length + 1 ∧
      q.resultRouters = [p.processors.length] ∧
      (q.processors.getD p.processors.length defaultProcessor).spec.core =
        ProcessorCore.joinReader ⟨tableId, 0⟩ ∧
      (q.processors.getD p.processors.length defaultProcessor).node =
        (if p.resultRouters.length = 1 then
           (p.processors.getD (p.resultRouters.getD 0 0) defaultProcessor).node
         else gateway) := by
  simp only [createPlanForIndexJoin] at hq
  by_cases hcond : distribute = true ∧ 1 < p.resultRouters.length
  · rw [if_pos hcond]
    rw [if_pos hcond] at hq
    split at hq
    · exact absurd hq (by simp)
    rename_i newOrd hconv
    have hqe := (Option.some.inj hq).symm
    subst hqe
    obtain ⟨hf1, hf2, hf3⟩ := AddNoGroupingStage_facts
      { p with planToStreamColMap := indexJoinColMap p.planToStreamColMap outCols }
      (.joinReader ⟨tableId, 0⟩)
      { filter := filter, projection := true, outputColumns := outCols }
      (getTypesForPlanResult colTypes (indexJoinColMap p.planToStreamColMap outCols))
      newOrd
    refine ⟨hf1, ?_⟩
    intro j hj
    rw [hf3 j hj]
    exact ⟨rfl, rfl⟩
  · rw [if_neg hcond]
    rw [if_neg hcond] at hq
    have hqe := (Option.some.inj hq).symm
    subst hqe
    obtain ⟨hf1, hf2, hf3⟩ := AddSingleGroupStage_facts
      { p with planToStreamColMap := indexJoinColMap p.planToStreamColMap outCols }
      (if p.resultRouters.length = 1 then
         (p.processors.getD (p.resultRouters.getD 0 0) defaultProcessor).node
       else gateway)
      (.joinReader ⟨tableId, 0⟩)
      { filter := filter, projection := true, outputColumns := outCols }
      (getTypesForPlanResult colTypes (indexJoinColMap p.planToStreamColMap outCols))
    refine ⟨hf1, hf2, ?_, ?_⟩
    · rw [hf3]
    · rw [hf3]

/-- Witness for C7: a two-router upstream plan with the setting on takes
the distributed branch. -/
theorem createPlanForIndexJoin_placement_witness :
    createPlanForIndexJoin true 1 7 none [0] [0] {} pIJ = some qIJ ∧
    (if true = true ∧ 1 < pIJ.resultRouters.length then
      qIJ.processors.length = pIJ.processors.length + pIJ.resultRouters.length ∧
      ∀ j, j < pIJ.resultRouters.length →
        (qIJ.processors.getD (pIJ.processors.length + j) defaultProcessor).spec.core =
          ProcessorCore.joinReader ⟨7, 0⟩ ∧
        (qIJ.processors.getD (pIJ.processors.length + j) defaultProcessor).node =
          (pIJ.processors.getD (pIJ.resultRouters.getD j 0) defaultProcessor).node
    else
      qIJ.processors.length = pIJ.processors.length + 1 ∧
      qIJ.resultRouters = [pIJ.processors.length] ∧
      (qIJ.processors.getD pIJ.processors.length defaultProcessor).spec.core =
        ProcessorCore.joinReader ⟨7, 0⟩ ∧
      (qIJ.processors.getD pIJ.processors.length defaultProcessor).node =
        (if pIJ.resultRouters.length = 1 then
           (pIJ.processors.getD (pIJ.resultRouters.getD 0 0) defaultProcessor).node
         else 1)) :=
  ⟨rfl, createPlanForIndexJoin_placement true 1 7 none [0] [0] {} pIJ qIJ rfl⟩

theorem AddNoGroupingStage_getD_low (p : PhysicalPlan) (core : ProcessorCore)
    (post : PostProcessSpec) (ot : List ColType) (no : DOrdering) (i : Nat)
    (hi : i < p.processors.length) :
    (AddNoGroupingStage p core post ot no).processors.getD i defaultProcessor =
      p.processors.getD i defaultProcessor := by
  show (p.processors ++ _).getD i defaultProcessor = _
  rw [getD_append_left _ _ _ _ hi]

theorem AddSingleGroupStage_getD_low (p : PhysicalPlan) (node : Nat)
    (core : ProcessorCore) (post : PostProcessSpec) (ot : List ColType) (i : Nat)
    (hi : i < p.processors.length) :
    (AddSingleGroupStage p node core post ot).processors.getD i defaultProcessor =
      p.processors.getD i defaultProcessor := by
  show (p.processors ++ _).getD i defaultProcessor = _
  rw [getD_append_left _ _ _ _ hi]

theorem mergeStreamsFold_processors (routers : List Nat) (s : Nat) (l : List Nat)
    (p : PhysicalPlan) :
    (l.foldl (fun q bucket => MergeResultStreams q routers bucket {} (s + bucket) 0)
      p).processors = p.processors := by
  induction l generalizing p with
  | nil => rfl
  | cons b rest ih =>
    rw [List.foldl_cons, ih]
    rfl

theorem addFinalStageDistributed_facts (p : PhysicalPlan) (spec : AggregatorSpec)
    (post : PostProcessSpec) (outTypes : List ColType) :
    (addFinalStageDistributed p spec post outTypes).processors.length =
      p.processors.length + p.resultRouters.length ∧
    (∀ i, (addFinalStageDistributed p spec post outTypes).processors.getD i
        defaultProcessor =
      (setRouterOutputs p.processors p.resultRouters
          ⟨.byHash, spec.groupCols, []⟩ ++
        p.resultRouters.map (fun r =>
          (⟨(setRouterOutputs p.processors p.resultRouters
               ⟨.byHash, spec.groupCols, []⟩ |>.getD r defaultProcessor).node,
            { input := [⟨p.resultTypes⟩], core := .aggregator spec, post := post,
              output := {}, stageID := p.stageCounter + 1 }⟩ : Processor))).getD i
          defaultProcessor) := by
  constructor
  · simp only [addFinalStageDistributed]
    rw [mergeStreamsFold_processors]
    dsimp only
    rw [List.length_append, (setRouterOutputs_preserves _ _ _).1, List.length_map]
  · intro i
    simp only [addFinalStageDistributed]
    rw [mergeStreamsFold_processors]

theorem addFinalStageDistributed_core_low (p : PhysicalPlan) (spec : AggregatorSpec)
    (post : PostProcessSpec) (outTypes : List ColType) (i : Nat)
    (hi : i < p.processors.length) :
    ((addFinalStageDistributed p spec post outTypes).processors.getD i
        defaultProcessor).spec.core =
      ((p.processors.getD i defaultProcessor)).spec.core := by
  rw [(addFinalStageDistributed_facts p spec post outTypes).2 i]
  rw [getD_append_left _ _ _ _ (by rw [(setRouterOutputs_preserves _ _ _).1]; exact hi),
    (setRouterOutputs_preserves _ _ _).2 i |>.1]

theorem addFinalStageDistributed_node_low (p : PhysicalPlan) (spec : AggregatorSpec)
    (post : PostProcessSpec) (outTypes : List ColType) (i : Nat)
    (hi : i < p.processors.length) :
    ((addFinalStageDistributed p spec post outTypes).processors.getD i
        defaultProcessor).node =
      ((p.processors.getD i defaultProcessor)).node := by
  rw [(addFinalStageDistributed_facts p spec post outTypes).2 i]
  rw [getD_append_left _ _ _ _ (by rw [(setRouterOutputs_preserves _ _ _).1]; exact hi),
    (setRouterOutputs_preserves _ _ _).2 i |>.2]

theorem addFinalStageDistributed_core_high (p : PhysicalPlan) (spec : AggregatorSpec)
    (post : PostProcessSpec) (outTypes : List ColType) (j : Nat)
    (hj : j < p.resultRouters.length) :
    ((addFinalStageDistributed p spec post outTypes).processors.getD
        (p.processors.length + j) defaultProcessor).spec.core =
      ProcessorCore.aggregator spec := by
  rw [(addFinalStageDistributed_facts p spec post outTypes).2 (p.processors.length + j)]
  have hlen : p.processors.length =
      (setRouterOutputs p.processors p.resultRouters
        ⟨.byHash, spec.groupCols, []⟩).length := by
    rw [(setRouterOutputs_preserves _ _ _).1]
  rw [hlen, getD_append_shift, getD_map _ _ j _ 0 hj]

theorem addFinalStage_length (gateway pn : Nat) (p : PhysicalPlan)
    (spec : AggregatorSpec) (post : PostProcessSpec) (outTypes : List ColType) :
    (addFinalStage gateway pn p spec post outTypes).processors.length =
      p.processors.length +
        (if spec.groupCols = [] ∨ p.resultRouters.length = 1 then 1
         else p.resultRouters.length) := by
  unfold addFinalStage
  by_cases h : spec.groupCols = [] ∨ p.resultRouters.length = 1
  · rw [if_pos h, if_pos h, (AddSingleGroupStage_facts _ _ _ _ _).1]
  · rw [if_neg h, if_neg h, (addFinalStageDistributed_facts _ _ _ _).1]

theorem addFinalStage_core_low (gateway pn : Nat) (p : PhysicalPlan)
    (spec : AggregatorSpec) (post : PostProcessSpec) (outTypes : List ColType)
    (i : Nat) (hi : i < p.processors.length) :
    ((addFinalStage gateway pn p spec post outTypes).processors.getD i
        defaultProcessor).spec.core =
      (p.processors.getD i defaultProcessor).spec.core := by
  unfold addFinalStage
  by_cases h : spec.groupCols = [] ∨ p.resultRouters.length = 1
  · rw [if_pos h, AddSingleGroupStage_getD_low _ _ _ _ _ _ hi]
  · rw [if_neg h, addFinalStageDistributed_core_low _ _ _ _ _ hi]

theorem addFinalStage_node_low (gateway pn : Nat) (p : PhysicalPlan)
    (spec : AggregatorSpec) (post : PostProcessSpec) (outTypes : List ColType)
    (i : Nat) (hi : i < p.processors.length) :
    ((addFinalStage gateway pn p spec post outTypes).processors.getD i
        defaultProcessor).node =
      (p.processors.getD i defaultProcessor).node := by
  unfold addFinalStage
  by_cases h : spec.groupCols = [] ∨ p.resultRouters.length = 1
  · rw [if_pos h, AddSingleGroupStage_getD_low _ _ _ _ _ _ hi]
  · rw [if_neg h, addFinalStageDistributed_node_low _ _ _ _ _ hi]

theorem addFinalStage_core_high (gateway pn : Nat) (p : PhysicalPlan)
    (spec : AggregatorSpec) (post : PostProcessSpec) (outTypes : List ColType)
    (i : Nat) (hge : p.processors.length ≤ i)
    (hlt : i < (addFinalStage gateway pn p spec post outTypes).processors.length) :
    ((addFinalStage gateway pn p spec post outTypes).processors.getD i
        defaultProcessor).spec.core = ProcessorCore.aggregator spec := by
  rw [addFinalStage_length] at hlt
  unfold addFinalStage
  by_cases h : spec.groupCols = [] ∨ p.resultRouters.length = 1
  · rw [if_pos h]
    rw [if_pos h] at hlt
    have hi : i = p.processors.length := by omega
    rw [hi, (AddSingleGroupStage_facts _ _ _ _ _).2.2]
  · rw [if_neg h]
    rw [if_neg h] at hlt
    have hi : i = p.processors.length + (i - p.processors.length) := by omega
    rw [hi, addFinalStageDistributed_core_high _ _ _ _ _ (by omega)]

theorem aggDecisionLoop_ms_iff (table : AggFunc → Option DistAggInfo) :
    ∀ (aggs : List Aggregation) (ms ad anyd : Bool),
    (aggDecisionLoop table aggs ms ad anyd).1 = true ↔
      (ms = true ∧ ∀ a ∈ aggs, (table a.func).isSome ∧ a.distinct = false) := by
  intro aggs
  induction aggs with
  | nil =>
    intro ms ad anyd
    simp [aggDecisionLoop]
  | cons e rest ih =>
    intro ms ad anyd
    show (if (table e.func).isNone then
            ((false : Bool), if e.distinct then ad else false,
             if e.distinct then true else anyd)
          else aggDecisionLoop table rest (if e.distinct then false else ms)
            (if e.distinct then ad else false)
            (if e.distinct then true else anyd)).1 = true ↔ _
    by_cases ht : (table e.func).isNone
    · rw [if_pos ht]
      simp only [List.mem_cons]
      constructor
      · intro h
        simp at h
      · rintro ⟨_, hall⟩
        have := (hall e (Or.inl rfl)).1
        rw [Option.isSome_iff_exists] at this
        obtain ⟨v, hv⟩ := this
        rw [hv] at ht
        simp at ht
    · rw [if_neg ht]
      rw [ih]
      by_cases hd : e.distinct = true
      · rw [if_pos hd]
        simp only [List.mem_cons]
        constructor
        · intro h
          exact absurd h.1 (by simp)
        · rintro ⟨_, hall⟩
          exact absurd (hall e (Or.inl rfl)).2 (by rw [hd]; simp)
      · rw [if_neg hd]
        simp only [List.mem_cons]
        constructor
        · rintro ⟨hms, hall⟩
          refine ⟨hms, ?_⟩
          rintro a (rfl | ha)
          · refine ⟨?_, by simpa using hd⟩
            cases hv : table a.func with
            | none => rw [hv] at ht; simp at ht
            | some v => simp
          · exact hall a ha
        · rintro ⟨hms, hall⟩
          exact ⟨hms, fun a ha => hall a (Or.inr ha)⟩

theorem aggDecision_ms_iff (table : AggFunc → Option DistAggInfo) (p : PhysicalPlan)
    (aggs : List Aggregation) :
    (aggDecision table p aggs).1 = true ↔
      (prevStageNode p = 0 ∧
       ∀ a ∈ aggs, (table a.func).isSome ∧ a.distinct = false) := by
  unfold aggDecision
  by_cases hpn : prevStageNode p = 0
  · rw [if_pos hpn]
    dsimp only
    rw [aggDecisionLoop_ms_iff]
    simp [hpn]
  · rw [if_neg hpn]
    simp [hpn]

theorem aggDecisionLoop_all_distinct (table : AggFunc → Option DistAggInfo) :
    ∀ (aggs : List Aggregation) (ms ad anyd : Bool),
    (∀ a ∈ aggs, a.distinct = true) →
    (aggDecisionLoop table aggs ms ad anyd).2.1 = ad ∧
    (aggDecisionLoop table aggs ms ad anyd).2.2 = (anyd || !aggs.isEmpty) := by
  intro aggs
  induction aggs with
  | nil =>
    intro ms ad anyd _
    simp [aggDecisionLoop]
  | cons e rest ih =>
    intro ms ad anyd hall
    have hd : e.distinct = true := hall e (List.mem_cons_self _ _)
    have hstep : aggDecisionLoop table (e :: rest) ms ad anyd =
        (if (table e.func).isNone then ((false : Bool), ad, true)
         else aggDecisionLoop table rest false ad true) := by
      show (if (table e.func).isNone then
              ((false : Bool), if e.distinct then ad else false,
               if e.distinct then true else anyd)
            else aggDecisionLoop table rest (if e.distinct then false else ms)
              (if e.distinct then ad else false)
              (if e.distinct then true else anyd)) = _
      rw [if_pos hd, if_pos hd, if_pos hd]
    rw [hstep]
    by_cases ht : (table e.func).isNone
    · rw [if_pos ht]
      simp
    · rw [if_neg ht]
      obtain ⟨h1, h2⟩ := ih false ad true
        (fun a ha => hall a (List.mem_cons_of_mem _ ha))
      rw [h1, h2]
      simp

theorem aggDecision_all_distinct (table : AggFunc → Option DistAggInfo)
    (p : PhysicalPlan) (aggs : List Aggregation)
    (hpn : prevStageNode p = 0) (hne : aggs ≠ [])
    (hall : ∀ a ∈ aggs, a.distinct = true) :
    (aggDecision table p aggs).1 = false ∧ (aggDecision table p aggs).2.1 = true := by
  obtain ⟨h1, h2⟩ := aggDecisionLoop_all_distinct table aggs true true false hall
  have hms : (aggDecision table p aggs).1 = false := by
    rw [← Bool.not_eq_true]
    rw [aggDecision_ms_iff]
    rintro ⟨_, hns⟩
    cases aggs with
    | nil => exact hne rfl
    | cons a rest =>
      have := (hns a (List.mem_cons_self _ _)).2
      rw [hall a (List.mem_cons_self _ _)] at this
      simp at this
  refine ⟨hms, ?_⟩
  unfold aggDecision
  rw [if_pos hpn]
  dsimp only
  rw [h1, h2]
  simp [hne]

theorem addAggregators_nms_nad_len (env : AggEnv) (gateway : Nat)
    (aggs : List Aggregation) (ngc : Nat) (props : PhysProps) (p q : PhysicalPlan)
    (hms : (aggDecision env.table p aggs).1 = false)
    (had : (aggDecision env.table p aggs).2.1 = false)
    (hq : addAggregators env gateway aggs ngc props p = .ok q) :
    q.processors.length = p.processors.length +
      (if groupColsOf p ngc = [] ∨ p.resultRouters.length = 1 then 1
       else p.resultRouters.length) := by
  simp only [addAggregators] at hq
  have hcond : ¬((aggDecision env.table p aggs).1 = false ∧
      (aggDecision env.table p aggs).2.1 = true) := by
    rintro ⟨_, h2⟩
    rw [had] at h2
    exact absurd h2 (by simp)
  simp only [if_neg hcond] at hq
  simp only [hms, eq_self_iff_true, if_true] at hq
  split at hq
  · exact absurd hq (by simp)
  rename_i fot hfot
  have hqe := Except.ok.inj hq
  rw [← hqe]
  dsimp only
  rw [addFinalStage_length]

theorem addAggregators_nms_ad_shape (env : AggEnv) (gateway : Nat)
    (aggs : List Aggregation) (ngc : Nat) (props : PhysProps) (p q : PhysicalPlan)
    (hr : p.resultRouters ≠ [])
    (hms : (aggDecision env.table p aggs).1 = false)
    (had : (aggDecision env.table p aggs).2.1 = true)
    (hq : addAggregators env gateway aggs ngc props p = .ok q) :
    ∃ ord, convertOrdering props p.planToStreamColMap = some ord ∧
      (∀ j, j < p.resultRouters.length →
        (q.processors.getD (p.processors.length + j) defaultProcessor).spec.core =
          ProcessorCore.distinct
            ⟨sortedDedup (ord.columns.map (fun c => c.colIdx)),
             sortedDedup (aggColIdxs aggs)⟩ ∧
        (q.processors.getD (p.processors.length + j) defaultProcessor).node =
          (p.processors.getD (p.resultRouters.getD j 0) defaultProcessor).node) ∧
      p.processors.length + p.resultRouters.length < q.processors.length ∧
      ∀ i, p.processors.length + p.resultRouters.length ≤ i →
        i < q.processors.length →
        (q.processors.getD i defaultProcessor).spec.core =
          ProcessorCore.aggregator ⟨aggs, groupColsOf p ngc⟩ := by
  have hrpos : 0 < p.resultRouters.length := List.length_pos.mpr hr
  simp only [addAggregators] at hq
  have hcond : (aggDecision env.table p aggs).1 = false ∧
      (aggDecision env.table p aggs).2.1 = true := ⟨hms, had⟩
  simp only [if_pos hcond] at hq
  split at hq
  · exact absurd hq (by simp)
  rename_i p1 hp1
  split at hp1
  · exact absurd hp1 (by simp)
  rename_i ord hord
  have hp1e := (Except.ok.inj hp1).symm
  subst hp1e
  simp only [hms, eq_self_iff_true, if_true] at hq
  split at hq
  · exact absurd hq (by simp)
  rename_i fot hfot
  have hqe := Except.ok.inj hq
  obtain ⟨hf1, hf2, hf3⟩ := AddNoGroupingStage_facts p
    (.distinct ⟨sortedDedup (ord.columns.map (fun c => c.colIdx)),
                sortedDedup (aggColIdxs aggs)⟩)
    {} p.resultTypes p.mergeOrdering
  refine ⟨ord, hord, ?_, ?_, ?_⟩
  · intro j hj
    rw [← hqe]
    dsimp only
    rw [addFinalStage_core_low _ _ _ _ _ _ _ (by rw [hf1]; omega),
        addFinalStage_node_low _ _ _ _ _ _ _ (by rw [hf1]; omega),
        hf3 j hj]
    exact ⟨rfl, rfl⟩
  · rw [← hqe]
    dsimp only
    rw [addFinalStage_length, hf1]
    have : (1 ≤ if ({ aggregations := aggs, groupCols := groupColsOf p ngc } :
        AggregatorSpec).groupCols = [] ∨
        (AddNoGroupingStage p
          (ProcessorCore.distinct
            ⟨sortedDedup (List.map (fun c => c.colIdx) ord.columns),
             sortedDedup (aggColIdxs aggs)⟩)
          {} p.resultTypes p.mergeOrdering).resultRouters.length = 1 then 1
      else (AddNoGroupingStage p
          (ProcessorCore.distinct
            ⟨sortedDedup (List.map (fun c => c.colIdx) ord.columns),
             sortedDedup (aggColIdxs aggs)⟩)
          {} p.resultTypes p.mergeOrdering).resultRouters.length) := by
      rw [hf2]
      split
      · omega
      · simpa using hrpos
    omega
  · intro i hge hlt
    rw [← hqe] at hlt ⊢
    dsimp only at hlt ⊢
    exact addFinalStage_core_high _ _ _ _ _ _ i (by rw [hf1]; omega) hlt

theorem addAggregators_ms_shape (env : AggEnv) (gateway : Nat)
    (aggs : List Aggregation) (ngc : Nat) (props : PhysProps) (p q : PhysicalPlan)
    (hr : p.resultRouters ≠ [])
    (hms : (aggDecision env.table p aggs).1 = true)
    (hq : addAggregators env gateway aggs ngc props p = .ok q) :
    p.processors.length + p.resultRouters.length < q.processors.length ∧
    ∀ i, p.processors.length ≤ i → i < q.processors.length →
      isAggCore ((q.processors.getD i defaultProcessor).spec.core) = true := by
  have hrpos : 0 < p.resultRouters.length := List.length_pos.mpr hr
  simp only [addAggregators] at hq
  have hcond : ¬((aggDecision env.table p aggs).1 = false ∧
      (aggDecision env.table p aggs).2.1 = true) := by
    rintro ⟨h1, _⟩
    rw [hms] at h1
    exact absurd h1 (by simp)
  simp only [if_neg hcond] at hq
  have hcond2 : ¬((aggDecision env.table p aggs).1 = false) := by
    rw [hms]
    simp
  simp only [if_neg hcond2] at hq
  split at hq
  · exact absurd hq (by simp)
  rename_i la0 it0 fa fim pr5 hbuild
  split at hq
  · exact absurd hq (by simp)
  rename_i fpost msf hpm
  split at hq
  · exact absurd hq (by simp)
  rename_i fot hfot
  obtain ⟨gf1, gf2, gf3⟩ := AddNoGroupingStage_facts p
    (ProcessorCore.aggregator
      ⟨(addGroupIdents p.resultTypes (groupColsOf p ngc) (la0, it0, [])).1,
       groupColsOf p ngc⟩)
    {} ((addGroupIdents p.resultTypes (groupColsOf p ngc) (la0, it0, [])).2.1)
    orderingTerminated
  cases msf with
  | false =>
    rw [if_neg (by simp), if_neg (by simp)] at hq
    have hqe := Except.ok.inj hq
    constructor
    · rw [← hqe]
      dsimp only
      rw [addFinalStage_length, gf1, gf2]
      simp only [List.length_map, List.length_range]
      split
      · omega
      · omega
    · intro i hge hlt
      rw [← hqe] at hlt ⊢
      dsimp only at hlt ⊢
      by_cases hihigh : p.processors.length + p.resultRouters.length ≤ i
      · rw [addFinalStage_core_high _ _ _ _ _ _ i (by rw [gf1]; omega) hlt]
        rfl
      · rw [addFinalStage_core_low _ _ _ _ _ _ _ (by rw [gf1]; omega)]
        have hj : i - p.processors.length < p.resultRouters.length := by omega
        have hidx : i = p.processors.length + (i - p.processors.length) := by omega
        rw [hidx, gf3 _ hj]
        rfl
  | true =>
    rw [if_pos rfl, if_pos rfl] at hq
    have hqe := Except.ok.inj hq
    constructor
    · rw [← hqe]
      rw [addFinalStage_length]
      dsimp only
      rw [gf1, gf2]
      simp only [List.length_map, List.length_range]
      split
      · omega
      · omega
    · intro i hge hlt
      rw [← hqe] at hlt ⊢
      by_cases hihigh : p.processors.length + p.resultRouters.length ≤ i
      · rw [addFinalStage_core_high _ _ _ _ _ _ i (by dsimp only; rw [gf1]; omega)
          hlt]
        rfl
      · rw [addFinalStage_core_low _ _ _ _ _ _ _ (by dsimp only; rw [gf1]; omega)]
        dsimp only
        have hj : i - p.processors.length < p.resultRouters.length := by omega
        have hidx : i = p.processors.length + (i - p.processors.length) := by omega
        rw [hidx, gf3 _ hj]
        rfl

/-- C6 (amended): with at least one upstream result router, `addAggregators`
takes the two-stage path — strictly more processors appended than one per
router, all of them aggregators — exactly when the upstream routers span
more than one node, every aggregate function is in the distributed
aggregation table, and no aggregate has the distinct flag; and when the
upstream spans more than one node and every aggregate is distinct, a local
distinct stage (one distinct processor per router, on that router's node,
with sorted de-duplicated ordered and distinct columns) is inserted before
the final aggregation stage.  With a single-node upstream no distinct stage
is inserted even if every aggregate is distinct. -/
theorem addAggregators_two_stage_iff (env : AggEnv) (gateway : Nat)
    (aggs : List Aggregation) (ngc : Nat) (props : PhysProps) (p q : PhysicalPlan)
    (hr : p.resultRouters ≠ [])
    (hq : addAggregators env gateway aggs ngc props p = .ok q) :
    ((p.processors.length + p.resultRouters.length < q.processors.length ∧
      ∀ i, p.processors.length ≤ i → i < q.processors.length →
        isAggCore ((q.processors.getD i defaultProcessor).spec.core) = true) ↔
      (prevStageNode p = 0 ∧
       ∀ a ∈ aggs, (env.table a.func).isSome ∧ a.distinct = false)) ∧
    ((prevStageNode p = 0 ∧ aggs ≠ [] ∧ ∀ a ∈ aggs, a.distinct = true) →
      ∃ ord, convertOrdering props p.planToStreamColMap = some ord ∧
        (∀ j, j < p.resultRouters.length →
          (q.processors.getD (p.processors.length + j) defaultProcessor).spec.core =
            ProcessorCore.distinct
              ⟨sortedDedup (ord.columns.map (fun c => c.colIdx)),
               sortedDedup (aggColIdxs aggs)⟩ ∧
          (q.processors.getD (p.processors.length + j) defaultProcessor).node =
            (p.processors.getD (p.resultRouters.getD j 0) defaultProcessor).node) ∧
        p.processors.length + p.resultRouters.length < q.processors.length ∧
        ∀ i, p.processors.length + p.resultRouters.length ≤ i →
          i < q.processors.length →
          (q.processors.getD i defaultProcessor).spec.core =
            ProcessorCore.aggregator ⟨aggs, groupColsOf p ngc⟩) := by
  have hrpos : 0 < p.resultRouters.length := List.length_pos.mpr hr
  constructor
  · constructor
    · intro hshape
      rw [← aggDecision_ms_iff env.table p aggs]
      by_contra hmsf
      have hms : (aggDecision env.table p aggs).1 = false := by
        cases h : (aggDecision env.table p aggs).1
        · rfl
        · exact absurd h hmsf
      cases had : (aggDecision env.table p aggs).2.1 with
      | false =>
        have hlen := addAggregators_nms_nad_len env gateway aggs ngc props p q
          hms had hq
        rcases hshape with ⟨hlt, _⟩
        rw [hlen] at hlt
        split at hlt
        · omega
        · omega
      | true =>
        obtain ⟨ord, hord, hdist, hlt, hhigh⟩ := addAggregators_nms_ad_shape env
          gateway aggs ngc props p q hr hms had hq
        obtain ⟨hd0, _⟩ := hdist 0 hrpos
        have hcontra := hshape.2 (p.processors.length + 0) (by omega) (by omega)
        rw [hd0] at hcontra
        simp [isAggCore] at hcontra
    · intro hrhs
      have hms : (aggDecision env.table p aggs).1 = true :=
        (aggDecision_ms_iff env.table p aggs).mpr hrhs
      exact addAggregators_ms_shape env gateway aggs ngc props p q hr hms hq
  · rintro ⟨hpn, hne, hall⟩
    obtain ⟨hms, had⟩ := aggDecision_all_distinct env.table p aggs hpn hne hall
    exact addAggregators_nms_ad_shape env gateway aggs ngc props p q hr hms had hq

/-- C6 counterexample: an upstream whose two result routers sit on a single
node disqualifies the two-stage path, and all aggregates are distinct, yet
`addAggregators` completes without inserting any local distinct stage —
the decision scan only runs, and `allDistinct` only survives, when the
upstream spans more than one node. -/
theorem addAggregators_no_distinct_stage_counterexample :
    prevStageNode pC6 ≠ 0 ∧
    aggsC6 ≠ [] ∧
    (∀ a ∈ aggsC6, a.distinct = true) ∧
    addAggregators aggEnvW6 9 aggsC6 0 {} pC6 = .ok qC6 ∧
    ∀ pr ∈ qC6.processors, isDistinctCore pr.spec.core = false := by
  refine ⟨by decide, by decide, by decide, rfl, by decide⟩

/-- Witness for C6: two routers on distinct nodes with one plain in-table
aggregate — the two-stage equivalence and the (vacuous here) distinct-stage
implication instantiate concretely. -/
theorem addAggregators_two_stage_iff_witness :
    pW6.resultRouters ≠ [] ∧
    addAggregators aggEnvW6 9 aggsW6 0 {} pW6 = .ok qW6 ∧
    (((pW6.processors.length + pW6.resultRouters.length < qW6.processors.length ∧
      ∀ i, pW6.processors.length ≤ i → i < qW6.processors.length →
        isAggCore ((qW6.processors.getD i defaultProcessor).spec.core) = true) ↔
      (prevStageNode pW6 = 0 ∧
       ∀ a ∈ aggsW6, (aggEnvW6.table a.func).isSome ∧ a.distinct = false)) ∧
    ((prevStageNode pW6 = 0 ∧ aggsW6 ≠ [] ∧ ∀ a ∈ aggsW6, a.distinct = true) →
      ∃ ord, convertOrdering {} pW6.planToStreamColMap = some ord ∧
        (∀ j, j < pW6.resultRouters.length →
          (qW6.processors.getD (pW6.processors.length + j)
              defaultProcessor).spec.core =
            ProcessorCore.distinct
              ⟨sortedDedup (ord.columns.map (fun c => c.colIdx)),
               sortedDedup (aggColIdxs aggsW6)⟩ ∧
          (qW6.processors.getD (pW6.processors.length + j)
              defaultProcessor).node =
            (pW6.processors.getD (pW6.resultRouters.getD j 0)
              defaultProcessor).node) ∧
        pW6.processors.length + pW6.resultRouters.length < qW6.processors.length ∧
        ∀ i, pW6.processors.length + pW6.resultRouters.length ≤ i →
          i < qW6.processors.length →
          (qW6.processors.getD i defaultProcessor).spec.core =
            ProcessorCore.aggregator ⟨aggsW6, groupColsOf pW6 0⟩)) :=
  ⟨by decide, rfl,
   addAggregators_two_stage_iff aggEnvW6 9 aggsW6 0 {} pW6 qW6 (by decide) rfl⟩
